import Mathlib

/-!
Verification of the model-serialization subsystem of the gammapy repository
(`gammapy/utils/serialization/io.py`).

Python objects are mutable and compared by identity, so the embedding keeps an
explicit heap: `Store` maps parameter-object ids to `Param` values and
`Parameters`-collection ids to lists of parameter-object ids.  Python strings
are modelled as `List Char`; Python dicts produced by serialization are
modelled as structures with optional fields standing for optional keys.
Fallible Python code (missing dict keys, `getattr` on unknown class names,
`NotImplementedError`, unbound locals) is modelled in `Except PyErr`.
-/

namespace GammapyIO

/-- Python strings as character lists. -/
abbrev PStr := List Char

/-- Literal helper: the character list of a string literal. -/
def pstr (s : String) : PStr := s.toList

/-- A `Parameter` object's fields: name, numeric value, unit string, frozen
flag (`gammapy.utils.fitting.Parameter`; per spec §3 "named numeric quantity
with a unit, a value, a frozen/free flag, and an identity distinct from its
name"). -/
structure Param where
  pname : PStr
  value : ℚ
  unit : PStr
  frozen : Bool
deriving DecidableEq

/-- The object heap: parameter objects and `Parameters` collection objects,
each addressed by ids, plus fresh-id counters. -/
structure Store where
  params : Nat → Param
  colls : Nat → List Nat
  nextP : Nat
  nextC : Nat

/-- Overwrite the parameter object at id `i` (a Python attribute mutation). -/
def updParam (st : Store) (i : Nat) (p : Param) : Store :=
  { st with params := fun j => if j = i then p else st.params j }

/-- Overwrite the collection object at id `i` (mutating a `Parameters` list). -/
def updColl (st : Store) (i : Nat) (c : List Nat) : Store :=
  { st with colls := fun j => if j = i then c else st.colls j }

/-- Allocate a fresh parameter object. -/
def allocParam (st : Store) (p : Param) : Store × Nat :=
  ({ st with params := fun j => if j = st.nextP then p else st.params j,
             nextP := st.nextP + 1 }, st.nextP)

/-- Allocate a fresh `Parameters` collection object. -/
def allocColl (st : Store) (c : List Nat) : Store × Nat :=
  ({ st with colls := fun j => if j = st.nextC then c else st.colls j,
             nextC := st.nextC + 1 }, st.nextC)

/-- Modelled from the spec: the spatial model classes of `gammapy.image.models`
reachable by `getattr` (the module itself is not under src; the spec names
`PointSpatialModel` and file-backed template models). -/
inductive SpatialType
  | pointSpatialModel
  | gaussianSpatialModel
  | templateSpatialModel
deriving DecidableEq

/-- Class name of a spatial model class, as `getattr` sees it. -/
def SpatialType.clsName : SpatialType → PStr
  | .pointSpatialModel => pstr "PointSpatialModel"
  | .gaussianSpatialModel => pstr "GaussianSpatialModel"
  | .templateSpatialModel => pstr "TemplateSpatialModel"

/-- Modelled from the spec: `getattr(spatial, name)` — resolves a class name in
the spatial-models module, failing (AttributeError) on unknown names. -/
def spatialFromName (s : PStr) : Option SpatialType :=
  if s = pstr "PointSpatialModel" then some .pointSpatialModel
  else if s = pstr "GaussianSpatialModel" then some .gaussianSpatialModel
  else if s = pstr "TemplateSpatialModel" then some .templateSpatialModel
  else none

/-- Modelled from the spec: the spectral model classes of
`gammapy.spectrum.models` reachable by `getattr` (the spec names
`PowerLawSpectralModel`). -/
inductive SpectralType
  | powerLawSpectralModel
  | constantSpectralModel
deriving DecidableEq

/-- Class name of a spectral model class. -/
def SpectralType.clsName : SpectralType → PStr
  | .powerLawSpectralModel => pstr "PowerLawSpectralModel"
  | .constantSpectralModel => pstr "ConstantSpectralModel"

/-- Modelled from the spec: `getattr(spectral, name)`. -/
def spectralFromName (s : PStr) : Option SpectralType :=
  if s = pstr "PowerLawSpectralModel" then some .powerLawSpectralModel
  else if s = pstr "ConstantSpectralModel" then some .constantSpectralModel
  else none

/-- A spatial model object: its class, optional backing filename, and the id
of its `Parameters` collection. -/
structure SpatialModel where
  stype : SpatialType
  filename : Option PStr
  pcoll : Nat
deriving DecidableEq

/-- A spectral model object. -/
structure SpectralModel where
  stype : SpectralType
  pcoll : Nat
deriving DecidableEq

/-- An in-memory model: either a composite `SkyModel` (spatial + spectral
sub-models plus its own combined `Parameters` collection, built by the
constructor as spatial parameters followed by spectral parameters, holding the
same parameter objects), or a non-composite model (e.g. `BackgroundModel`,
`SkyDiffuseCube`) with a class-name tag, optional filename and parameters. -/
inductive Model
  | sky (mname : PStr) (spatial : SpatialModel) (spectral : SpectralModel) (pcoll : Nat)
  | generic (mname : PStr) (gtype : PStr) (filename : Option PStr) (pcoll : Nat)
deriving DecidableEq

/-- The model's name attribute. -/
def Model.mname : Model → PStr
  | .sky n _ _ _ => n
  | .generic n _ _ _ => n

/-- The id of the model's `Parameters` collection (`model.parameters`). -/
def Model.pcoll : Model → Nat
  | .sky _ _ _ c => c
  | .generic _ _ _ c => c

/-- The parameter-object ids of `model.parameters`, read from the heap. -/
def Model.paramIds (st : Store) (m : Model) : List Nat := st.colls m.pcoll

/-- All parameter objects traversed by `for model in models: for param in
model.parameters`, in order (duplicates kept). -/
def allParamIds (st : Store) (models : List Model) : List Nat :=
  (models.map (Model.paramIds st)).flatten

/-- The two accumulators of `_rename_shared_parameters`: `params_list` (seen)
and `params_shared`, filled by one pass over the parameter traversal.
Membership is Python `in` on parameter objects, i.e. object identity. -/
def collectSharedAux : List Nat → List Nat × List Nat → List Nat × List Nat
  | [], acc => acc
  | pid :: rest, (seen, shared) =>
    if pid ∈ seen then
      if pid ∈ shared then collectSharedAux rest (seen, shared)
      else collectSharedAux rest (seen, shared ++ [pid])
    else collectSharedAux rest (seen ++ [pid], shared)

/-- The `params_shared` list computed by `_rename_shared_parameters`. -/
def collectShared (st : Store) (models : List Model) : List Nat :=
  (collectSharedAux (allParamIds st models) ([], [])).2

/-- `str(k)` for a natural number, as a character list (decimal digits). -/
def natChars (n : Nat) : PStr :=
  if n = 0 then ['0'] else ((Nat.digits 10 n).reverse).map Nat.digitChar

/-- `param.name = param.name + "@shared_" + str(k)` for the `k`-th entry of
`params_shared` (`_rename_shared_parameters`, second phase); `k` is the
running `enumerate` index. -/
def renameSharedAux (st : Store) : Nat → List Nat → Store
  | _, [] => st
  | k, pid :: rest =>
    let p := st.params pid
    renameSharedAux
      (updParam st pid { p with pname := p.pname ++ pstr "@shared_" ++ natChars k })
      (k + 1) rest

/-- The renaming pass over the whole `params_shared` list. -/
def renameSharedList (st : Store) (shared : List Nat) : Store :=
  renameSharedAux st 0 shared

/-- `_rename_shared_parameters`. -/
def renameShared (st : Store) (models : List Model) : Store :=
  renameSharedList st (collectShared st models)

/-- Python `name.split("@")[0]`: the characters before the first `@` (the whole
string when there is none). -/
def pySplitHead (s : PStr) : PStr := s.takeWhile (fun c => c ≠ '@')

/-- One assignment `param.name = param.name.split("@")[0]` of
`_restore_shared_parameters`. -/
def restoreStep (st : Store) (pid : Nat) : Store :=
  updParam st pid { st.params pid with pname := pySplitHead (st.params pid).pname }

/-- `_restore_shared_parameters`: every traversed parameter's name is replaced
by `name.split("@")[0]`. -/
def restoreShared (st : Store) (models : List Model) : Store :=
  (allParamIds st models).foldl restoreStep st

/-- The serialized record of one parameter (spec §6: name, value, unit string,
frozen flag). -/
structure ParamDict where
  pname : PStr
  value : ℚ
  unit : PStr
  frozen : Bool
deriving DecidableEq

/-- A serialized spatial/spectral/background sub-record: type tag, optional
filename key, parameter records. -/
structure SubDict where
  mtype : PStr
  filename : Option PStr
  parameters : List ParamDict
deriving DecidableEq

/-- One record of the components list: name, optional top-level filename, and
either a `"spatial"`+`"spectral"` pair or a single `"model"` sub-record
(an `Option` field models presence of the dict key). -/
structure ModelDict where
  mname : PStr
  filename : Option PStr
  spatial : Option SubDict
  spectral : Option SubDict
  model : Option SubDict
deriving DecidableEq

/-- The top-level serialized form `{"components": [...]}`. -/
structure ComponentsDict where
  components : List ModelDict
deriving DecidableEq

/-- The serialized record of the parameter object at id `pid`. -/
def paramToDict (st : Store) (pid : Nat) : ParamDict :=
  let p := st.params pid
  ⟨p.pname, p.value, p.unit, p.frozen⟩

/-- Modelled from the spec: `model.to_dict(selection)` for spatial, spectral
and non-composite models is not under src; per spec §4.2/§6 it produces the
class-name type tag plus the ordered parameter records.  The `selection`
argument's effect is unspecified in the spec and not modelled. -/
def subToDict (st : Store) (cls : PStr) (pcoll : Nat) : SubDict :=
  ⟨cls, none, (st.colls pcoll).map (paramToDict st)⟩

/-- `_model_to_dict`: name, top-level filename when the model has one, and for
`SkyModel` the spatial dict (with the spatial sub-model's filename attached
when present) plus the spectral dict, otherwise a single `"model"` dict. -/
def modelToDict (st : Store) (m : Model) : ModelDict :=
  match m with
  | .sky n sp spec _ =>
    { mname := n, filename := none,
      spatial := some { subToDict st sp.stype.clsName sp.pcoll with filename := sp.filename },
      spectral := some (subToDict st spec.stype.clsName spec.pcoll),
      model := none }
  | .generic n ty fn pc =>
    { mname := n, filename := fn, spatial := none, spectral := none,
      model := some (subToDict st ty pc) }

/-- The de-duplicating append of `models_to_dict`: a record is appended only
if no equal record is already present (Python `in` on dicts is structural
equality). -/
def dedupAppend (acc : List ModelDict) (d : ModelDict) : List ModelDict :=
  if d ∈ acc then acc else acc ++ [d]

/-- `models_to_dict`: rename shared parameters, serialize each model with
de-duplication, restore the names, return `{"components": ...}` together with
the final heap.  (The `selection` argument is forwarded unchanged to the
sub-model `to_dict` calls, whose effect is not modelled; it is omitted.) -/
def models_to_dict (st : Store) (models : List Model) : Store × ComponentsDict :=
  let st1 := renameShared st models
  let recs := models.foldl (fun acc m => dedupAppend acc (modelToDict st1 m)) []
  let st2 := restoreShared st1 models
  (st2, ⟨recs⟩)

/-- The Python exceptions the subsystem can raise. -/
inductive PyErr
  | keyError
  | attributeError
  | notImplementedError
  | unboundLocal
  | indexError
deriving DecidableEq

/-- The parameter-allocating pass of `Parameters.from_dict`. -/
def paramsFromDictAux (acc : Store × List Nat) : List ParamDict → Store × List Nat
  | [] => acc
  | d :: rest =>
    let r := allocParam acc.1 ⟨d.pname, d.value, d.unit, d.frozen⟩
    paramsFromDictAux (r.1, acc.2 ++ [r.2]) rest

/-- Modelled from the spec: `Parameters.from_dict` (`gammapy.utils.fitting`,
not under src) — allocates one fresh `Parameter` object per serialized record,
in order, copying name (shared-name suffix kept, per spec §4.1), value, unit
and frozen flag, and wraps them in a fresh `Parameters` collection.  Returns
the new collection's id. -/
def paramsFromDict (st : Store) (ps : List ParamDict) : Store × Nat :=
  let r := paramsFromDictAux (st, []) ps
  allocColl r.1 r.2

/-- `_dict_to_skymodel`: rebuild the spatial model (resolving its class by
`getattr`, recording the filename when the record carries one — the
file-backed `read` path's parameters are immediately replaced by
`Parameters.from_dict(item)`, exactly like the constructor path, so both
branches produce the class, the optional filename and fresh parameters), then
the spectral model likewise, then the `SkyModel` whose combined `Parameters`
collection is spatial parameters followed by spectral parameters (the same
objects). -/
def dictToSkymodel (st : Store) (d : ModelDict) : Except PyErr (Store × Model) := do
  let some item := d.spatial | throw .keyError
  let some sptype := spatialFromName item.mtype | throw .attributeError
  let r1 := paramsFromDict st item.parameters
  let spatialM : SpatialModel := ⟨sptype, item.filename, r1.2⟩
  let some item2 := d.spectral | throw .keyError
  let some sctype := spectralFromName item2.mtype | throw .attributeError
  let r2 := paramsFromDict r1.1 item2.parameters
  let spectralM : SpectralModel := ⟨sctype, r2.2⟩
  let stc := r2.1
  let r3 := allocColl stc (stc.colls r1.2 ++ stc.colls r2.2)
  .ok (r3.1, .sky d.mname spatialM spectralM r3.2)

/-- The loop of `dict_to_models`: a `"model"`-keyed record of type
`"BackgroundModel"` is skipped, any other `"model"`-keyed record raises
`NotImplementedError`, and every other record goes through
`_dict_to_skymodel`. -/
def dictToModelsAux (st : Store) : List ModelDict → List Model → Except PyErr (Store × List Model)
  | [], acc => .ok (st, acc)
  | d :: rest, acc =>
    match d.model with
    | some sub =>
      if sub.mtype = pstr "BackgroundModel" then dictToModelsAux st rest acc
      else .error .notImplementedError
    | none =>
      match dictToSkymodel st d with
      | .error e => .error e
      | .ok r => dictToModelsAux r.1 rest (acc ++ [r.2])

/-- The per-model view `_link_shared_parameters` works on: for a `SkyModel`
the combined collection plus the nested spatial and spectral collections, for
any other model just its flat collection. -/
inductive LinkItem
  | skyItem (comb spC specC : Nat)
  | flatItem (pcoll : Nat)
deriving DecidableEq

/-- The collection iterated by `for param in model.parameters`. -/
def LinkItem.collId : LinkItem → Nat
  | .skyItem c _ _ => c
  | .flatItem c => c

/-- View of a model as a `LinkItem`. -/
def Model.toLinkItem : Model → LinkItem
  | .sky _ sp spec comb => .skyItem comb sp.pcoll spec.pcoll
  | .generic _ _ _ pc => .flatItem pc

/-- The `shared_register` lookup (`name in shared_register` /
`shared_register[name]`). -/
def lookupReg : List (PStr × Nat) → PStr → Option Nat
  | [], _ => none
  | kv :: rest, n => if kv.1 = n then some kv.2 else lookupReg rest n

/-- One iteration of the inner loop of `_link_shared_parameters`, at position
`i` of the model's (current) parameter collection: if the parameter's name
contains `@` then either replace it by the registered canonical object — at
the first index bearing that name, in the combined collection and, for a
`SkyModel`, in the nested spatial or spectral collection — or strip the
suffix and register this parameter as canonical. -/
def linkStep (acc : Store × List (PStr × Nat)) (it : LinkItem) (i : Nat) :
    Store × List (PStr × Nat) :=
  let st := acc.1
  let reg := acc.2
  let ids := st.colls it.collId
  match ids.get? i with
  | none => (st, reg)
  | some pid =>
    let n := (st.params pid).pname
    if '@' ∈ n then
      match lookupReg reg n with
      | some canonical =>
        let names := ids.map (fun j => (st.params j).pname)
        let st1 := updColl st it.collId (ids.set (names.indexOf n) canonical)
        match it with
        | .skyItem _ spC specC =>
          let spNames := (st1.colls spC).map (fun j => (st1.params j).pname)
          if n ∈ spNames then
            (updColl st1 spC ((st1.colls spC).set (spNames.indexOf n) canonical), reg)
          else
            let scNames := (st1.colls specC).map (fun j => (st1.params j).pname)
            if n ∈ scNames then
              (updColl st1 specC ((st1.colls specC).set (scNames.indexOf n) canonical), reg)
            else (st1, reg)
        | .flatItem _ => (st1, reg)
      | none =>
        (updParam st pid { st.params pid with pname := pySplitHead n }, (n, pid) :: reg)
    else (st, reg)

/-- The inner loop of `_link_shared_parameters` over one model's parameters.
Element replacement keeps the collection's length, so iterating the indices of
the initial collection matches the Python list iterator. -/
def linkItemRun (acc : Store × List (PStr × Nat)) (it : LinkItem) :
    Store × List (PStr × Nat) :=
  (List.range (acc.1.colls it.collId).length).foldl (fun a i => linkStep a it i) acc

/-- `_link_shared_parameters` over a list of models/backgrounds, starting from
an empty `shared_register`.  Only the heap changes (names and collection
contents); the models' field values (ids) do not. -/
def linkShared (st : Store) (items : List LinkItem) : Store :=
  (items.foldl linkItemRun (st, [])).1

/-- `dict_to_models`: deserialize every component, then (when `link` is true)
link shared parameters across the reconstructed models. -/
def dict_to_models (st : Store) (data : ComponentsDict) (link : Bool) :
    Except PyErr (Store × List Model) := do
  let r ← dictToModelsAux st data.components []
  if link then .ok (linkShared r.1 (r.2.map Model.toLinkItem), r.2)
  else .ok r

/-- A record that the `dict_to_models` loop processes without raising: either
a `"model"`-keyed `BackgroundModel` record (skipped) or a sky record whose
spatial and spectral keys are present with resolvable class names.  Success of
`_dict_to_skymodel` does not depend on the heap. -/
def recOk (d : ModelDict) : Bool :=
  match d.model with
  | some sub => sub.mtype = pstr "BackgroundModel"
  | none =>
    (match d.spatial with
     | some it => (spatialFromName it.mtype).isSome
     | none => false) &&
    (match d.spectral with
     | some it => (spectralFromName it.mtype).isSome
     | none => false)

/-- Whether a model is a composite `SkyModel`. -/
def Model.isSky : Model → Bool
  | .sky _ _ _ _ => true
  | .generic _ _ _ _ => false

/-- An empty heap, for concrete scenarios. -/
def emptyStore : Store := ⟨fun _ => ⟨[], 0, [], false⟩, fun _ => [], 0, 0⟩

/-- Observation helper: the value of the named parameter of a `SkyModel`'s
spectral sub-model, read from the heap. -/
def skySpectralParamValue (st : Store) (m : Model) (pn : PStr) : Option ℚ :=
  match m with
  | .sky _ _ spec _ =>
    (((st.colls spec.pcoll).map st.params).find? (fun p => p.pname = pn)).map Param.value
  | .generic _ _ _ _ => none

/-- Concrete heap for the C3 counterexample: one parameter object, id 0, whose
name `"a@b"` already contains an `@`. -/
def c3Store : Store := ⟨fun _ => ⟨pstr "a@b", 1, [], false⟩, fun _ => [0], 1, 1⟩

/-- Concrete model owning parameter 0 (a non-composite model). -/
def c3Model : Model := .generic (pstr "m") (pstr "SkyDiffuseCube") none 0

/-- Concrete heap for the C3 witness: parameter 0 named `"norm"`, shared by
two models via collection 0. -/
def c3wStore : Store := ⟨fun _ => ⟨pstr "norm", 1, [], false⟩, fun _ => [0], 1, 1⟩

/-- Two distinct model objects both referencing parameter 0. -/
def c3wModelA : Model := .generic (pstr "m1") (pstr "SkyDiffuseCube") none 0

/-- Second owner of parameter 0. -/
def c3wModelB : Model := .generic (pstr "m2") (pstr "SkyDiffuseCube") none 0

/-- C4 counterexample input: the first record is a sky record missing its
`"spatial"` key, the second is a `"model"`-keyed record of unsupported type
`"FooModel"`. -/
def c4Data : ComponentsDict :=
  ⟨[{ mname := pstr "a", filename := none, spatial := none, spectral := none, model := none },
    { mname := pstr "b", filename := none, spatial := none, spectral := none,
      model := some ⟨pstr "FooModel", none, []⟩ }]⟩

/-- C4 witness input: a lone unsupported `"model"`-keyed record. -/
def c4wData : ComponentsDict :=
  ⟨[{ mname := pstr "b", filename := none, spatial := none, spectral := none,
      model := some ⟨pstr "FooModel", none, []⟩ }]⟩

/-- C5 witness heap: one parameter object named `"x"`, one collection. -/
def c5Store : Store := ⟨fun _ => ⟨pstr "x", 1, [], false⟩, fun _ => [0], 1, 1⟩

/-- C5 witness model, listed twice. -/
def c5Model : Model := .generic (pstr "m") (pstr "BackgroundModel") none 0

/-- C10 witness heap: parameter objects 0 and 1 have equal fields but are
distinct objects; collections 0 and 1 are distinct collection objects holding
them. -/
def c10Store : Store :=
  ⟨fun _ => ⟨pstr "x", 1, [], false⟩, fun i => if i = 0 then [0] else [1], 2, 2⟩

/-- First of two structurally-equal but distinct model objects. -/
def c10ModelA : Model := .generic (pstr "m") (pstr "BackgroundModel") none 0

/-- Second model object: same name/type but its own parameter objects. -/
def c10ModelB : Model := .generic (pstr "m") (pstr "BackgroundModel") none 1

/-- C6 spatial sub-record from the spec's end-to-end scenario. -/
def c6Spatial : SubDict :=
  ⟨pstr "PointSpatialModel", none,
   [⟨pstr "lon_0", 0, pstr "deg", false⟩, ⟨pstr "lat_0", 0, pstr "deg", false⟩]⟩

/-- C6 spectral sub-record: `PowerLawSpectralModel` with `index = 2.0`. -/
def c6Spectral : SubDict :=
  ⟨pstr "PowerLawSpectralModel", none,
   [⟨pstr "index", 2, pstr "", false⟩, ⟨pstr "amplitude", 1, pstr "cm-2 s-1 TeV-1", false⟩,
    ⟨pstr "reference", 1, pstr "TeV", false⟩]⟩

/-- C6 components dict: one composite record named `"src"`. -/
def c6Data : ComponentsDict :=
  ⟨[{ mname := pstr "src", filename := none, spatial := some c6Spatial,
      spectral := some c6Spectral, model := none }]⟩

/-!  The dataset reconstructor (`dict_to_datasets`).  Background-model objects
live in their own heap (`bg`), since they are mutated (renamed, re-linked)
after being shared between a dataset's container and the global background
list.  The `BackgroundModels` container wrapper of `update_dataset` is the
identity here: containers are modelled directly as lists of object ids. -/

/-- A `BackgroundModel` object's fields: name, its `Parameters` collection id,
and — for cube-backed backgrounds — the cube it evaluates. -/
structure BVal where
  bname : PStr
  pcoll : Nat
  cubeRef : Option Nat
deriving DecidableEq

/-- A `MapDataset` object. -/
structure Dataset where
  dname : PStr
  exposure : Nat
  psf : Nat
  edisp : Nat
  backgrounds : List Nat
  skymodels : List Model
deriving DecidableEq

/-- The contents of a persisted dataset file: auxiliary-data tags plus the
background models recorded in the file (name and parameter records each). -/
structure DsFile where
  exposure : Nat
  psf : Nat
  edisp : Nat
  backgrounds : List (PStr × List ParamDict)

/-- One entry of the datasets index dict
`{"name", "filename", "backgrounds", "models"}`. -/
structure DatasetsEntry where
  dname : PStr
  filename : PStr
  backgrounds : List PStr
  models : List PStr

/-- The datasets index dict `{"datasets": [...]}`. -/
structure DataList where
  datasets : List DatasetsEntry

/-- The state of a `dict_to_datasets` reconstruction: the core heap, the
background-model heap, the in-memory cubes, the log of cube-file reads, and
the two per-process registers (`cube_register`, `params_register`). -/
structure DState where
  core : Store
  bg : Nat → BVal
  nextB : Nat
  cubes : Nat → List ParamDict
  nextCube : Nat
  reads : List PStr
  cubeRegister : List (PStr × Nat)
  paramsRegister : List (PStr × Nat)

/-- Allocate a fresh background-model object. -/
def allocBg (ds : DState) (b : BVal) : DState × Nat :=
  ({ ds with bg := fun j => if j = ds.nextB then b else ds.bg j, nextB := ds.nextB + 1 },
   ds.nextB)

/-- `background_model.name = ...` (attribute mutation). -/
def setBgName (ds : DState) (oid : Nat) (n : PStr) : DState :=
  { ds with bg := fun j => if j = oid then { ds.bg j with bname := n } else ds.bg j }

/-- `background_model.parameters = params` (attribute mutation). -/
def setBgParams (ds : DState) (oid : Nat) (pc : Nat) : DState :=
  { ds with bg := fun j => if j = oid then { ds.bg j with pcoll := pc } else ds.bg j }

/-- Modelled from the spec: `SkyDiffuseCube.read(filename)`
(`gammapy.cube.models`, not under src) — reads the cube file (the read is
logged) and materialises a fresh in-memory cube. -/
def skyDiffuseCubeRead (fs : PStr → List ParamDict) (ds : DState) (fn : PStr) :
    DState × Nat :=
  ({ ds with cubes := fun j => if j = ds.nextCube then fs fn else ds.cubes j,
             nextCube := ds.nextCube + 1, reads := ds.reads ++ [fn] }, ds.nextCube)

/-- Modelled from the spec:
`BackgroundModel.from_skymodel(cube, exposure, psf, edisp)` (not under src) —
constructs a fresh background model evaluating the cube with the dataset's
auxiliary data (the evaluation itself is outside the modelled state); its
initial parameters derive from the cube and are replaced immediately
afterwards by `link_background_parameters`. -/
def fromSkymodel (ds : DState) (cid : Nat) : DState × Nat :=
  let r := paramsFromDict ds.core (ds.cubes cid)
  allocBg { ds with core := r.1 } ⟨[], r.2, some cid⟩

/-- The fold of `MapDataset.read` over the background models recorded in the
dataset file, materialising a fresh object for each. -/
def mapDatasetReadAux (acc : DState × List Nat) :
    List (PStr × List ParamDict) → DState × List Nat
  | [] => acc
  | nb :: rest =>
    let r1 := paramsFromDict acc.1.core nb.2
    let r2 := allocBg { acc.1 with core := r1.1 } ⟨nb.1, r1.2, none⟩
    mapDatasetReadAux (r2.1, acc.2 ++ [r2.2]) rest

/-- Modelled from the spec: `MapDataset.read(filename, name=name)` (not under
src) — reads the persisted dataset file and materialises the dataset with
fresh background-model objects. -/
def mapDatasetRead (dsFS : PStr → DsFile) (ds : DState) (fn nm : PStr) :
    DState × Dataset :=
  let f := dsFS fn
  let r := mapDatasetReadAux (ds, []) f.backgrounds
  (r.1, ⟨nm, f.exposure, f.psf, f.edisp, r.2, []⟩)

/-- Python `str.strip()`. -/
def pyStrip (s : PStr) : PStr :=
  ((s.dropWhile Char.isWhitespace).reverse.dropWhile Char.isWhitespace).reverse

/-- Python `str.upper()`. -/
def pyUpper (s : PStr) : PStr := s.map Char.toUpper

/-- `dict_to_datasets.add_background`: for a file-backed component, take the
cube from `cube_register` or read it (registering it), then build a fresh
background model from it; otherwise resolve the component name against the
dataset's existing background names (upper-cased-stripped first, then exact) —
with no `else`, a failed resolution leaves `BGind` unbound and the subsequent
subscript raises.  Either way the resolved model is renamed to the component
name. -/
def add_background (fs : PStr → List ParamDict) (ds : DState) (dataset : Dataset)
    (c : ModelDict) (bkgPrev : List PStr) : Except PyErr (DState × Nat) :=
  match c.filename with
  | some fn =>
    let r : DState × Nat :=
      match lookupReg ds.cubeRegister c.mname with
      | some cid => (ds, cid)
      | none =>
        let r1 := skyDiffuseCubeRead fs ds fn
        ({ r1.1 with cubeRegister := (c.mname, r1.2) :: r1.1.cubeRegister }, r1.2)
    let r2 := fromSkymodel r.1 r.2
    .ok (setBgName r2.1 r2.2 c.mname, r2.2)
  | none =>
    let idxOpt : Option Nat :=
      if pyUpper (pyStrip c.mname) ∈ bkgPrev then
        some (bkgPrev.indexOf (pyUpper (pyStrip c.mname)))
      else if c.mname ∈ bkgPrev then some (bkgPrev.indexOf c.mname)
      else none
    match idxOpt with
    | none => .error .unboundLocal
    | some i =>
      match dataset.backgrounds[i]? with
      | none => .error .indexError
      | some oid => .ok (setBgName ds oid c.mname, oid)

/-- `dict_to_datasets.link_background_parameters`: take the `Parameters`
object from `params_register` or build it from the component's `"model"`
sub-record (registering it), then assign it to the background model. -/
def link_background_parameters (ds : DState) (c : ModelDict) (oid : Nat) :
    Except PyErr DState :=
  match lookupReg ds.paramsRegister c.mname with
  | some pc => .ok (setBgParams ds oid pc)
  | none =>
    match c.model with
    | none => .error .keyError
    | some sub =>
      let r := paramsFromDict ds.core sub.parameters
      .ok (setBgParams
        { ds with core := r.1, paramsRegister := (c.mname, r.2) :: ds.paramsRegister }
        oid r.2)

/-- Whether a component is a `"model"`-keyed `BackgroundModel` record. -/
def isBkgRecord (c : ModelDict) : Bool :=
  match c.model with
  | some sub => sub.mtype = pstr "BackgroundModel"
  | none => false

/-- The selection condition of `update_dataset`'s loop: `"model" in component
and component["model"]["type"] == "BackgroundModel" and component["name"] in
bkg_names`. -/
def bkgSelected (c : ModelDict) (bkgNames : List PStr) : Bool :=
  isBkgRecord c && c.mname ∈ bkgNames

/-- The component loop of `update_dataset`, accumulating this dataset's
backgrounds and the global background list. -/
def updateDatasetLoop (fs : PStr → List ParamDict) (dataset : Dataset)
    (bkgPrev bkgNames : List PStr) (ds : DState) :
    List ModelDict → List Nat → List Nat → Except PyErr (DState × List Nat × List Nat)
  | [], backgrounds, selfB => .ok (ds, backgrounds, selfB)
  | c :: rest, backgrounds, selfB =>
    if bkgSelected c bkgNames then
      match add_background fs ds dataset c bkgPrev with
      | .error e => .error e
      | .ok r =>
        match link_background_parameters r.1 c r.2 with
        | .error e => .error e
        | .ok ds2 =>
          updateDatasetLoop fs dataset bkgPrev bkgNames ds2 rest
            (backgrounds ++ [r.2])
            (if r.2 ∈ selfB then selfB else selfB ++ [r.2])
    else updateDatasetLoop fs dataset bkgPrev bkgNames ds rest backgrounds selfB

/-- `dict_to_datasets.update_dataset`: resolve every selected background
component against this dataset, then reassign the dataset's background
container and its model container (the global models whose names are in this
dataset's recorded model-name list). -/
def update_dataset (fs : PStr → List ParamDict) (ds : DState) (dataset : Dataset)
    (components : ComponentsDict) (bkgNames modelNames : List PStr)
    (selfModels : List Model) (selfB : List Nat) :
    Except PyErr (DState × Dataset × List Nat) :=
  let bkgPrev := dataset.backgrounds.map fun o => (ds.bg o).bname
  match updateDatasetLoop fs dataset bkgPrev bkgNames ds components.components [] selfB with
  | .error e => .error e
  | .ok r =>
    .ok (r.1,
      { dataset with backgrounds := r.2.1,
                     skymodels := selfModels.filter fun m => m.mname ∈ modelNames },
      r.2.2)

/-- The result of a `dict_to_datasets` reconstruction: the final state, the
datasets, the global models (`self.models`) and the global background list
(`self.backgrounds`). -/
structure DtdResult where
  state : DState
  datasets : List Dataset
  models : List Model
  backgrounds : List Nat

/-- The dataset loop of `dict_to_datasets.__init__`: read each dataset file,
update the dataset, collect it. -/
def dtdLoop (fs : PStr → List ParamDict) (dsFS : PStr → DsFile)
    (components : ComponentsDict) (selfModels : List Model) :
    List DatasetsEntry → DState → List Dataset → List Nat →
    Except PyErr (DState × List Dataset × List Nat)
  | [], ds, datasets, selfB => .ok (ds, datasets, selfB)
  | e :: rest, ds, datasets, selfB =>
    let r := mapDatasetRead dsFS ds e.filename e.dname
    match update_dataset fs r.1 r.2 components e.backgrounds e.models selfModels selfB with
    | .error err => .error err
    | .ok r2 =>
      dtdLoop fs dsFS components selfModels rest r2.1 (datasets ++ [r2.2.1]) r2.2.2

/-- `dict_to_datasets.__init__`: deserialize the non-background models once
with `link=False`, process every dataset entry, then run
`_link_shared_parameters` once over the combined models-plus-backgrounds
list. -/
def dict_to_datasets (fs : PStr → List ParamDict) (dsFS : PStr → DsFile) (st0 : Store)
    (dataList : DataList) (components : ComponentsDict) : Except PyErr DtdResult :=
  match dict_to_models st0 components false with
  | .error e => .error e
  | .ok r =>
    let ds0 : DState := ⟨r.1, fun _ => ⟨[], 0, none⟩, 0, fun _ => [], 0, [], [], []⟩
    match dtdLoop fs dsFS components r.2 dataList.datasets ds0 [] [] with
    | .error e => .error e
    | .ok r2 =>
      let items := r.2.map Model.toLinkItem ++
        r2.2.2.map fun o => LinkItem.flatItem ((r2.1.bg o).pcoll)
      .ok ⟨{ r2.1 with core := linkShared r2.1.core items }, r2.2.1, r.2, r2.2.2⟩

/-- The initial `DState` of a `dict_to_datasets` run (empty registers, no
reads), over a given core heap. -/
def initDState (st : Store) : DState :=
  ⟨st, fun _ => ⟨[], 0, none⟩, 0, fun _ => [], 0, [], [], []⟩

/-- C9 witness component: a background record without `"filename"`, named
`"bg1"`. -/
def c9Component : ModelDict :=
  { mname := pstr "bg1", filename := none, spatial := none, spectral := none,
    model := some ⟨pstr "BackgroundModel", none, []⟩ }

/-- C9 witness dataset. -/
def c9Dataset : Dataset := ⟨pstr "d", 0, 0, 0, [], []⟩

/-- C8 witness component: a file-backed background record named `"bgA"`. -/
def c8Component : ModelDict :=
  { mname := pstr "bgA", filename := some (pstr "bg.fits"), spatial := none,
    spectral := none,
    model := some ⟨pstr "BackgroundModel", none, [⟨pstr "norm", 1, pstr "", false⟩]⟩ }

/-- C8 witness dataset (no pre-existing backgrounds). -/
def c8Dataset : Dataset := ⟨pstr "d1", 0, 0, 0, [], []⟩

/-- The (value, unit) pairs of a `Parameters` collection, in slot order. -/
def paramVU (st : Store) (pc : Nat) : List (ℚ × PStr) :=
  (st.colls pc).map fun i => ((st.params i).value, (st.params i).unit)

/-- The `SkyModel` constructor invariant: the combined `Parameters`
collection holds the spatial parameters followed by the spectral parameters
(the same objects).  Trivially true of non-composite models. -/
def skyWF (st : Store) : Model → Bool
  | .sky _ sp spec comb => st.colls comb = st.colls sp.pcoll ++ st.colls spec.pcoll
  | .generic _ _ _ _ => true

/-- Round-trip correspondence between an original composite model and a
reconstructed one: equal model name, equal spatial/spectral class, equal
spatial filename, and equal parameter values and units slot by slot. -/
def roundTripMatch (stOld stNew : Store) : Model → Model → Bool
  | .sky n sp spec _, .sky n' sp' spec' _ =>
    decide (n' = n) && decide (sp'.stype = sp.stype) &&
    decide (sp'.filename = sp.filename) && decide (spec'.stype = spec.stype) &&
    decide (paramVU stNew sp'.pcoll = paramVU stOld sp.pcoll) &&
    decide (paramVU stNew spec'.pcoll = paramVU stOld spec.pcoll)
  | _, _ => false

/-- The heap grew: counters are monotone and the old region is untouched. -/
def StoreLe (st st' : Store) : Prop :=
  st.nextP ≤ st'.nextP ∧ st.nextC ≤ st'.nextC ∧
  (∀ i, i < st.nextP → st'.params i = st.params i) ∧
  (∀ j, j < st.nextC → st'.colls j = st.colls j)

/-- What `_dict_to_skymodel` guarantees about its output model: it is the
composite model of the record's name whose spatial/spectral sub-models carry
the parsed classes, the record's spatial filename, and freshly-allocated
parameter objects that copy the record's parameter fields, with the combined
collection holding spatial then spectral objects. -/
def ReconOk (st : Store) (r : ModelDict) (m' : Model) : Prop :=
  ∃ sp spec comb it it2,
    m' = .sky r.mname sp spec comb ∧
    r.spatial = some it ∧ r.spectral = some it2 ∧
    spatialFromName it.mtype = some sp.stype ∧ sp.filename = it.filename ∧
    spectralFromName it2.mtype = some spec.stype ∧
    sp.pcoll < st.nextC ∧ spec.pcoll < st.nextC ∧ comb < st.nextC ∧
    st.colls comb = st.colls sp.pcoll ++ st.colls spec.pcoll ∧
    (∀ i ∈ st.colls comb, i < st.nextP) ∧
    (st.colls sp.pcoll).map (fun i => st.params i) =
      it.parameters.map (fun d => (⟨d.pname, d.value, d.unit, d.frozen⟩ : Param)) ∧
    (st.colls spec.pcoll).map (fun i => st.params i) =
      it2.parameters.map (fun d => (⟨d.pname, d.value, d.unit, d.frozen⟩ : Param))

/-- C2 counterexample model: a non-composite `BackgroundModel` owning
parameter 0. -/
def c2cStore : Store := ⟨fun _ => ⟨pstr "norm", 1, pstr "", false⟩, fun _ => [0], 1, 1⟩

/-- The C2 counterexample model. -/
def c2cModel : Model := .generic (pstr "bkg") (pstr "BackgroundModel") none 0

/-- C2 witness heap: spatial parameter 0 in collection 0, spectral parameter 1
in collection 1, combined collection 2. -/
def c2wStore : Store :=
  ⟨fun i => if i = 0 then ⟨pstr "lon_0", 1, pstr "deg", false⟩
            else ⟨pstr "index", 2, pstr "", false⟩,
   fun j => if j = 0 then [0] else if j = 1 then [1] else [0, 1], 2, 3⟩

/-- C2 witness model: a composite `SkyModel`. -/
def c2wModel : Model :=
  .sky (pstr "m") ⟨.pointSpatialModel, none, 0⟩ ⟨.powerLawSpectralModel, 1⟩ 2

/-- C1 counterexample heap: one parameter object (id 0, name `"a"`);
collections 0–2 belong to the first model, 3–5 to the second; both composite
models reference the same parameter object 0. -/
def c1cStore : Store :=
  ⟨fun _ => ⟨pstr "a", 1, pstr "", false⟩,
   fun j => if j = 1 ∨ j = 4 then [] else [0], 1, 6⟩

/-- First C1 counterexample model. -/
def c1cM1 : Model :=
  .sky (pstr "m") ⟨.pointSpatialModel, none, 0⟩ ⟨.powerLawSpectralModel, 1⟩ 2

/-- Second C1 counterexample model: a distinct object (its own collections)
referencing the identical parameter object 0. -/
def c1cM2 : Model :=
  .sky (pstr "m") ⟨.pointSpatialModel, none, 3⟩ ⟨.powerLawSpectralModel, 4⟩ 5

/-- The `Parameters`-collection object ids a model owns (spatial, spectral,
combined for a composite model). -/
def collIdsOf : Model → List Nat
  | .sky _ sp spec comb => [sp.pcoll, spec.pcoll, comb]
  | .generic _ _ _ pc => [pc]

/-- The spatial sub-model's collection id (the model's own collection for
non-composite models). -/
def Model.spatialColl : Model → Nat
  | .sky _ sp _ _ => sp.pcoll
  | .generic _ _ _ pc => pc

/-- The spectral sub-model's collection id. -/
def Model.spectralColl : Model → Nat
  | .sky _ _ spec _ => spec.pcoll
  | .generic _ _ _ pc => pc

/-- What `_link_shared_parameters` leaves in a slot whose parameter is named
`nm` and holds object `i`, given the register it entered the model with: a
registered shared name resolves to the registered canonical object, anything
else stays in place. -/
def resolveSlot (reg : List (PStr × Nat)) (i : Nat) (nm : PStr) : Nat :=
  if '@' ∈ nm then
    match lookupReg reg nm with
    | some c => c
    | none => i
  else i

/-- Slot-wise resolution of a whole collection. -/
def resolvedIds (reg : List (PStr × Nat)) (ids : List Nat) (names : List PStr) :
    List Nat :=
  (ids.zip names).map fun q => resolveSlot reg q.1 q.2

/-- The object held by the first slot bearing a given name. -/
def firstIdOf (ids : List Nat) (names : List PStr) (nm : PStr) : Option Nat :=
  ((ids.zip names).find? (fun q => q.2 = nm)).map (fun q => q.1)

/-- The invariant `_link_shared_parameters` maintains over the models already
processed: every slot whose pre-linking parameter name carries the shared
marker holds exactly the object the register maps that name to (so all such
slots with one name hold one object), and the combined collection stays the
concatenation of the spatial and spectral collections; register keys carry
the marker and registered canonical objects have already-stripped names. -/
def LinkInv (st0 : Store) (done : List Model) (stK : Store)
    (regK : List (PStr × Nat)) : Prop :=
  (∀ m' ∈ done, ∀ n sp spec comb, m' = Model.sky n sp spec comb →
    (∀ (s i0 : Nat), (st0.colls comb)[s]? = some i0 → '@' ∈ (st0.params i0).pname →
      (stK.colls comb)[s]? = lookupReg regK (st0.params i0).pname ∧
      (lookupReg regK (st0.params i0).pname).isSome = true) ∧
    stK.colls comb = stK.colls sp.pcoll ++ stK.colls spec.pcoll) ∧
  (∀ kv ∈ regK, '@' ∈ kv.1 ∧ '@' ∉ (stK.params kv.2).pname)

/-- Models not yet processed by `_link_shared_parameters` are untouched:
their collections and their parameter objects still read as in the
pre-linking heap. -/
def Pristine (st0 : Store) (pend : List Model) (stK : Store) : Prop :=
  (∀ m' ∈ pend, ∀ cid ∈ collIdsOf m', stK.colls cid = st0.colls cid) ∧
  (∀ m' ∈ pend, ∀ i ∈ st0.colls m'.pcoll, stK.params i = st0.params i)

/-- C1 witness heap: spatial parameter 0 (collection 0) and spectral
parameter 1 (collection 1) for the first model with combined collection 2;
the second model owns spatial parameter 2 (collection 3) but shares the
spectral parameter object 1 (collection 4), with combined collection 5. -/
def c1wStore : Store :=
  ⟨fun k => if k = 0 then ⟨pstr "lon_0", 1, pstr "deg", false⟩
            else if k = 1 then ⟨pstr "index", 2, pstr "", false⟩
            else ⟨pstr "lon_0", 3, pstr "deg", false⟩,
   fun k => if k = 0 then [0] else if k = 1 then [1] else if k = 2 then [0, 1]
            else if k = 3 then [2] else if k = 4 then [1] else [2, 1], 3, 6⟩

/-- C1 witness model "a", owner of parameters 0 and 1. -/
def c1wA : Model :=
  .sky (pstr "a") ⟨.pointSpatialModel, none, 0⟩ ⟨.powerLawSpectralModel, 1⟩ 2

/-- C1 witness model "b", owner of parameter 2 and co-owner of the shared
parameter 1. -/
def c1wB : Model :=
  .sky (pstr "b") ⟨.pointSpatialModel, none, 3⟩ ⟨.powerLawSpectralModel, 4⟩ 5

/-- The invariant of the inner loop of `_link_shared_parameters` over one
composite model's parameters, after `n` iterations (state `acc`): the first
`n` slots of the combined collection are resolved against the entry register
`regE` and the rest still hold their original objects; the nested spatial and
spectral collections are the prefix and suffix of the combined one; only
processed parameter objects have been renamed, and processed slots carry
`@`-free names; the register behaves as the entry register extended by the
first processed slot of each newly registered name; registered canonical
objects have `@`-marked keys, `@`-free names, and come from the entry
register or the processed prefix; no other collection or counter moved. -/
def ItemInv (stE : Store) (regE : List (PStr × Nat)) (comb spC specC : Nat)
    (n : Nat) (acc : Store × List (PStr × Nat)) : Prop :=
  acc.1.colls comb =
    resolvedIds regE ((stE.colls comb).take n)
      (((stE.colls comb).map fun j => (stE.params j).pname).take n) ++
    (stE.colls comb).drop n ∧
  acc.1.colls spC = (acc.1.colls comb).take (stE.colls spC).length ∧
  acc.1.colls specC = (acc.1.colls comb).drop (stE.colls spC).length ∧
  (∀ q, q ∉ (stE.colls comb).take n → acc.1.params q = stE.params q) ∧
  (∀ u a, u < n → (acc.1.colls comb)[u]? = some a →
    '@' ∉ (acc.1.params a).pname) ∧
  (∀ ν, lookupReg acc.2 ν =
    match lookupReg regE ν with
    | some c => some c
    | none =>
      if '@' ∈ ν then
        firstIdOf ((stE.colls comb).take n)
          (((stE.colls comb).map fun j => (stE.params j).pname).take n) ν
      else none) ∧
  (∀ kv ∈ acc.2, '@' ∈ kv.1 ∧ '@' ∉ (acc.1.params kv.2).pname) ∧
  (∀ kv ∈ acc.2, kv ∈ regE ∨ kv.2 ∈ (stE.colls comb).take n) ∧
  (∀ cid, cid ≠ comb → cid ≠ spC → cid ≠ specC →
    acc.1.colls cid = stE.colls cid) ∧
  acc.1.nextP = stE.nextP ∧ acc.1.nextC = stE.nextC

/-- The invariant of the outer loop of `_link_shared_parameters` after the
first `k` models have been processed (state `acc`): each processed composite
model has every originally-`@`-named slot of its combined collection resolved
to the register's entry for that name (which exists), and its nested
collections synchronized with the combined one; registered keys carry the
marker and registered canonical objects have `@`-free names and belong to
processed models; unprocessed models' collections and parameter objects
still read as in the pre-linking heap. -/
def OInv (stR : Store) (ms : List Model) (k : Nat)
    (acc : Store × List (PStr × Nat)) : Prop :=
  (∀ u m, u < k → ms[u]? = some m →
    (∀ (s i0 : Nat), (stR.colls m.pcoll)[s]? = some i0 →
      '@' ∈ (stR.params i0).pname →
      (acc.1.colls m.pcoll)[s]? = lookupReg acc.2 (stR.params i0).pname ∧
      (lookupReg acc.2 (stR.params i0).pname).isSome = true) ∧
    acc.1.colls m.pcoll =
      acc.1.colls m.spatialColl ++ acc.1.colls m.spectralColl) ∧
  (∀ kv ∈ acc.2, '@' ∈ kv.1 ∧ '@' ∉ (acc.1.params kv.2).pname) ∧
  (∀ kv ∈ acc.2, kv.2 ∈ ((ms.take k).map fun m => stR.colls m.pcoll).flatten) ∧
  (∀ u m, k ≤ u → ms[u]? = some m → ∀ cid ∈ collIdsOf m,
    acc.1.colls cid = stR.colls cid) ∧
  (∀ u m, k ≤ u → ms[u]? = some m → ∀ q ∈ stR.colls m.pcoll,
    acc.1.params q = stR.params q)

/-!  Theorems.  First, bookkeeping lemmas about the heap transformers. -/

theorem updParam_colls (st : Store) (i : Nat) (p : Param) :
    (updParam st i p).colls = st.colls := rfl

theorem updParam_params_ne (st : Store) (i : Nat) (p : Param) (j : Nat) (h : j ≠ i) :
    (updParam st i p).params j = st.params j := by
  simp [updParam, h]

theorem updParam_params_self (st : Store) (i : Nat) (p : Param) :
    (updParam st i p).params i = p := by
  simp [updParam]

theorem renameSharedAux_colls (st : Store) (k : Nat) (l : List Nat) :
    (renameSharedAux st k l).colls = st.colls := by
  induction l generalizing st k with
  | nil => rfl
  | cons q rest ih =>
    rw [renameSharedAux, ih]
    rfl

theorem renameShared_colls (st : Store) (models : List Model) :
    (renameShared st models).colls = st.colls :=
  renameSharedAux_colls _ _ _

theorem allParamIds_colls_congr (st st' : Store) (models : List Model)
    (h : st'.colls = st.colls) : allParamIds st' models = allParamIds st models := by
  unfold allParamIds Model.paramIds
  rw [h]

theorem restore_fold_colls (ids : List Nat) (st : Store) :
    (ids.foldl restoreStep st).colls = st.colls := by
  induction ids generalizing st with
  | nil => rfl
  | cons q rest ih => rw [List.foldl_cons, ih, restoreStep, updParam_colls]

theorem pySplitHead_idem (s : PStr) : pySplitHead (pySplitHead s) = pySplitHead s :=
  List.takeWhile_idem

theorem pySplitHead_no_at (s : PStr) (h : '@' ∉ s) : pySplitHead s = s := by
  apply List.takeWhile_eq_self_iff.mpr
  intro c hc
  simp only [ne_eq, decide_eq_true_eq]
  rintro rfl
  exact h hc

theorem pySplitHead_append_at (s t : PStr) (h : '@' ∉ s) :
    pySplitHead (s ++ '@' :: t) = s := by
  induction s with
  | nil => simp [pySplitHead]
  | cons c cs ih =>
    have hc : c ≠ '@' := fun hEq => h (hEq ▸ List.mem_cons_self c cs)
    have hcs : '@' ∉ cs := fun hm => h (List.mem_cons_of_mem c hm)
    simp [pySplitHead, List.takeWhile_cons, hc] at ih ⊢
    exact ih hcs

theorem restore_fold_params (ids : List Nat) (st : Store) (pid : Nat) :
    ((ids.foldl restoreStep st).params pid).pname = (st.params pid).pname ∨
    ((ids.foldl restoreStep st).params pid).pname = pySplitHead (st.params pid).pname := by
  induction ids generalizing st with
  | nil => left; rfl
  | cons q rest ih =>
    rw [List.foldl_cons]
    rcases ih (restoreStep st q) with h | h
    · by_cases hq : pid = q
      · subst hq
        right
        rw [h, restoreStep, updParam_params_self]
      · left
        rw [h, restoreStep, updParam_params_ne _ _ _ _ hq]
    · by_cases hq : pid = q
      · subst hq
        right
        rw [h, restoreStep, updParam_params_self]
        exact pySplitHead_idem _
      · right
        rw [h, restoreStep, updParam_params_ne _ _ _ _ hq]

theorem restore_fold_params_mem (ids : List Nat) (st : Store) (pid : Nat) (h : pid ∈ ids) :
    ((ids.foldl restoreStep st).params pid).pname = pySplitHead (st.params pid).pname := by
  induction ids generalizing st with
  | nil => cases h
  | cons q rest ih =>
    rw [List.foldl_cons]
    by_cases hq : pid = q
    · subst hq
      rcases restore_fold_params rest (restoreStep st pid) pid with h2 | h2 <;>
        rw [h2, restoreStep, updParam_params_self]
      exact pySplitHead_idem _
    · have hmem : pid ∈ rest := by
        rcases List.mem_cons.mp h with h' | h'
        · exact absurd h' hq
        · exact h'
      rw [ih (restoreStep st q) hmem, restoreStep, updParam_params_ne _ _ _ _ hq]

theorem renameSharedAux_params (l : List Nat) (st : Store) (k : Nat) (pid : Nat) :
    (renameSharedAux st k l).params pid = st.params pid ∨
    ∃ t, (renameSharedAux st k l).params pid =
      { st.params pid with pname := (st.params pid).pname ++ '@' :: t } := by
  induction l generalizing st k with
  | nil => left; rfl
  | cons q rest ih =>
    rw [renameSharedAux]
    by_cases hq : pid = q
    · subst hq
      have hat : pstr "@shared_" = '@' :: pstr "shared_" := rfl
      rcases ih (updParam st pid
          { st.params pid with
            pname := (st.params pid).pname ++ pstr "@shared_" ++ natChars k }) (k + 1) with h | ⟨t, h⟩
      · right
        refine ⟨pstr "shared_" ++ natChars k, ?_⟩
        rw [h, updParam_params_self, hat]
        simp [List.append_assoc]
      · right
        rw [updParam_params_self] at h
        refine ⟨(pstr "shared_" ++ natChars k) ++ '@' :: t, ?_⟩
        rw [h, hat]
        simp [List.append_assoc]
    · rcases ih (updParam st q
          { st.params q with
            pname := (st.params q).pname ++ pstr "@shared_" ++ natChars k }) (k + 1) with h | ⟨t, h⟩
      · left
        rw [h, updParam_params_ne _ _ _ _ hq]
      · right
        rw [updParam_params_ne _ _ _ _ hq] at h
        exact ⟨t, h⟩

theorem renameShared_params (st : Store) (models : List Model) (pid : Nat) :
    (renameShared st models).params pid = st.params pid ∨
    ∃ t, (renameShared st models).params pid =
      { st.params pid with pname := (st.params pid).pname ++ '@' :: t } :=
  renameSharedAux_params _ _ _ _

theorem models_to_dict_fst (st : Store) (models : List Model) :
    (models_to_dict st models).1 = restoreShared (renameShared st models) models := rfl

/-- **C3 counterexample.**  The claim says every in-memory parameter name
after `models_to_dict` equals its pre-call name.  It fails when a pre-call
name itself contains `@`: `_restore_shared_parameters` truncates every name at
its first `@`, so the parameter named `"a@b"` comes back named `"a"`, even
though serialization completed normally. -/
theorem models_to_dict_restores_names_cex :
    0 ∈ allParamIds c3Store [c3Model] ∧
    ((models_to_dict c3Store [c3Model]).1.params 0).pname ≠ (c3Store.params 0).pname := by
  decide

/-- **C3 (amended).**  For every call to `models_to_dict`, every in-memory
parameter whose pre-call name contains no `@` has, after the call returns,
a name equal to its pre-call name (in particular no residual `"@shared_"`
suffix remains).  In this embedding serialization always returns normally;
the source has no try/finally, so the restore pass runs only on the normal
path. -/
theorem models_to_dict_restores_names
    (st : Store) (models : List Model) (pid : Nat)
    (hmem : pid ∈ allParamIds st models)
    (hat : '@' ∉ (st.params pid).pname) :
    ((models_to_dict st models).1.params pid).pname = (st.params pid).pname := by
  rw [models_to_dict_fst]
  unfold restoreShared
  have hmem1 : pid ∈ allParamIds (renameShared st models) models := by
    rwa [allParamIds_colls_congr st (renameShared st models) models
      (renameShared_colls st models)]
  rw [restore_fold_params_mem _ _ _ hmem1]
  rcases renameShared_params st models pid with h | ⟨t, h⟩
  · rw [h, pySplitHead_no_at _ hat]
  · rw [h]
    exact pySplitHead_append_at _ _ hat

/-- C3 witness: a parameter named `"norm"` genuinely shared by two models is
renamed for serialization and restored afterwards. -/
theorem models_to_dict_restores_names_witness :
    0 ∈ allParamIds c3wStore [c3wModelA, c3wModelB] ∧
    '@' ∉ (c3wStore.params 0).pname ∧
    ((models_to_dict c3wStore [c3wModelA, c3wModelB]).1.params 0).pname =
      (c3wStore.params 0).pname :=
  ⟨by decide, by decide,
    models_to_dict_restores_names c3wStore [c3wModelA, c3wModelB] 0 (by decide) (by decide)⟩

theorem dedup_foldl_mem (f : Model → ModelDict) (xs : List Model) (acc : List ModelDict)
    (d : ModelDict) :
    d ∈ xs.foldl (fun a x => dedupAppend a (f x)) acc ↔ d ∈ acc ∨ d ∈ xs.map f := by
  induction xs generalizing acc with
  | nil => simp
  | cons x rest ih =>
    rw [List.foldl_cons, ih]
    by_cases hx : f x ∈ acc
    · simp only [dedupAppend, if_pos hx, List.map_cons, List.mem_cons]
      constructor
      · tauto
      · rintro (h | rfl | h)
        · exact Or.inl h
        · exact Or.inl hx
        · exact Or.inr h
    · simp only [dedupAppend, if_neg hx, List.mem_append, List.mem_singleton,
        List.map_cons, List.mem_cons]
      tauto

theorem dedup_foldl_nodup (f : Model → ModelDict) (xs : List Model) (acc : List ModelDict)
    (h : acc.Nodup) : (xs.foldl (fun a x => dedupAppend a (f x)) acc).Nodup := by
  induction xs generalizing acc with
  | nil => exact h
  | cons x rest ih =>
    rw [List.foldl_cons]
    apply ih
    by_cases hx : f x ∈ acc
    · simpa [dedupAppend, hx] using h
    · simp only [dedupAppend, if_neg hx]
      exact List.nodup_append.mpr ⟨h, List.nodup_singleton _, by simpa using hx⟩

theorem models_to_dict_components (st : Store) (models : List Model) :
    (models_to_dict st models).2.components =
      models.foldl (fun a m => dedupAppend a (modelToDict (renameShared st models) m)) [] := rfl

/-- **C5.**  For every list of models that contains the same model object at
two positions, `models_to_dict` produces exactly one record for that model in
the output components list: the object serializes to the same record at both
positions (the heap is fixed during the serialization loop), and the
structural `in`-check appends only records not already present. -/
theorem models_to_dict_dedup_object
    (st : Store) (models : List Model) (m : Model) (i j : Nat)
    (hij : i ≠ j) (hi : models[i]? = some m) (hj : models[j]? = some m) :
    ((models_to_dict st models).2.components).count
      (modelToDict (renameShared st models) m) = 1 := by
  have hm : m ∈ models := List.getElem?_mem hi
  have hmem : modelToDict (renameShared st models) m ∈ (models_to_dict st models).2.components := by
    rw [models_to_dict_components, dedup_foldl_mem]
    exact Or.inr (List.mem_map_of_mem _ hm)
  have hnd : ((models_to_dict st models).2.components).Nodup := by
    rw [models_to_dict_components]
    exact dedup_foldl_nodup _ _ _ List.nodup_nil
  exact List.count_eq_one_of_mem hnd hmem

/-- C5 witness: the same model object at positions 0 and 1. -/
theorem models_to_dict_dedup_object_witness :
    (0 : Nat) ≠ 1 ∧ [c5Model, c5Model][0]? = some c5Model ∧
      [c5Model, c5Model][1]? = some c5Model ∧
    ((models_to_dict c5Store [c5Model, c5Model]).2.components).count
      (modelToDict (renameShared c5Store [c5Model, c5Model]) c5Model) = 1 :=
  ⟨by decide, by decide, by decide,
    models_to_dict_dedup_object c5Store [c5Model, c5Model] c5Model 0 1
      (by decide) (by decide) (by decide)⟩

/-- **C10.**  De-duplication in `models_to_dict` is by structural equality of
the produced records, not by object identity: two distinct model objects that
serialize to equal records yield a single record for the pair. -/
theorem models_to_dict_dedup_structural
    (st : Store) (models : List Model) (m1 m2 : Model) (i j : Nat)
    (hm : m1 ≠ m2) (hij : i ≠ j) (hi : models[i]? = some m1) (hj : models[j]? = some m2)
    (heq : modelToDict (renameShared st models) m1 = modelToDict (renameShared st models) m2) :
    ((models_to_dict st models).2.components).count
      (modelToDict (renameShared st models) m1) = 1 := by
  have hm1 : m1 ∈ models := List.getElem?_mem hi
  have hmem : modelToDict (renameShared st models) m1 ∈ (models_to_dict st models).2.components := by
    rw [models_to_dict_components, dedup_foldl_mem]
    exact Or.inr (List.mem_map_of_mem _ hm1)
  have hnd : ((models_to_dict st models).2.components).Nodup := by
    rw [models_to_dict_components]
    exact dedup_foldl_nodup _ _ _ List.nodup_nil
  exact List.count_eq_one_of_mem hnd hmem

/-- C10 witness: parameter objects 0 and 1 (and collection objects 0 and 1)
are distinct, so `c10ModelA` and `c10ModelB` are distinct objects, yet their
records coincide and only one record is produced. -/
theorem models_to_dict_dedup_structural_witness :
    c10ModelA ≠ c10ModelB ∧
    modelToDict (renameShared c10Store [c10ModelA, c10ModelB]) c10ModelA =
      modelToDict (renameShared c10Store [c10ModelA, c10ModelB]) c10ModelB ∧
    ((models_to_dict c10Store [c10ModelA, c10ModelB]).2.components).count
      (modelToDict (renameShared c10Store [c10ModelA, c10ModelB]) c10ModelA) = 1 :=
  ⟨by decide, by decide,
    models_to_dict_dedup_structural c10Store [c10ModelA, c10ModelB] c10ModelA c10ModelB 0 1
      (by decide) (by decide) (by decide) (by decide) (by decide)⟩

theorem recOk_skymodel (st : Store) (d : ModelDict) (hok : recOk d = true)
    (hm : d.model = none) : ∃ r, dictToSkymodel st d = .ok r := by
  unfold recOk at hok
  rw [hm] at hok
  cases hsp : d.spatial with
  | none => rw [hsp] at hok; simp at hok
  | some it =>
    rw [hsp] at hok
    cases hsc : d.spectral with
    | none => rw [hsc] at hok; simp at hok
    | some it2 =>
      rw [hsc] at hok
      simp only [Bool.and_eq_true, Option.isSome_iff_exists] at hok
      obtain ⟨⟨ty, hty⟩, ⟨ty2, hty2⟩⟩ := hok
      simp only [dictToSkymodel, hsp, hty, hsc, hty2]
      exact ⟨_, rfl⟩

theorem dictToModelsAux_error_of_bad (comps : List ModelDict) (st : Store) (acc : List Model)
    (h : ∃ d ∈ comps, ∃ s, d.model = some s ∧ s.mtype ≠ pstr "BackgroundModel") :
    ∃ e, dictToModelsAux st comps acc = .error e := by
  induction comps generalizing st acc with
  | nil =>
    obtain ⟨d, hd, _⟩ := h
    cases hd
  | cons c rest ih =>
    obtain ⟨d, hd, s, hds, hs⟩ := h
    rcases List.mem_cons.mp hd with rfl | hdrest
    · rw [dictToModelsAux, hds]
      simp only [if_neg hs]
      exact ⟨_, rfl⟩
    · rw [dictToModelsAux]
      cases hc : c.model with
      | some sub =>
        by_cases hty : sub.mtype = pstr "BackgroundModel"
        · simp only [if_pos hty]
          exact ih st acc ⟨d, hdrest, s, hds, hs⟩
        · simp only [if_neg hty]
          exact ⟨_, rfl⟩
      | none =>
        cases hsky : dictToSkymodel st c with
        | error e => exact ⟨e, rfl⟩
        | ok r => exact ih r.1 _ ⟨d, hdrest, s, hds, hs⟩

theorem dictToModelsAux_notImpl (pre : List ModelDict) (st : Store) (acc : List Model)
    (post : List ModelDict) (d : ModelDict) (s : SubDict)
    (hd : d.model = some s) (hty : s.mtype ≠ pstr "BackgroundModel")
    (hpre : ∀ p ∈ pre, recOk p = true) :
    dictToModelsAux st (pre ++ d :: post) acc = .error .notImplementedError := by
  induction pre generalizing st acc with
  | nil =>
    rw [List.nil_append, dictToModelsAux, hd]
    simp only [if_neg hty]
  | cons c rest ih =>
    have hc := hpre c (List.mem_cons_self c rest)
    rw [List.cons_append, dictToModelsAux]
    cases hcm : c.model with
    | some sub =>
      unfold recOk at hc
      rw [hcm] at hc
      simp only [decide_eq_true_eq] at hc
      simp only [if_pos hc]
      exact ih st acc fun p hp => hpre p (List.mem_cons_of_mem _ hp)
    | none =>
      obtain ⟨r, hr⟩ := recOk_skymodel st c hc hcm
      rw [hr]
      exact ih r.1 _ fun p hp => hpre p (List.mem_cons_of_mem _ hp)

/-- **C4 counterexample.**  The claim says any components dict containing a
`"model"`-keyed record of non-`"BackgroundModel"` type makes `dict_to_models`
raise the not-implemented error.  When an earlier record fails first, a
different error is raised: here the first record lacks its `"spatial"` key, so
the call raises a `KeyError`, not `NotImplementedError` — though it still does
not return normally. -/
theorem dict_to_models_unsupported_cex :
    (∃ dd ∈ c4Data.components, ∃ s, dd.model = some s ∧ s.mtype ≠ pstr "BackgroundModel") ∧
    dict_to_models emptyStore c4Data true = .error .keyError ∧
    PyErr.keyError ≠ PyErr.notImplementedError :=
  ⟨⟨{ mname := pstr "b", filename := none, spatial := none, spectral := none,
      model := some ⟨pstr "FooModel", none, []⟩ },
    by decide, ⟨pstr "FooModel", none, []⟩, rfl, by decide⟩,
   rfl, by decide⟩

/-- **C4 (amended).**  For every components dict containing a `"model"`-keyed
record whose type tag is any string other than `"BackgroundModel"`,
`dict_to_models` never silently skips that record and never returns normally:
it raises an error, and that error is the not-implemented error whenever every
record preceding the offending one is itself processable (the only change the
counterexample forces: a malformed earlier record can raise its own error
first). -/
theorem dict_to_models_unsupported
    (st : Store) (data : ComponentsDict) (link : Bool)
    (pre post : List ModelDict) (d : ModelDict) (s : SubDict)
    (hsplit : data.components = pre ++ d :: post)
    (hd : d.model = some s) (hty : s.mtype ≠ pstr "BackgroundModel") :
    (∃ e, dict_to_models st data link = .error e) ∧
    ((∀ p ∈ pre, recOk p = true) →
      dict_to_models st data link = .error .notImplementedError) := by
  constructor
  · obtain ⟨e, he⟩ := dictToModelsAux_error_of_bad data.components st []
      ⟨d, by rw [hsplit]; exact List.mem_append_right _ (List.mem_cons_self _ _), s, hd, hty⟩
    refine ⟨e, ?_⟩
    unfold dict_to_models
    rw [he]
    rfl
  · intro hpre
    have h2 : dictToModelsAux st data.components [] = .error .notImplementedError := by
      rw [hsplit]
      exact dictToModelsAux_notImpl pre st [] post d s hd hty hpre
    unfold dict_to_models
    rw [h2]
    rfl

/-- C4 witness: a lone unsupported record (empty prefix) raises exactly the
not-implemented error. -/
theorem dict_to_models_unsupported_witness :
    c4wData.components = [] ++
      ({ mname := pstr "b", filename := none, spatial := none, spectral := none,
         model := some ⟨pstr "FooModel", none, []⟩ } : ModelDict) :: [] ∧
    ((∃ e, dict_to_models emptyStore c4wData true = .error e) ∧
      ((∀ p ∈ ([] : List ModelDict), recOk p = true) →
        dict_to_models emptyStore c4wData true = .error .notImplementedError)) :=
  ⟨rfl,
    dict_to_models_unsupported emptyStore c4wData true [] []
      { mname := pstr "b", filename := none, spatial := none, spectral := none,
        model := some ⟨pstr "FooModel", none, []⟩ }
      ⟨pstr "FooModel", none, []⟩ rfl rfl (by decide)⟩

/-- **C6.**  The spec's end-to-end scenario: on the concrete components dict
with one record named `"src"` (`PointSpatialModel` spatial part,
`PowerLawSpectralModel` spectral part with `index = 2.0`), `dict_to_models`
returns exactly one model, it is a composite `SkyModel`, it is named `"src"`,
and its spectral model's `index` parameter has value `2.0`. -/
theorem dict_to_models_end_to_end :
    (dict_to_models emptyStore c6Data true).map (fun r => r.2.map Model.mname) =
      .ok [pstr "src"] ∧
    (dict_to_models emptyStore c6Data true).map (fun r => r.2.map Model.isSky) =
      .ok [true] ∧
    (dict_to_models emptyStore c6Data true).map
      (fun r => r.2.map fun m => skySpectralParamValue r.1 m (pstr "index")) =
      .ok [some 2] :=
  ⟨rfl, rfl, rfl⟩

/-- **C9.**  In `add_background`, for a component without `"filename"` whose
name matches neither case-normalized (stripped and upper-cased) nor exactly
any background name already present on the freshly-read dataset, the lookup is
unguarded (the `if`/`elif` has no `else`): the call fails with the low-level
unbound-local lookup error of the subsequent subscript, not a named
"background not found" error. -/
theorem add_background_unmatched
    (fs : PStr → List ParamDict) (ds : DState) (dataset : Dataset)
    (c : ModelDict) (bkgPrev : List PStr)
    (hfn : c.filename = none)
    (h1 : pyUpper (pyStrip c.mname) ∉ bkgPrev)
    (h2 : c.mname ∉ bkgPrev) :
    add_background fs ds dataset c bkgPrev = .error .unboundLocal := by
  unfold add_background
  rw [hfn]
  simp [h1, h2]

/-- C9 witness: the component named `"bg1"` against a dataset whose only
recorded background name is `"other"`. -/
theorem add_background_unmatched_witness :
    c9Component.filename = none ∧
    pyUpper (pyStrip c9Component.mname) ∉ [pstr "other"] ∧
    c9Component.mname ∉ [pstr "other"] ∧
    add_background (fun _ => []) (initDState emptyStore) c9Dataset c9Component
      [pstr "other"] = .error .unboundLocal :=
  ⟨rfl, by decide, by decide,
    add_background_unmatched (fun _ => []) (initDState emptyStore) c9Dataset c9Component
      [pstr "other"] rfl (by decide) (by decide)⟩

theorem add_background_bg (fs : PStr → List ParamDict) (ds : DState) (dataset : Dataset)
    (c : ModelDict) (bkgPrev : List PStr) (r : DState × Nat)
    (hwf : ∀ o ∈ dataset.backgrounds, o < ds.nextB)
    (h : add_background fs ds dataset c bkgPrev = .ok r) :
    r.2 < r.1.nextB ∧ ds.nextB ≤ r.1.nextB ∧ (r.1.bg r.2).bname = c.mname ∧
    ∀ o, o < ds.nextB → o ≠ r.2 → r.1.bg o = ds.bg o := by
  unfold add_background at h
  cases hfn : c.filename with
  | some fn =>
    rw [hfn] at h
    cases hreg : lookupReg ds.cubeRegister c.mname with
    | some cid =>
      simp only [hreg] at h
      injection h with h'
      subst h'
      refine ⟨by simp [fromSkymodel, allocBg, setBgName], by simp [fromSkymodel, allocBg, setBgName], by simp [fromSkymodel, allocBg, setBgName], ?_⟩
      intro o ho hne
      simp only [fromSkymodel, allocBg, setBgName] at hne ⊢
      simp [if_neg hne, Nat.ne_of_lt ho]
    | none =>
      simp only [hreg] at h
      injection h with h'
      subst h'
      refine ⟨by simp [fromSkymodel, allocBg, setBgName, skyDiffuseCubeRead],
        by simp [fromSkymodel, allocBg, setBgName, skyDiffuseCubeRead],
        by simp [fromSkymodel, allocBg, setBgName, skyDiffuseCubeRead], ?_⟩
      intro o ho hne
      simp only [fromSkymodel, allocBg, setBgName, skyDiffuseCubeRead] at hne ⊢
      simp [if_neg hne, Nat.ne_of_lt ho]
  | none =>
    rw [hfn] at h
    by_cases h1 : pyUpper (pyStrip c.mname) ∈ bkgPrev
    · simp only [if_pos h1] at h
      cases hget : dataset.backgrounds[bkgPrev.indexOf (pyUpper (pyStrip c.mname))]? with
      | none => rw [hget] at h; cases h
      | some oid =>
        rw [hget] at h
        injection h with h'
        subst h'
        have hoid : oid < ds.nextB := hwf oid (List.getElem?_mem hget)
        refine ⟨by simpa [setBgName] using hoid, le_refl _,
          by simp [setBgName], ?_⟩
        intro o ho hne
        simp only [setBgName] at hne ⊢
        simp [if_neg hne]
    · simp only [if_neg h1] at h
      by_cases h2 : c.mname ∈ bkgPrev
      · simp only [if_pos h2] at h
        cases hget : dataset.backgrounds[bkgPrev.indexOf c.mname]? with
        | none => rw [hget] at h; cases h
        | some oid =>
          rw [hget] at h
          injection h with h'
          subst h'
          have hoid : oid < ds.nextB := hwf oid (List.getElem?_mem hget)
          refine ⟨by simpa [setBgName] using hoid, le_refl _,
            by simp [setBgName], ?_⟩
          intro o ho hne
          simp only [setBgName] at hne ⊢
          simp [if_neg hne]
      · simp only [if_neg h2] at h
        cases h

theorem link_background_parameters_bg (ds : DState) (c : ModelDict) (oid : Nat)
    (ds2 : DState) (h : link_background_parameters ds c oid = .ok ds2) :
    ds2.nextB = ds.nextB ∧ ∀ o, (ds2.bg o).bname = (ds.bg o).bname := by
  unfold link_background_parameters at h
  cases hreg : lookupReg ds.paramsRegister c.mname with
  | some pc =>
    rw [hreg] at h
    injection h with h'
    subst h'
    refine ⟨rfl, fun o => ?_⟩
    by_cases ho : o = oid <;> simp [setBgParams, ho]
  | none =>
    rw [hreg] at h
    cases hm : c.model with
    | none => rw [hm] at h; cases h
    | some sub =>
      rw [hm] at h
      injection h with h'
      subst h'
      refine ⟨rfl, fun o => ?_⟩
      by_cases ho : o = oid <;> simp [setBgParams, ho]

theorem updateDatasetLoop_erase (fs : PStr → List ParamDict) (dataset : Dataset)
    (bkgPrev bkgNames : List PStr) (n : PStr) (comps : List ModelDict)
    (hmiss : ∀ c ∈ comps, ¬(isBkgRecord c = true ∧ c.mname = n)) :
    ∀ ds backgrounds selfB,
    updateDatasetLoop fs dataset bkgPrev bkgNames ds comps backgrounds selfB =
      updateDatasetLoop fs dataset bkgPrev (bkgNames.erase n) ds comps backgrounds selfB := by
  induction comps with
  | nil => intro ds backgrounds selfB; rfl
  | cons c rest ih =>
    intro ds backgrounds selfB
    have hmr : ∀ c' ∈ rest, ¬(isBkgRecord c' = true ∧ c'.mname = n) :=
      fun c' hc' => hmiss c' (List.mem_cons_of_mem _ hc')
    have hsel : bkgSelected c (bkgNames.erase n) = bkgSelected c bkgNames := by
      unfold bkgSelected
      cases hb : isBkgRecord c with
      | false => simp
      | true =>
        have hne : c.mname ≠ n := fun hEq => hmiss c (List.mem_cons_self _ _) ⟨hb, hEq⟩
        simp only [Bool.true_and]
        by_cases hmem : c.mname ∈ bkgNames
        · simp [hmem, (List.mem_erase_of_ne hne).mpr hmem]
        · have hmem2 : c.mname ∉ bkgNames.erase n :=
            fun hc => hmem ((List.mem_erase_of_ne hne).mp hc)
          simp [hmem, hmem2]
    rw [updateDatasetLoop, updateDatasetLoop, hsel]
    by_cases hb : bkgSelected c bkgNames = true
    · rw [if_pos hb, if_pos hb]
      cases hab : add_background fs ds dataset c bkgPrev with
      | error e => rfl
      | ok r =>
        dsimp only
        cases hlb : link_background_parameters r.1 c r.2 with
        | error e => rfl
        | ok ds2 =>
          dsimp only
          exact ih hmr ds2 _ _
    · rw [if_neg hb, if_neg hb]
      exact ih hmr ds backgrounds selfB

theorem updateDatasetLoop_names (fs : PStr → List ParamDict) (dataset : Dataset)
    (bkgPrev bkgNames : List PStr) (n : PStr) (comps : List ModelDict)
    (hmiss : ∀ c ∈ comps, ¬(isBkgRecord c = true ∧ c.mname = n)) :
    ∀ ds backgrounds selfB r,
    (∀ o ∈ dataset.backgrounds, o < ds.nextB) →
    (∀ o ∈ backgrounds, o < ds.nextB ∧ (ds.bg o).bname ≠ n) →
    updateDatasetLoop fs dataset bkgPrev bkgNames ds comps backgrounds selfB = .ok r →
    ∀ o ∈ r.2.1, (r.1.bg o).bname ≠ n := by
  induction comps with
  | nil =>
    intro ds backgrounds selfB r _ hacc h
    injection h with h'
    subst h'
    exact fun o ho => (hacc o ho).2
  | cons c rest ih =>
    intro ds backgrounds selfB r hwf hacc h
    have hmr : ∀ c' ∈ rest, ¬(isBkgRecord c' = true ∧ c'.mname = n) :=
      fun c' hc' => hmiss c' (List.mem_cons_of_mem _ hc')
    rw [updateDatasetLoop] at h
    by_cases hsel : bkgSelected c bkgNames = true
    · rw [if_pos hsel] at h
      have hcn : c.mname ≠ n := by
        intro hEq
        refine hmiss c (List.mem_cons_self _ _) ⟨?_, hEq⟩
        unfold bkgSelected at hsel
        exact (Bool.and_eq_true _ _ |>.mp hsel).1
      cases hab : add_background fs ds dataset c bkgPrev with
      | error e => rw [hab] at h; cases h
      | ok rab =>
        rw [hab] at h
        dsimp only at h
        cases hlb : link_background_parameters rab.1 c rab.2 with
        | error e => rw [hlb] at h; cases h
        | ok ds2 =>
          rw [hlb] at h
          dsimp only at h
          obtain ⟨hlt, hle, hname, hpres⟩ := add_background_bg fs ds dataset c bkgPrev rab hwf hab
          obtain ⟨hnb2, hnames2⟩ := link_background_parameters_bg rab.1 c rab.2 ds2 hlb
          refine ih hmr ds2 _ _ r ?_ ?_ h
          · intro o ho
            have := hwf o ho
            omega
          · intro o ho
            rcases List.mem_append.mp ho with ho' | ho'
            · obtain ⟨holt, honame⟩ := hacc o ho'
              refine ⟨by omega, ?_⟩
              rw [hnames2 o]
              by_cases hoe : o = rab.2
              · subst hoe; rw [hname]; exact hcn
              · rw [hpres o holt hoe]; exact honame
            · rw [List.mem_singleton] at ho'
              subst ho'
              refine ⟨by omega, ?_⟩
              rw [hnames2, hname]
              exact hcn
    · rw [if_neg hsel] at h
      exact ih hmr ds backgrounds selfB r hwf hacc h

/-- **C8.**  For every dataset processed by `update_dataset`, a background
name `n` present in the dataset's recorded background-name list but matching
no `BackgroundModel` record in the components dict is silently skipped: the
run with `n` is identical (same result or same error) to the run with `n`
removed from the list, and on success the reconstructed background-model
container omits `n` (no background in it bears that name). -/
theorem update_dataset_missing_background
    (fs : PStr → List ParamDict) (ds : DState) (dataset : Dataset)
    (components : ComponentsDict) (bkgNames modelNames : List PStr)
    (selfModels : List Model) (selfB : List Nat) (n : PStr)
    (hn : n ∈ bkgNames)
    (hwf : ∀ o ∈ dataset.backgrounds, o < ds.nextB)
    (hmiss : ∀ c ∈ components.components, ¬(isBkgRecord c = true ∧ c.mname = n)) :
    (update_dataset fs ds dataset components bkgNames modelNames selfModels selfB =
      update_dataset fs ds dataset components (bkgNames.erase n) modelNames selfModels selfB) ∧
    ∀ r, update_dataset fs ds dataset components bkgNames modelNames selfModels selfB = .ok r →
      n ∉ r.2.1.backgrounds.map fun o => (r.1.bg o).bname := by
  constructor
  · unfold update_dataset
    dsimp only
    rw [updateDatasetLoop_erase fs dataset _ bkgNames n components.components hmiss]
  · intro r hr
    unfold update_dataset at hr
    dsimp only at hr
    cases hloop : updateDatasetLoop fs dataset
        (dataset.backgrounds.map fun o => (ds.bg o).bname) bkgNames ds
        components.components [] selfB with
    | error e => rw [hloop] at hr; cases hr
    | ok rl =>
      rw [hloop] at hr
      injection hr with hr'
      subst hr'
      intro hmem
      simp only [List.mem_map] at hmem
      obtain ⟨o, ho, hname⟩ := hmem
      exact updateDatasetLoop_names fs dataset _ bkgNames n components.components hmiss
        ds [] selfB rl hwf (by simp) hloop o ho hname

/-- C8 witness: `bkg_names = ["missing", "bgA"]` where only `"bgA"` matches a
component; the run is the same as without `"missing"` and the container omits
it. -/
theorem update_dataset_missing_background_witness :
    pstr "missing" ∈ [pstr "missing", pstr "bgA"] ∧
    (∀ o ∈ c8Dataset.backgrounds, o < (initDState emptyStore).nextB) ∧
    (∀ c ∈ (⟨[c8Component]⟩ : ComponentsDict).components,
      ¬(isBkgRecord c = true ∧ c.mname = pstr "missing")) ∧
    ((update_dataset (fun _ => []) (initDState emptyStore) c8Dataset ⟨[c8Component]⟩
        [pstr "missing", pstr "bgA"] [] [] [] =
      update_dataset (fun _ => []) (initDState emptyStore) c8Dataset ⟨[c8Component]⟩
        ([pstr "missing", pstr "bgA"].erase (pstr "missing")) [] [] []) ∧
    ∀ r, update_dataset (fun _ => []) (initDState emptyStore) c8Dataset ⟨[c8Component]⟩
        [pstr "missing", pstr "bgA"] [] [] [] = .ok r →
      pstr "missing" ∉ r.2.1.backgrounds.map fun o => (r.1.bg o).bname) :=
  ⟨by decide, by decide, by decide,
    update_dataset_missing_background (fun _ => []) (initDState emptyStore) c8Dataset
      ⟨[c8Component]⟩ [pstr "missing", pstr "bgA"] [] [] [] (pstr "missing")
      (by decide) (by decide) (by decide)⟩

/-- **C7.**  Reconstructing two datasets whose background-name lists both
reference the same file-backed background component (one component record,
name `n`, file `f`; two dataset entries whose recorded background lists are
both `[n]`; the dataset files themselves carry no backgrounds): the
component's file is read exactly once (the read log is `[f]` — the second
resolution hits the cube register keyed by `n`), each dataset's reconstructed
container holds one background model (objects 0 and 1), and the two models
hold the same in-memory instances: the same cube and, via the parameter
register keyed by `n`, the identical `Parameters` object. -/
theorem dict_to_datasets_cube_cache
    (fs : PStr → List ParamDict) (dsFS : PStr → DsFile) (st0 : Store)
    (n f : PStr) (ps : List ParamDict) (n1 f1 n2 f2 : PStr)
    (hd1 : (dsFS f1).backgrounds = [])
    (hd2 : (dsFS f2).backgrounds = []) :
    ((dict_to_datasets fs dsFS st0 ⟨[⟨n1, f1, [n], []⟩, ⟨n2, f2, [n], []⟩]⟩
        ⟨[⟨n, some f, none, none, some ⟨pstr "BackgroundModel", none, ps⟩⟩]⟩).map
      (fun res => (res.state.reads, res.datasets.map Dataset.backgrounds,
        (res.state.bg 0).cubeRef, (res.state.bg 1).cubeRef,
        decide ((res.state.bg 0).pcoll = (res.state.bg 1).pcoll),
        (res.state.bg 0).bname, (res.state.bg 1).bname))) =
      .ok ([f], [[0], [1]], some 0, some 0, true, n, n) := by
  simp [dict_to_datasets, dict_to_models, dictToModelsAux, dtdLoop, mapDatasetRead,
    hd1, hd2, mapDatasetReadAux, update_dataset, updateDatasetLoop, bkgSelected,
    isBkgRecord, add_background, lookupReg, skyDiffuseCubeRead, fromSkymodel,
    allocBg, setBgName, link_background_parameters, setBgParams, Except.map,
    Except.bind, bind, pure, Except.pure]

/-- C7 witness: a fully concrete instance of the two-dataset scenario. -/
theorem dict_to_datasets_cube_cache_witness :
    ((fun _ => ⟨0, 0, 0, []⟩ : PStr → DsFile) (pstr "f1")).backgrounds = [] ∧
    ((fun _ => ⟨0, 0, 0, []⟩ : PStr → DsFile) (pstr "f2")).backgrounds = [] ∧
    ((dict_to_datasets (fun _ => []) (fun _ => ⟨0, 0, 0, []⟩) emptyStore
        ⟨[⟨pstr "d1", pstr "f1", [pstr "bkg"], []⟩, ⟨pstr "d2", pstr "f2", [pstr "bkg"], []⟩]⟩
        ⟨[⟨pstr "bkg", some (pstr "cube.fits"), none, none,
           some ⟨pstr "BackgroundModel", none, []⟩⟩]⟩).map
      (fun res => (res.state.reads, res.datasets.map Dataset.backgrounds,
        (res.state.bg 0).cubeRef, (res.state.bg 1).cubeRef,
        decide ((res.state.bg 0).pcoll = (res.state.bg 1).pcoll),
        (res.state.bg 0).bname, (res.state.bg 1).bname))) =
      .ok ([pstr "cube.fits"], [[0], [1]], some 0, some 0, true, pstr "bkg", pstr "bkg") :=
  ⟨rfl, rfl,
    dict_to_datasets_cube_cache (fun _ => []) (fun _ => ⟨0, 0, 0, []⟩) emptyStore
      (pstr "bkg") (pstr "cube.fits") [] (pstr "d1") (pstr "f1") (pstr "d2") (pstr "f2")
      rfl rfl⟩

theorem StoreLe.refl (st : Store) : StoreLe st st :=
  ⟨le_refl _, le_refl _, fun _ _ => rfl, fun _ _ => rfl⟩

theorem StoreLe.trans {s1 s2 s3 : Store} (h1 : StoreLe s1 s2) (h2 : StoreLe s2 s3) :
    StoreLe s1 s3 := by
  obtain ⟨ha, hb, hc, hd⟩ := h1
  obtain ⟨ha2, hb2, hc2, hd2⟩ := h2
  exact ⟨le_trans ha ha2, le_trans hb hb2,
    fun i hi => by rw [hc2 i (lt_of_lt_of_le hi ha), hc i hi],
    fun j hj => by rw [hd2 j (lt_of_lt_of_le hj hb), hd j hj]⟩

theorem ReconOk.mono {st st' : Store} {r : ModelDict} {m' : Model}
    (h : ReconOk st r m') (hle : StoreLe st st') : ReconOk st' r m' := by
  obtain ⟨sp, spec, comb, it, it2, h1, h2, h3, h4, h5, h6, h7, h8, h9, h10, h11, h12, h13⟩ := h
  obtain ⟨hP, hC, hparams, hcolls⟩ := hle
  have hsp := hcolls sp.pcoll h7
  have hspec := hcolls spec.pcoll h8
  have hcomb := hcolls comb h9
  refine ⟨sp, spec, comb, it, it2, h1, h2, h3, h4, h5, h6,
    lt_of_lt_of_le h7 hC, lt_of_lt_of_le h8 hC, lt_of_lt_of_le h9 hC, ?_, ?_, ?_, ?_⟩
  · rw [hsp, hspec, hcomb]; exact h10
  · intro i hi
    rw [hcomb] at hi
    exact lt_of_lt_of_le (h11 i hi) hP
  · rw [hsp, ← h12]
    exact List.map_congr_left fun i hi => hparams i (h11 i (by rw [h10]; exact List.mem_append_left _ hi))
  · rw [hspec, ← h13]
    exact List.map_congr_left fun i hi => hparams i (h11 i (by rw [h10]; exact List.mem_append_right _ hi))

theorem paramsFromDictAux_spec (ps : List ParamDict) (st : Store) (ids : List Nat)
    (hids : ∀ i ∈ ids, i < st.nextP) :
    (paramsFromDictAux (st, ids) ps).1.colls = st.colls ∧
    (paramsFromDictAux (st, ids) ps).1.nextC = st.nextC ∧
    st.nextP ≤ (paramsFromDictAux (st, ids) ps).1.nextP ∧
    (∀ i, i < st.nextP → (paramsFromDictAux (st, ids) ps).1.params i = st.params i) ∧
    (∀ i ∈ (paramsFromDictAux (st, ids) ps).2, i < (paramsFromDictAux (st, ids) ps).1.nextP) ∧
    (paramsFromDictAux (st, ids) ps).2.map (paramsFromDictAux (st, ids) ps).1.params =
      ids.map st.params ++ ps.map (fun d => (⟨d.pname, d.value, d.unit, d.frozen⟩ : Param)) := by
  induction ps generalizing st ids with
  | nil =>
    exact ⟨rfl, rfl, le_refl _, fun _ _ => rfl, hids, by simp [paramsFromDictAux]⟩
  | cons d rest ih =>
    rw [paramsFromDictAux]
    dsimp only [allocParam]
    set st1 : Store :=
      { st with
        params := fun j => if j = st.nextP then ⟨d.pname, d.value, d.unit, d.frozen⟩
                           else st.params j,
        nextP := st.nextP + 1 } with hst1
    have hnp1 : st1.nextP = st.nextP + 1 := rfl
    have hids1 : ∀ i ∈ ids ++ [st.nextP], i < st1.nextP := by
      intro i hi
      rcases List.mem_append.mp hi with h | h
      · have := hids i h; omega
      · rw [List.mem_singleton] at h; omega
    obtain ⟨hc, hnc, hnp, hparams, hmem, hmap⟩ := ih st1 (ids ++ [st.nextP]) hids1
    refine ⟨hc, hnc, by omega, ?_, hmem, ?_⟩
    · intro i hi
      rw [hparams i (by omega)]
      have hne : st1.params i = st.params i :=
        updParam_params_ne st st.nextP ⟨d.pname, d.value, d.unit, d.frozen⟩ i
          (Nat.ne_of_lt hi)
      exact hne
    · rw [hmap, List.map_append]
      have h1 : ids.map st1.params = ids.map st.params :=
        List.map_congr_left fun i hi =>
          updParam_params_ne st st.nextP ⟨d.pname, d.value, d.unit, d.frozen⟩ i
            (Nat.ne_of_lt (hids i hi))
      have h2 : st1.params st.nextP = ⟨d.pname, d.value, d.unit, d.frozen⟩ :=
        updParam_params_self st st.nextP ⟨d.pname, d.value, d.unit, d.frozen⟩
      rw [h1]
      simp [h2, List.append_assoc]

theorem allocColl_nextC (st : Store) (c : List Nat) :
    (allocColl st c).1.nextC = st.nextC + 1 := rfl

theorem allocColl_nextP (st : Store) (c : List Nat) :
    (allocColl st c).1.nextP = st.nextP := rfl

theorem allocColl_params (st : Store) (c : List Nat) :
    (allocColl st c).1.params = st.params := rfl

theorem allocColl_snd (st : Store) (c : List Nat) : (allocColl st c).2 = st.nextC := rfl

theorem allocColl_colls_self (st : Store) (c : List Nat) :
    (allocColl st c).1.colls st.nextC = c := by
  simp [allocColl]

theorem allocColl_colls_ne (st : Store) (c : List Nat) (j : Nat) (h : j ≠ st.nextC) :
    (allocColl st c).1.colls j = st.colls j := by
  simp [allocColl, h]

theorem paramsFromDict_spec (st : Store) (ps : List ParamDict) :
    StoreLe st (paramsFromDict st ps).1 ∧
    (paramsFromDict st ps).2 < (paramsFromDict st ps).1.nextC ∧
    (∀ i ∈ (paramsFromDict st ps).1.colls (paramsFromDict st ps).2,
      i < (paramsFromDict st ps).1.nextP) ∧
    ((paramsFromDict st ps).1.colls (paramsFromDict st ps).2).map
        (paramsFromDict st ps).1.params =
      ps.map (fun d => (⟨d.pname, d.value, d.unit, d.frozen⟩ : Param)) := by
  obtain ⟨hc, hnc, hnp, hparams, hmem, hmap⟩ :=
    paramsFromDictAux_spec ps st [] (by simp)
  have hPF : paramsFromDict st ps =
      allocColl (paramsFromDictAux (st, []) ps).1 (paramsFromDictAux (st, []) ps).2 := rfl
  rw [hPF]
  set r := paramsFromDictAux (st, []) ps with hr
  refine ⟨⟨?_, ?_, ?_, ?_⟩, ?_, ?_, ?_⟩
  · rw [allocColl_nextP]; exact hnp
  · rw [allocColl_nextC, hnc]; omega
  · intro i hi
    rw [allocColl_params]
    exact hparams i hi
  · intro j hj
    rw [allocColl_colls_ne r.1 r.2 j (by rw [hnc]; omega), hc]
  · rw [allocColl_nextC, allocColl_snd, hnc]
    omega
  · intro i hi
    rw [allocColl_snd] at hi
    rw [allocColl_colls_self] at hi
    rw [allocColl_nextP]
    exact hmem i hi
  · rw [allocColl_snd]
    rw [allocColl_colls_self, allocColl_params]
    simpa using hmap

theorem spatialFromName_clsName (t : SpatialType) : spatialFromName t.clsName = some t := by
  cases t <;> rfl

theorem spectralFromName_clsName (t : SpectralType) :
    spectralFromName t.clsName = some t := by
  cases t <;> rfl

theorem dictToSkymodel_spec (st : Store) (r : ModelDict)
    (hok : recOk r = true) (hm : r.model = none) :
    ∃ st' m', dictToSkymodel st r = .ok (st', m') ∧ StoreLe st st' ∧ ReconOk st' r m' := by
  unfold recOk at hok
  rw [hm] at hok
  cases hsp : r.spatial with
  | none => rw [hsp] at hok; simp at hok
  | some it =>
    rw [hsp] at hok
    cases hsc : r.spectral with
    | none => rw [hsc] at hok; simp at hok
    | some it2 =>
      rw [hsc] at hok
      simp only [Bool.and_eq_true, Option.isSome_iff_exists] at hok
      obtain ⟨⟨ty, hty⟩, ⟨ty2, hty2⟩⟩ := hok
      obtain ⟨hle1, hlt1, hmem1, hmap1⟩ := paramsFromDict_spec st it.parameters
      set r1 := paramsFromDict st it.parameters with hr1
      obtain ⟨hle2, hlt2, hmem2, hmap2⟩ := paramsFromDict_spec r1.1 it2.parameters
      set r2 := paramsFromDict r1.1 it2.parameters with hr2
      have hcle : r1.1.nextC ≤ r2.1.nextC := hle2.2.1
      have h1 : r1.2 ≠ r2.1.nextC := by omega
      have h2 : r2.2 ≠ r2.1.nextC := Nat.ne_of_lt hlt2
      have hcoll1 : r2.1.colls r1.2 = r1.1.colls r1.2 := hle2.2.2.2 r1.2 hlt1
      have hmem1' : ∀ i ∈ r2.1.colls r1.2, i < r2.1.nextP := by
        intro i hi
        rw [hcoll1] at hi
        exact lt_of_lt_of_le (hmem1 i hi) hle2.1
      have hmap1' : (r2.1.colls r1.2).map r2.1.params =
          it.parameters.map (fun d => (⟨d.pname, d.value, d.unit, d.frozen⟩ : Param)) := by
        rw [hcoll1, ← hmap1]
        exact List.map_congr_left fun i hi => hle2.2.2.1 i (hmem1 i hi)
      refine ⟨(allocColl r2.1 (r2.1.colls r1.2 ++ r2.1.colls r2.2)).1,
        .sky r.mname ⟨ty, it.filename, r1.2⟩ ⟨ty2, r2.2⟩
          (allocColl r2.1 (r2.1.colls r1.2 ++ r2.1.colls r2.2)).2, ?_, ?_, ?_⟩
      · simp only [dictToSkymodel, hsp, hty, hsc, hty2]
      · refine StoreLe.trans (StoreLe.trans hle1 hle2) ?_
        refine ⟨?_, ?_, ?_, ?_⟩
        · rw [allocColl_nextP]
        · rw [allocColl_nextC]; omega
        · intro i _
          rw [allocColl_params]
        · intro j hj
          exact allocColl_colls_ne r2.1 _ j (Nat.ne_of_lt hj)
      · refine ⟨⟨ty, it.filename, r1.2⟩, ⟨ty2, r2.2⟩,
          (allocColl r2.1 (r2.1.colls r1.2 ++ r2.1.colls r2.2)).2, it, it2,
          rfl, hsp, hsc, hty, rfl, hty2, ?_, ?_, ?_, ?_, ?_, ?_, ?_⟩
        · show r1.2 < (allocColl r2.1 (r2.1.colls r1.2 ++ r2.1.colls r2.2)).1.nextC
          rw [allocColl_nextC]; omega
        · show r2.2 < (allocColl r2.1 (r2.1.colls r1.2 ++ r2.1.colls r2.2)).1.nextC
          rw [allocColl_nextC]; omega
        · rw [allocColl_snd, allocColl_nextC]; omega
        · show (allocColl r2.1 (r2.1.colls r1.2 ++ r2.1.colls r2.2)).1.colls
              (allocColl r2.1 (r2.1.colls r1.2 ++ r2.1.colls r2.2)).2 =
            (allocColl r2.1 (r2.1.colls r1.2 ++ r2.1.colls r2.2)).1.colls r1.2 ++
              (allocColl r2.1 (r2.1.colls r1.2 ++ r2.1.colls r2.2)).1.colls r2.2
          rw [allocColl_snd, allocColl_colls_self,
            allocColl_colls_ne r2.1 _ r1.2 h1, allocColl_colls_ne r2.1 _ r2.2 h2]
        · intro i hi
          rw [allocColl_snd, allocColl_colls_self] at hi
          rw [allocColl_nextP]
          rcases List.mem_append.mp hi with h | h
          · exact hmem1' i h
          · exact hmem2 i h
        · show ((allocColl r2.1 (r2.1.colls r1.2 ++ r2.1.colls r2.2)).1.colls r1.2).map
              (allocColl r2.1 (r2.1.colls r1.2 ++ r2.1.colls r2.2)).1.params =
            it.parameters.map (fun d => (⟨d.pname, d.value, d.unit, d.frozen⟩ : Param))
          rw [allocColl_colls_ne r2.1 _ r1.2 h1, allocColl_params]
          exact hmap1'
        · show ((allocColl r2.1 (r2.1.colls r1.2 ++ r2.1.colls r2.2)).1.colls r2.2).map
              (allocColl r2.1 (r2.1.colls r1.2 ++ r2.1.colls r2.2)).1.params =
            it2.parameters.map (fun d => (⟨d.pname, d.value, d.unit, d.frozen⟩ : Param))
          rw [allocColl_colls_ne r2.1 _ r2.2 h2, allocColl_params]
          exact hmap2

theorem dictToModelsAux_sky (recs : List ModelDict) (st : Store) (acc : List Model)
    (hrec : ∀ r ∈ recs, recOk r = true ∧ r.model = none) :
    ∃ st' ms, dictToModelsAux st recs acc = .ok (st', ms) ∧ StoreLe st st' ∧
      (∃ tl, ms = acc ++ tl ∧
        (∀ m' ∈ tl, ∃ r ∈ recs, ReconOk st' r m') ∧
        (∀ r ∈ recs, ∃ m' ∈ tl, ReconOk st' r m')) := by
  induction recs generalizing st acc with
  | nil =>
    exact ⟨st, acc, rfl, StoreLe.refl st,
      [], by simp, fun m' hm' => absurd hm' (List.not_mem_nil m'),
      fun r hr => absurd hr (List.not_mem_nil r)⟩
  | cons r0 rest ih =>
    obtain ⟨hok0, hm0⟩ := hrec r0 (List.mem_cons_self _ _)
    obtain ⟨stA, m1, hsky, hleA, hrecon⟩ := dictToSkymodel_spec st r0 hok0 hm0
    obtain ⟨st', ms, hrun, hle', tl, htl, htlrec, hall⟩ :=
      ih stA (acc ++ [m1]) (fun r hr => hrec r (List.mem_cons_of_mem _ hr))
    refine ⟨st', ms, ?_, StoreLe.trans hleA hle', m1 :: tl, ?_, ?_, ?_⟩
    · rw [dictToModelsAux, hm0, hsky]
      exact hrun
    · rw [htl, List.append_assoc, List.singleton_append]
    · intro m' hm'
      rcases List.mem_cons.mp hm' with rfl | hm'
      · exact ⟨r0, List.mem_cons_self _ _, hrecon.mono hle'⟩
      · obtain ⟨r, hr, hre⟩ := htlrec m' hm'
        exact ⟨r, List.mem_cons_of_mem _ hr, hre⟩
    · intro r hr
      rcases List.mem_cons.mp hr with rfl | hr
      · exact ⟨m1, List.mem_cons_self _ _, hrecon.mono hle'⟩
      · obtain ⟨m', hm', hre⟩ := hall r hr
        exact ⟨m', List.mem_cons_of_mem _ hm', hre⟩

theorem collectSharedAux_nodup (l : List Nat) (seen shared : List Nat)
    (hnd : l.Nodup) (hdisj : ∀ x ∈ l, x ∉ seen) :
    (collectSharedAux l (seen, shared)).2 = shared := by
  induction l generalizing seen with
  | nil => rfl
  | cons pid rest ih =>
    rw [collectSharedAux]
    rw [if_neg (hdisj pid (List.mem_cons_self _ _))]
    refine ih (seen ++ [pid]) (List.Nodup.of_cons hnd) ?_
    intro x hx hmem
    rcases List.mem_append.mp hmem with h | h
    · exact hdisj x (List.mem_cons_of_mem _ hx) h
    · rw [List.mem_singleton] at h
      subst h
      exact (List.nodup_cons.mp hnd).1 hx

theorem collectShared_eq_nil (st : Store) (models : List Model)
    (h : (allParamIds st models).Nodup) : collectShared st models = [] :=
  collectSharedAux_nodup _ [] [] h (by simp)

theorem renameShared_eq_self (st : Store) (models : List Model)
    (h : collectShared st models = []) : renameShared st models = st := by
  unfold renameShared renameSharedList
  rw [h]
  rfl

theorem linkStep_noat (st : Store) (reg : List (PStr × Nat)) (it : LinkItem) (i : Nat)
    (h : ∀ pid ∈ st.colls it.collId, '@' ∉ (st.params pid).pname) :
    linkStep (st, reg) it i = (st, reg) := by
  cases hget : (st.colls it.collId).get? i with
  | none =>
    unfold linkStep
    dsimp only
    rw [hget]
  | some pid =>
    have hmem : pid ∈ st.colls it.collId := by
      obtain ⟨hlt, hEq⟩ := List.get?_eq_some.mp hget
      exact hEq ▸ List.get_mem _ _ _
    unfold linkStep
    dsimp only
    rw [hget]
    simp only [if_neg (h pid hmem)]

theorem linkFold_noat (l : List Nat) (st : Store) (reg : List (PStr × Nat)) (it : LinkItem)
    (h : ∀ pid ∈ st.colls it.collId, '@' ∉ (st.params pid).pname) :
    l.foldl (fun a i => linkStep a it i) (st, reg) = (st, reg) := by
  induction l with
  | nil => rfl
  | cons i rest ih => rw [List.foldl_cons, linkStep_noat st reg it i h, ih]

theorem linkItemRun_noat (st : Store) (reg : List (PStr × Nat)) (it : LinkItem)
    (h : ∀ pid ∈ st.colls it.collId, '@' ∉ (st.params pid).pname) :
    linkItemRun (st, reg) it = (st, reg) :=
  linkFold_noat _ st reg it h

theorem linkShared_noat (st : Store) (items : List LinkItem)
    (h : ∀ it ∈ items, ∀ pid ∈ st.colls it.collId, '@' ∉ (st.params pid).pname) :
    linkShared st items = st := by
  unfold linkShared
  suffices hgen : ∀ reg : List (PStr × Nat), items.foldl linkItemRun (st, reg) = (st, reg) by
    rw [hgen []]
  induction items with
  | nil => intro reg; rfl
  | cons it rest ih =>
    intro reg
    rw [List.foldl_cons, linkItemRun_noat st reg it (h it (List.mem_cons_self _ _))]
    exact ih (fun it' hit' => h it' (List.mem_cons_of_mem _ hit')) reg

/-- **C2 counterexample.**  The claim quantifies over every list of models,
but `dict_to_models` reconstructs only composite sky records: a list holding
one `BackgroundModel` (no shared parameters) round-trips to the empty model
list, so no reconstructed model with the original's name exists. -/
theorem models_round_trip_cex :
    collectShared c2cStore [c2cModel] = [] ∧
    c2cModel.mname = pstr "bkg" ∧
    (dict_to_models (models_to_dict c2cStore [c2cModel]).1
        (models_to_dict c2cStore [c2cModel]).2 true).map (fun r => r.2.map Model.mname) =
      .ok [] :=
  ⟨by decide, by decide, rfl⟩

/-- **C2 (amended).**  For every list of composite `SkyModel`s (with the
constructor's combined-collection invariant) whose parameters are unshared and
whose parameter names contain no `@`, applying `dict_to_models` to the output
of `models_to_dict` succeeds, and every model in the list has a reconstructed
model with equal name, equal spatial and spectral classes, equal spatial
filename, and equal parameter values and units, slot by slot. -/
theorem models_round_trip
    (st : Store) (models : List Model)
    (hsky : ∀ m ∈ models, m.isSky = true)
    (hwf : ∀ m ∈ models, skyWF st m = true)
    (hnoshare : (allParamIds st models).Nodup)
    (hat : ∀ pid ∈ allParamIds st models, '@' ∉ (st.params pid).pname) :
    ∃ st' ms,
      dict_to_models (models_to_dict st models).1 (models_to_dict st models).2 true =
        .ok (st', ms) ∧
      ∀ m ∈ models, ∃ m' ∈ ms, roundTripMatch st st' m m' = true := by
  have hren : renameShared st models = st :=
    renameShared_eq_self st models (collectShared_eq_nil st models hnoshare)
  have hrecs_eq : (models_to_dict st models).2.components =
      models.foldl (fun a m => dedupAppend a (modelToDict st m)) [] := by
    rw [models_to_dict_components, hren]
  have hatAll : ∀ m ∈ models, ∀ q ∈ st.colls m.pcoll, '@' ∉ (st.params q).pname := by
    intro m hm q hq
    apply hat
    unfold allParamIds
    rw [List.mem_flatten]
    exact ⟨Model.paramIds st m, List.mem_map_of_mem _ hm, hq⟩
  have hrecOk : ∀ m ∈ models, recOk (modelToDict st m) = true ∧
      (modelToDict st m).model = none := by
    intro m hm
    cases m with
    | generic n ty fn pc => exact absurd (hsky _ hm) (by simp [Model.isSky])
    | sky n sp spec comb =>
      exact ⟨by simp [recOk, modelToDict, subToDict, spatialFromName_clsName,
        spectralFromName_clsName], rfl⟩
  have hmemRec : ∀ r ∈ (models_to_dict st models).2.components,
      ∃ m ∈ models, r = modelToDict st m := by
    intro r hr
    rw [hrecs_eq, dedup_foldl_mem] at hr
    rcases hr with hr | hr
    · cases hr
    · obtain ⟨m, hm, hEq⟩ := List.mem_map.mp hr
      exact ⟨m, hm, hEq.symm⟩
  obtain ⟨st', ms, hrun, hle, tl, htl, htlrec, hall⟩ :=
    dictToModelsAux_sky (models_to_dict st models).2.components
      (models_to_dict st models).1 []
      (fun r hr => by obtain ⟨m, hm, rfl⟩ := hmemRec r hr; exact hrecOk m hm)
  rw [List.nil_append] at htl
  subst htl
  have hnoat : ∀ it ∈ ms.map Model.toLinkItem,
      ∀ pid ∈ st'.colls it.collId, '@' ∉ (st'.params pid).pname := by
    intro it hit pid hpid
    obtain ⟨m', hm', rfl⟩ := List.mem_map.mp hit
    obtain ⟨r, hr, hre⟩ := htlrec m' hm'
    obtain ⟨m, hm, rfl⟩ := hmemRec r hr
    obtain ⟨sp', spec', comb', it1, it2, hm'eq, hspat, hspec, hparse, hfn, hparse2,
      _, _, _, hcomb, hmem', hmap1, hmap2⟩ := hre
    cases m with
    | generic a b c d => exact absurd (hsky _ hm) (by simp [Model.isSky])
    | sky n sp spec comb =>
      have hit1 : it1 = ⟨sp.stype.clsName, sp.filename,
          (st.colls sp.pcoll).map (paramToDict st)⟩ := by
        have hx : (modelToDict st (.sky n sp spec comb)).spatial =
            some ⟨sp.stype.clsName, sp.filename,
              (st.colls sp.pcoll).map (paramToDict st)⟩ := rfl
        rw [hx] at hspat
        exact (Option.some.inj hspat).symm
      have hit2 : it2 = ⟨spec.stype.clsName, none,
          (st.colls spec.pcoll).map (paramToDict st)⟩ := by
        have hx : (modelToDict st (.sky n sp spec comb)).spectral =
            some ⟨spec.stype.clsName, none,
              (st.colls spec.pcoll).map (paramToDict st)⟩ := rfl
        rw [hx] at hspec
        exact (Option.some.inj hspec).symm
      have hwfm : st.colls comb = st.colls sp.pcoll ++ st.colls spec.pcoll := by
        have := hwf _ hm
        simpa [skyWF] using this
      subst hm'eq
      have hpid' : pid ∈ st'.colls comb' := hpid
      rw [hcomb] at hpid'
      have hname : ∃ q, (q ∈ st.colls sp.pcoll ∨ q ∈ st.colls spec.pcoll) ∧
          (st'.params pid).pname = (st.params q).pname := by
        rcases List.mem_append.mp hpid' with h | h
        · have hin : st'.params pid ∈ (st'.colls sp'.pcoll).map st'.params :=
            List.mem_map_of_mem _ h
          rw [hmap1, hit1] at hin
          simp only [List.map_map, List.mem_map] at hin
          obtain ⟨q, hq, hEq⟩ := hin
          exact ⟨q, Or.inl hq, by rw [← hEq]; rfl⟩
        · have hin : st'.params pid ∈ (st'.colls spec'.pcoll).map st'.params :=
            List.mem_map_of_mem _ h
          rw [hmap2, hit2] at hin
          simp only [List.map_map, List.mem_map] at hin
          obtain ⟨q, hq, hEq⟩ := hin
          exact ⟨q, Or.inr hq, by rw [← hEq]; rfl⟩
      obtain ⟨q, hq, hEq⟩ := hname
      rw [hEq]
      apply hatAll _ hm
      show q ∈ st.colls (Model.pcoll (.sky n sp spec comb))
      rw [Model.pcoll, hwfm]
      rcases hq with h | h
      · exact List.mem_append_left _ h
      · exact List.mem_append_right _ h
  have hdm : dict_to_models (models_to_dict st models).1 (models_to_dict st models).2 true =
      .ok (linkShared st' (ms.map Model.toLinkItem), ms) := by
    unfold dict_to_models
    rw [hrun]
    rfl
  rw [linkShared_noat st' _ hnoat] at hdm
  refine ⟨st', ms, hdm, ?_⟩
  intro m hm
  have hrm : modelToDict st m ∈ (models_to_dict st models).2.components := by
    rw [hrecs_eq, dedup_foldl_mem]
    exact Or.inr (List.mem_map_of_mem _ hm)
  obtain ⟨m', hm', hre⟩ := hall (modelToDict st m) hrm
  refine ⟨m', hm', ?_⟩
  cases m with
  | generic a b c d => exact absurd (hsky _ hm) (by simp [Model.isSky])
  | sky n sp spec comb =>
    obtain ⟨sp', spec', comb', it1, it2, hm'eq, hspat, hspec, hparse, hfn, hparse2,
      _, _, _, hcomb, hmem', hmap1, hmap2⟩ := hre
    have hit1 : it1 = ⟨sp.stype.clsName, sp.filename,
        (st.colls sp.pcoll).map (paramToDict st)⟩ := by
      have hx : (modelToDict st (.sky n sp spec comb)).spatial =
          some ⟨sp.stype.clsName, sp.filename,
            (st.colls sp.pcoll).map (paramToDict st)⟩ := rfl
      rw [hx] at hspat
      exact (Option.some.inj hspat).symm
    have hit2 : it2 = ⟨spec.stype.clsName, none,
        (st.colls spec.pcoll).map (paramToDict st)⟩ := by
      have hx : (modelToDict st (.sky n sp spec comb)).spectral =
          some ⟨spec.stype.clsName, none,
            (st.colls spec.pcoll).map (paramToDict st)⟩ := rfl
      rw [hx] at hspec
      exact (Option.some.inj hspec).symm
    have hstype : sp'.stype = sp.stype := by
      rw [hit1] at hparse
      rw [spatialFromName_clsName] at hparse
      exact (Option.some.inj hparse).symm
    have hstype2 : spec'.stype = spec.stype := by
      rw [hit2] at hparse2
      rw [spectralFromName_clsName] at hparse2
      exact (Option.some.inj hparse2).symm
    have hfn' : sp'.filename = sp.filename := by
      rw [hit1] at hfn
      exact hfn
    have hvu1 : paramVU st' sp'.pcoll = paramVU st sp.pcoll := by
      unfold paramVU
      have h1 : (st'.colls sp'.pcoll).map
          (fun i => ((st'.params i).value, (st'.params i).unit)) =
          ((st'.colls sp'.pcoll).map st'.params).map (fun p => (p.value, p.unit)) := by
        rw [List.map_map]
        rfl
      rw [h1, hmap1, hit1]
      simp only [List.map_map]
      rfl
    have hvu2 : paramVU st' spec'.pcoll = paramVU st spec.pcoll := by
      unfold paramVU
      have h1 : (st'.colls spec'.pcoll).map
          (fun i => ((st'.params i).value, (st'.params i).unit)) =
          ((st'.colls spec'.pcoll).map st'.params).map (fun p => (p.value, p.unit)) := by
        rw [List.map_map]
        rfl
      rw [h1, hmap2, hit2]
      simp only [List.map_map]
      rfl
    subst hm'eq
    show roundTripMatch st st' (.sky n sp spec comb)
      (.sky (modelToDict st (.sky n sp spec comb)).mname sp' spec' comb') = true
    unfold roundTripMatch
    simp only [Bool.and_eq_true, decide_eq_true_eq]
    exact ⟨⟨⟨⟨⟨rfl, hstype⟩, hfn'⟩, hstype2⟩, hvu1⟩, hvu2⟩

/-- C2 witness: one concrete composite model (point-source power law)
round-trips. -/
theorem models_round_trip_witness :
    (∀ m ∈ [c2wModel], m.isSky = true) ∧
    (∀ m ∈ [c2wModel], skyWF c2wStore m = true) ∧
    (allParamIds c2wStore [c2wModel]).Nodup ∧
    (∀ pid ∈ allParamIds c2wStore [c2wModel], '@' ∉ (c2wStore.params pid).pname) ∧
    (∃ st' ms, dict_to_models (models_to_dict c2wStore [c2wModel]).1
        (models_to_dict c2wStore [c2wModel]).2 true = .ok (st', ms) ∧
      ∀ m ∈ [c2wModel], ∃ m' ∈ ms, roundTripMatch c2wStore st' m m' = true) :=
  ⟨by decide, by decide, by decide, by decide,
    models_round_trip c2wStore [c2wModel] (by decide) (by decide) (by decide) (by decide)⟩

/-- **C1 counterexample.**  Two distinct composite models that reference the
identical parameter object and serialize to equal records: de-duplication
keeps a single record, so the full cycle reconstructs a single model — "the
two reconstructed models" whose corresponding parameters the claim speaks of
do not exist. -/
theorem shared_identity_round_trip_cex :
    c1cM1 ≠ c1cM2 ∧
    0 ∈ Model.paramIds c1cStore c1cM1 ∧ 0 ∈ Model.paramIds c1cStore c1cM2 ∧
    (dict_to_models (models_to_dict c1cStore [c1cM1, c1cM2]).1
        (models_to_dict c1cStore [c1cM1, c1cM2]).2 true).map (fun r => r.2.length) =
      .ok 1 :=
  ⟨by decide, by decide, by decide, rfl⟩

theorem pySplitHead_at_free (s : PStr) : '@' ∉ pySplitHead s := by
  intro h
  have := List.mem_takeWhile_imp h
  simp at this

theorem digitChar_inj (x y : Nat) (hx : x < 10) (hy : y < 10)
    (h : Nat.digitChar x = Nat.digitChar y) : x = y := by
  interval_cases x <;> interval_cases y <;> revert h <;> decide

theorem map_digitChar_inj (l1 l2 : List Nat) (h1 : ∀ x ∈ l1, x < 10)
    (h2 : ∀ x ∈ l2, x < 10) (h : l1.map Nat.digitChar = l2.map Nat.digitChar) :
    l1 = l2 := by
  induction l1 generalizing l2 with
  | nil => cases l2 <;> simp_all
  | cons x xs ih =>
    cases l2 with
    | nil => simp at h
    | cons y ys =>
      simp only [List.map_cons, List.cons.injEq] at h
      have hxy : x = y :=
        digitChar_inj x y (h1 x (List.mem_cons_self _ _)) (h2 y (List.mem_cons_self _ _)) h.1
      rw [hxy, ih ys (fun z hz => h1 z (List.mem_cons_of_mem _ hz))
        (fun z hz => h2 z (List.mem_cons_of_mem _ hz)) h.2]

theorem natChars_inj (a b : Nat) (h : natChars a = natChars b) : a = b := by
  unfold natChars at h
  by_cases ha : a = 0 <;> by_cases hb : b = 0
  · omega
  · rw [if_pos ha, if_neg hb] at h
    have hnil : Nat.digits 10 b ≠ [] := Nat.digits_ne_nil_iff_ne_zero.mpr hb
    have hlen : (Nat.digits 10 b).reverse.length = 1 := by
      have := congrArg List.length h
      simpa using this.symm
    obtain ⟨d, hd⟩ := List.length_eq_one.mp hlen
    rw [hd] at h
    simp only [List.map_cons, List.map_nil] at h
    have hdz : d = 0 := by
      have hmem : d ∈ Nat.digits 10 b := by
        have : d ∈ (Nat.digits 10 b).reverse := by rw [hd]; simp
        simpa using this
      have hlt : d < 10 := Nat.digits_lt_base (by norm_num) hmem
      have : Nat.digitChar d = '0' := by
        have := h.symm
        simpa using this
      exact digitChar_inj d 0 hlt (by norm_num) (by simpa using this)
    have hdigs : Nat.digits 10 b = [d] := by
      have := congrArg List.reverse hd
      simpa using this
    exfalso
    apply hb
    calc b = Nat.ofDigits 10 (Nat.digits 10 b) := (Nat.ofDigits_digits 10 b).symm
      _ = 0 := by rw [hdigs, hdz]; simp [Nat.ofDigits]
  · rw [if_neg ha, if_pos hb] at h
    have hnil : Nat.digits 10 a ≠ [] := Nat.digits_ne_nil_iff_ne_zero.mpr ha
    have hlen : (Nat.digits 10 a).reverse.length = 1 := by
      have := congrArg List.length h
      simpa using this
    obtain ⟨d, hd⟩ := List.length_eq_one.mp hlen
    rw [hd] at h
    simp only [List.map_cons, List.map_nil] at h
    have hdz : d = 0 := by
      have hmem : d ∈ Nat.digits 10 a := by
        have : d ∈ (Nat.digits 10 a).reverse := by rw [hd]; simp
        simpa using this
      have hlt : d < 10 := Nat.digits_lt_base (by norm_num) hmem
      have : Nat.digitChar d = '0' := by simpa using h
      exact digitChar_inj d 0 hlt (by norm_num) this
    have hdigs : Nat.digits 10 a = [d] := by
      have := congrArg List.reverse hd
      simpa using this
    exfalso
    apply ha
    calc a = Nat.ofDigits 10 (Nat.digits 10 a) := (Nat.ofDigits_digits 10 a).symm
      _ = 0 := by rw [hdigs, hdz]; simp [Nat.ofDigits]
  · rw [if_neg ha, if_neg hb] at h
    have hrev : (Nat.digits 10 a).reverse = (Nat.digits 10 b).reverse := by
      apply map_digitChar_inj _ _ ?_ ?_ h
      · intro x hx
        exact Nat.digits_lt_base (by norm_num) (by simpa using hx)
      · intro x hx
        exact Nat.digits_lt_base (by norm_num) (by simpa using hx)
    have hdig : Nat.digits 10 a = Nat.digits 10 b := by
      have := congrArg List.reverse hrev
      simpa using this
    calc a = Nat.ofDigits 10 (Nat.digits 10 a) := (Nat.ofDigits_digits 10 a).symm
      _ = Nat.ofDigits 10 (Nat.digits 10 b) := by rw [hdig]
      _ = b := Nat.ofDigits_digits 10 b

theorem suffix_name_inj (s1 s2 : PStr) (h1 : '@' ∉ s1) (h2 : '@' ∉ s2) (k1 k2 : Nat)
    (h : s1 ++ pstr "@shared_" ++ natChars k1 = s2 ++ pstr "@shared_" ++ natChars k2) :
    s1 = s2 ∧ k1 = k2 := by
  have hsplit : pstr "@shared_" = '@' :: pstr "shared_" := rfl
  rw [hsplit] at h
  have h' : s1 ++ '@' :: (pstr "shared_" ++ natChars k1) =
      s2 ++ '@' :: (pstr "shared_" ++ natChars k2) := by
    simpa [List.append_assoc] using h
  have hs : s1 = s2 := by
    have e1 := pySplitHead_append_at s1 (pstr "shared_" ++ natChars k1) h1
    have e2 := pySplitHead_append_at s2 (pstr "shared_" ++ natChars k2) h2
    rw [← e1, ← e2, h']
  subst hs
  have htail : '@' :: (pstr "shared_" ++ natChars k1) =
      '@' :: (pstr "shared_" ++ natChars k2) := List.append_cancel_left h'
  have htail2 : pstr "shared_" ++ natChars k1 = pstr "shared_" ++ natChars k2 :=
    List.cons.inj htail |>.2
  exact ⟨rfl, natChars_inj k1 k2 (List.append_cancel_left htail2)⟩

theorem drop_set_ge (l : List Nat) (n s v : Nat) (h : n ≤ s) :
    (l.set s v).drop n = (l.drop n).set (s - n) v := by
  apply List.ext_getElem?
  intro u
  rw [List.getElem?_drop]
  by_cases hu : s = n + u
  · subst hu
    by_cases hs : n + u < l.length
    · rw [List.getElem?_set_self hs]
      have hsub : n + u - n = u := by omega
      rw [hsub]
      rw [List.getElem?_set_self (by rw [List.length_drop]; omega)]
    · rw [List.set_eq_of_length_le (by omega)]
      rw [List.set_eq_of_length_le (by rw [List.length_drop]; omega)]
      rw [List.getElem?_drop]
  · rw [List.getElem?_set_ne (fun hEq => hu hEq)]
    rw [List.getElem?_set_ne (by omega)]
    rw [List.getElem?_drop]

theorem renameSharedAux_not_mem (l : List Nat) (st : Store) (k0 pid : Nat)
    (h : pid ∉ l) : (renameSharedAux st k0 l).params pid = st.params pid := by
  induction l generalizing st k0 with
  | nil => rfl
  | cons q rest ih =>
    rw [renameSharedAux]
    have hq : pid ≠ q := fun hEq => h (hEq ▸ List.mem_cons_self _ _)
    rw [ih _ _ (fun hm => h (List.mem_cons_of_mem _ hm))]
    exact updParam_params_ne _ _ _ _ hq

theorem renameSharedAux_at (l : List Nat) (st : Store) (k0 u : Nat) (pid : Nat)
    (hnd : l.Nodup) (hu : l[u]? = some pid) :
    (renameSharedAux st k0 l).params pid =
      { st.params pid with
        pname := (st.params pid).pname ++ pstr "@shared_" ++ natChars (k0 + u) } := by
  induction l generalizing st k0 u with
  | nil => simp at hu
  | cons q rest ih =>
    rw [renameSharedAux]
    cases u with
    | zero =>
      simp only [List.getElem?_cons_zero, Option.some.injEq] at hu
      subst hu
      have hnm : q ∉ rest := (List.nodup_cons.mp hnd).1
      rw [renameSharedAux_not_mem rest _ _ _ hnm, updParam_params_self]
      simp
    | succ u' =>
      simp only [List.getElem?_cons_succ] at hu
      have hq : pid ≠ q := by
        intro hEq
        subst hEq
        exact (List.nodup_cons.mp hnd).1 (List.getElem?_mem hu)
      rw [ih _ _ u' (List.nodup_cons.mp hnd).2 hu]
      rw [updParam_params_ne _ _ _ _ hq]
      have harith : k0 + 1 + u' = k0 + (u' + 1) := by omega
      rw [harith]

theorem collectSharedAux_sub (l : List Nat) (seen shared : List Nat) :
    ∀ p ∈ (collectSharedAux l (seen, shared)).2, p ∈ shared ∨ p ∈ l := by
  induction l generalizing seen shared with
  | nil => intro p hp; exact Or.inl hp
  | cons q rest ih =>
    intro p hp
    rw [collectSharedAux] at hp
    by_cases hq : q ∈ seen
    · rw [if_pos hq] at hp
      by_cases hqs : q ∈ shared
      · rw [if_pos hqs] at hp
        rcases ih seen shared p hp with h | h
        · exact Or.inl h
        · exact Or.inr (List.mem_cons_of_mem _ h)
      · rw [if_neg hqs] at hp
        rcases ih seen (shared ++ [q]) p hp with h | h
        · rcases List.mem_append.mp h with h | h
          · exact Or.inl h
          · rw [List.mem_singleton] at h
            exact Or.inr (h ▸ List.mem_cons_self _ _)
        · exact Or.inr (List.mem_cons_of_mem _ h)
    · rw [if_neg hq] at hp
      rcases ih (seen ++ [q]) shared p hp with h | h
      · exact Or.inl h
      · exact Or.inr (List.mem_cons_of_mem _ h)

theorem collectSharedAux_nodup' (l : List Nat) (seen shared : List Nat)
    (hnd : shared.Nodup) : (collectSharedAux l (seen, shared)).2.Nodup := by
  induction l generalizing seen shared with
  | nil => exact hnd
  | cons q rest ih =>
    rw [collectSharedAux]
    by_cases hq : q ∈ seen
    · rw [if_pos hq]
      by_cases hqs : q ∈ shared
      · rw [if_pos hqs]
        exact ih seen shared hnd
      · rw [if_neg hqs]
        exact ih seen (shared ++ [q])
          (List.nodup_append.mpr ⟨hnd, List.nodup_singleton _, by simpa using hqs⟩)
    · rw [if_neg hq]
      exact ih (seen ++ [q]) shared hnd

theorem collectSharedAux_mem (l : List Nat) (seen shared : List Nat) (p : Nat)
    (h : p ∈ shared ∨ (p ∈ seen ∧ p ∈ l) ∨ 2 ≤ l.count p) :
    p ∈ (collectSharedAux l (seen, shared)).2 := by
  induction l generalizing seen shared with
  | nil =>
    rcases h with h | ⟨_, h⟩ | h
    · exact h
    · cases h
    · simp at h
  | cons q rest ih =>
    rw [collectSharedAux]
    by_cases hq : q ∈ seen
    · rw [if_pos hq]
      by_cases hqs : q ∈ shared
      · rw [if_pos hqs]
        apply ih
        rcases h with h | ⟨hseen, hmem⟩ | hcnt
        · exact Or.inl h
        · rcases List.mem_cons.mp hmem with rfl | hmem
          · exact Or.inl hqs
          · exact Or.inr (Or.inl ⟨hseen, hmem⟩)
        · by_cases hpq : p = q
          · subst hpq
            have : 1 ≤ rest.count p := by
              rw [List.count_cons_self] at hcnt
              omega
            exact Or.inr (Or.inl ⟨hq, List.count_pos_iff.mp (by omega)⟩)
          · rw [List.count_cons_of_ne hpq] at hcnt
            exact Or.inr (Or.inr hcnt)
      · rw [if_neg hqs]
        apply ih
        rcases h with h | ⟨hseen, hmem⟩ | hcnt
        · exact Or.inl (List.mem_append_left _ h)
        · rcases List.mem_cons.mp hmem with rfl | hmem
          · exact Or.inl (List.mem_append_right _ (List.mem_singleton.mpr rfl))
          · exact Or.inr (Or.inl ⟨hseen, hmem⟩)
        · by_cases hpq : p = q
          · subst hpq
            exact Or.inl (List.mem_append_right _ (List.mem_singleton.mpr rfl))
          · rw [List.count_cons_of_ne hpq] at hcnt
            exact Or.inr (Or.inr hcnt)
    · rw [if_neg hq]
      apply ih
      rcases h with h | ⟨hseen, hmem⟩ | hcnt
      · exact Or.inl h
      · rcases List.mem_cons.mp hmem with rfl | hmem
        · exact absurd hseen hq
        · exact Or.inr (Or.inl ⟨List.mem_append_left _ hseen, hmem⟩)
      · by_cases hpq : p = q
        · subst hpq
          rw [List.count_cons_self] at hcnt
          have hmem : p ∈ rest := List.count_pos_iff.mp (by omega)
          exact Or.inr (Or.inl ⟨List.mem_append_right _ (List.mem_singleton.mpr rfl), hmem⟩)
        · rw [List.count_cons_of_ne hpq] at hcnt
          exact Or.inr (Or.inr hcnt)

theorem collectShared_mem_of_count (st : Store) (models : List Model) (p : Nat)
    (h : 2 ≤ (allParamIds st models).count p) : p ∈ collectShared st models :=
  collectSharedAux_mem _ [] [] p (Or.inr (Or.inr h))

theorem collectShared_nodup (st : Store) (models : List Model) :
    (collectShared st models).Nodup :=
  collectSharedAux_nodup' _ [] [] List.nodup_nil

theorem collectShared_sub (st : Store) (models : List Model) :
    ∀ p ∈ collectShared st models, p ∈ allParamIds st models := by
  intro p hp
  rcases collectSharedAux_sub _ [] [] p hp with h | h
  · cases h
  · exact h

theorem renameShared_not_shared (st : Store) (models : List Model) (p : Nat)
    (h : p ∉ collectShared st models) :
    (renameShared st models).params p = st.params p :=
  renameSharedAux_not_mem _ _ _ _ h

theorem renameShared_shared_at (st : Store) (models : List Model) (p u : Nat)
    (hu : (collectShared st models)[u]? = some p) :
    (renameShared st models).params p =
      { st.params p with
        pname := (st.params p).pname ++ pstr "@shared_" ++ natChars u } := by
  have h := renameSharedAux_at (collectShared st models) st 0 u p
    (collectShared_nodup st models) hu
  simpa using h

theorem renamed_name_inj (st : Store) (models : List Model)
    (hat : ∀ pid ∈ allParamIds st models, '@' ∉ (st.params pid).pname)
    (a b : Nat) (ha : a ∈ allParamIds st models) (hb : b ∈ allParamIds st models)
    (hAt : '@' ∈ ((renameShared st models).params a).pname)
    (heq : ((renameShared st models).params a).pname =
      ((renameShared st models).params b).pname) :
    a = b := by
  by_cases has : a ∈ collectShared st models
  · obtain ⟨u, hu⟩ := List.getElem?_of_mem has
    by_cases hbs : b ∈ collectShared st models
    · obtain ⟨v, hv⟩ := List.getElem?_of_mem hbs
      rw [renameShared_shared_at st models a u hu,
        renameShared_shared_at st models b v hv] at heq
      obtain ⟨_, huv⟩ := suffix_name_inj _ _ (hat a ha) (hat b hb) u v heq
      subst huv
      rw [hu] at hv
      exact Option.some.inj hv
    · rw [renameShared_not_shared st models b hbs] at heq
      rw [heq] at hAt
      exact absurd hAt (hat b hb)
  · rw [renameShared_not_shared st models a has] at hAt
    exact absurd hAt (hat a ha)

theorem two_getElem_le_sum (ns : List Nat) (i j a b : Nat) (hij : i < j)
    (hi : ns[i]? = some a) (hj : ns[j]? = some b) : a + b ≤ ns.sum := by
  induction ns generalizing i j with
  | nil => simp at hi
  | cons x rest ih =>
    cases i with
    | zero =>
      simp only [List.getElem?_cons_zero, Option.some.injEq] at hi
      subst hi
      cases j with
      | zero => omega
      | succ j' =>
        simp only [List.getElem?_cons_succ] at hj
        have hble : b ≤ rest.sum := by
          have hbm : b ∈ rest := List.getElem?_mem hj
          exact List.single_le_sum (fun _ _ => Nat.zero_le _) b hbm
        simp only [List.sum_cons]
        omega
    | succ i' =>
      cases j with
      | zero => omega
      | succ j' =>
        simp only [List.getElem?_cons_succ] at hi hj
        have := ih i' j' (by omega) hi hj
        simp only [List.sum_cons]
        omega

theorem count_flatten_two (L : List (List Nat)) (i j : Nat) (li lj : List Nat) (p : Nat)
    (hij : i ≠ j) (hi : L[i]? = some li) (hj : L[j]? = some lj)
    (hpi : p ∈ li) (hpj : p ∈ lj) : 2 ≤ L.flatten.count p := by
  rw [List.count_flatten]
  have hmi : (L.map (List.count p))[i]? = some (li.count p) := by
    rw [List.getElem?_map, hi]
    rfl
  have hmj : (L.map (List.count p))[j]? = some (lj.count p) := by
    rw [List.getElem?_map, hj]
    rfl
  have hci : 1 ≤ li.count p := List.count_pos_iff.mpr hpi
  have hcj : 1 ≤ lj.count p := List.count_pos_iff.mpr hpj
  rcases Nat.lt_or_ge i j with hlt | hge
  · have := two_getElem_le_sum _ i j _ _ hlt hmi hmj
    omega
  · have hlt : j < i := by omega
    have := two_getElem_le_sum _ j i _ _ hlt hmj hmi
    omega

theorem flatten_nodup_apart {α : Type} (l1 l2 : List (List α)) (mid : List α)
    (h : ((l1 ++ mid :: l2).flatten).Nodup) (x : α) (hx : x ∈ mid) :
    (∀ l ∈ l1, x ∉ l) ∧ (∀ l ∈ l2, x ∉ l) := by
  rw [List.flatten_append, List.flatten_cons] at h
  obtain ⟨h1, h2, hdisj⟩ := List.nodup_append.mp h
  obtain ⟨hm, hf2, hdisj2⟩ := List.nodup_append.mp h2
  constructor
  · intro l hl hxl
    exact hdisj (List.mem_flatten.mpr ⟨l, hl, hxl⟩) (List.mem_append_left _ hx)
  · intro l hl hxl
    exact hdisj2 hx (List.mem_flatten.mpr ⟨l, hl, hxl⟩)

theorem dedup_foldl_id (f : Model → ModelDict) (xs : List Model) (acc : List ModelDict)
    (hnd : (acc ++ xs.map f).Nodup) :
    xs.foldl (fun a x => dedupAppend a (f x)) acc = acc ++ xs.map f := by
  induction xs generalizing acc with
  | nil => simp
  | cons x rest ih =>
    rw [List.foldl_cons]
    rw [List.map_cons] at hnd
    have hfx : f x ∉ acc := by
      obtain ⟨h1, h2, hdisj⟩ := List.nodup_append.mp hnd
      intro hmem
      exact hdisj hmem (List.mem_cons_self _ _)
    rw [dedupAppend, if_neg hfx]
    have hnd2 : ((acc ++ [f x]) ++ rest.map f).Nodup := by
      rw [List.append_assoc, List.singleton_append]
      exact hnd
    rw [ih (acc ++ [f x]) hnd2, List.append_assoc, List.singleton_append, List.map_cons]

theorem paramsFromDictAux_spec2 (ps : List ParamDict) (st : Store) (ids : List Nat)
    (hids : ∀ i ∈ ids, i < st.nextP) (hnd : ids.Nodup) :
    (paramsFromDictAux (st, ids) ps).2.Nodup ∧
    (∀ i ∈ (paramsFromDictAux (st, ids) ps).2, i ∈ ids ∨ st.nextP ≤ i) := by
  induction ps generalizing st ids with
  | nil => exact ⟨hnd, fun i hi => Or.inl hi⟩
  | cons d rest ih =>
    rw [paramsFromDictAux]
    dsimp only [allocParam]
    set st1 : Store :=
      { st with
        params := fun j => if j = st.nextP then ⟨d.pname, d.value, d.unit, d.frozen⟩
                           else st.params j,
        nextP := st.nextP + 1 } with hst1
    have hids1 : ∀ i ∈ ids ++ [st.nextP], i < st1.nextP := by
      intro i hi
      rcases List.mem_append.mp hi with h | h
      · have := hids i h
        show i < st.nextP + 1
        omega
      · rw [List.mem_singleton] at h
        show i < st.nextP + 1
        omega
    have hnd1 : (ids ++ [st.nextP]).Nodup := by
      refine List.nodup_append.mpr ⟨hnd, List.nodup_singleton _, ?_⟩
      intro x hx
      rw [List.mem_singleton]
      exact Nat.ne_of_lt (hids x hx)
    obtain ⟨h1, h2⟩ := ih st1 (ids ++ [st.nextP]) hids1 hnd1
    refine ⟨h1, ?_⟩
    intro i hi
    rcases h2 i hi with h | h
    · rcases List.mem_append.mp h with h | h
      · exact Or.inl h
      · rw [List.mem_singleton] at h
        right
        omega
    · right
      have : st.nextP + 1 ≤ i := h
      omega

theorem paramsFromDict_spec2 (st : Store) (ps : List ParamDict) :
    (paramsFromDict st ps).2 = st.nextC ∧
    (paramsFromDict st ps).1.nextC = st.nextC + 1 ∧
    ((paramsFromDict st ps).1.colls (paramsFromDict st ps).2).Nodup ∧
    (∀ i ∈ (paramsFromDict st ps).1.colls (paramsFromDict st ps).2, st.nextP ≤ i) := by
  obtain ⟨hnd, hlow⟩ := paramsFromDictAux_spec2 ps st [] (by simp) List.nodup_nil
  obtain ⟨hc, hncx, _, _, _, _⟩ := paramsFromDictAux_spec ps st [] (by simp)
  have hPF : paramsFromDict st ps =
      allocColl (paramsFromDictAux (st, []) ps).1 (paramsFromDictAux (st, []) ps).2 := rfl
  rw [hPF]
  refine ⟨by rw [allocColl_snd, hncx], by rw [allocColl_nextC, hncx], ?_, ?_⟩
  · rw [allocColl_snd, hncx]
    have : st.nextC = (paramsFromDictAux (st, []) ps).1.nextC := hncx.symm
    rw [this, allocColl_colls_self]
    exact hnd
  · intro i hi
    rw [allocColl_snd, hncx] at hi
    have hre : st.nextC = (paramsFromDictAux (st, []) ps).1.nextC := hncx.symm
    rw [hre, allocColl_colls_self] at hi
    rcases hlow i hi with h | h
    · cases h
    · exact h

theorem dictToSkymodel_spec2 (st : Store) (r : ModelDict)
    (hok : recOk r = true) (hm : r.model = none) :
    ∃ st' m', dictToSkymodel st r = .ok (st', m') ∧ StoreLe st st' ∧ ReconOk st' r m' ∧
      (st'.colls (Model.pcoll m')).Nodup ∧
      (∀ x ∈ st'.colls (Model.pcoll m'), st.nextP ≤ x ∧ x < st'.nextP) ∧
      (collIdsOf m').Nodup ∧
      (∀ c ∈ collIdsOf m', st.nextC ≤ c ∧ c < st'.nextC) := by
  unfold recOk at hok
  rw [hm] at hok
  cases hsp : r.spatial with
  | none => rw [hsp] at hok; simp at hok
  | some it =>
    rw [hsp] at hok
    cases hsc : r.spectral with
    | none => rw [hsc] at hok; simp at hok
    | some it2 =>
      rw [hsc] at hok
      simp only [Bool.and_eq_true, Option.isSome_iff_exists] at hok
      obtain ⟨⟨ty, hty⟩, ⟨ty2, hty2⟩⟩ := hok
      obtain ⟨hle1, hlt1, hmem1, hmap1⟩ := paramsFromDict_spec st it.parameters
      obtain ⟨hcid1, hnc1, hnd1, hlow1⟩ := paramsFromDict_spec2 st it.parameters
      set r1 := paramsFromDict st it.parameters with hr1
      obtain ⟨hle2, hlt2, hmem2, hmap2⟩ := paramsFromDict_spec r1.1 it2.parameters
      obtain ⟨hcid2, hnc2, hnd2, hlow2⟩ := paramsFromDict_spec2 r1.1 it2.parameters
      set r2 := paramsFromDict r1.1 it2.parameters with hr2
      have hcle : r1.1.nextC ≤ r2.1.nextC := hle2.2.1
      have h1 : r1.2 ≠ r2.1.nextC := by omega
      have h2 : r2.2 ≠ r2.1.nextC := Nat.ne_of_lt hlt2
      have hcoll1 : r2.1.colls r1.2 = r1.1.colls r1.2 := hle2.2.2.2 r1.2 hlt1
      have hmem1' : ∀ i ∈ r2.1.colls r1.2, i < r2.1.nextP := by
        intro i hi
        rw [hcoll1] at hi
        exact lt_of_lt_of_le (hmem1 i hi) hle2.1
      have hmap1' : (r2.1.colls r1.2).map r2.1.params =
          it.parameters.map (fun d => (⟨d.pname, d.value, d.unit, d.frozen⟩ : Param)) := by
        rw [hcoll1, ← hmap1]
        exact List.map_congr_left fun i hi => hle2.2.2.1 i (hmem1 i hi)
      refine ⟨(allocColl r2.1 (r2.1.colls r1.2 ++ r2.1.colls r2.2)).1,
        .sky r.mname ⟨ty, it.filename, r1.2⟩ ⟨ty2, r2.2⟩
          (allocColl r2.1 (r2.1.colls r1.2 ++ r2.1.colls r2.2)).2, ?_, ?_, ?_, ?_, ?_, ?_, ?_⟩
      · simp only [dictToSkymodel, hsp, hty, hsc, hty2]
      · refine StoreLe.trans (StoreLe.trans hle1 hle2) ?_
        refine ⟨?_, ?_, ?_, ?_⟩
        · rw [allocColl_nextP]
        · rw [allocColl_nextC]; omega
        · intro i _
          rw [allocColl_params]
        · intro j hj
          exact allocColl_colls_ne r2.1 _ j (Nat.ne_of_lt hj)
      · refine ⟨⟨ty, it.filename, r1.2⟩, ⟨ty2, r2.2⟩,
          (allocColl r2.1 (r2.1.colls r1.2 ++ r2.1.colls r2.2)).2, it, it2,
          rfl, hsp, hsc, hty, rfl, hty2, ?_, ?_, ?_, ?_, ?_, ?_, ?_⟩
        · show r1.2 < (allocColl r2.1 (r2.1.colls r1.2 ++ r2.1.colls r2.2)).1.nextC
          rw [allocColl_nextC]; omega
        · show r2.2 < (allocColl r2.1 (r2.1.colls r1.2 ++ r2.1.colls r2.2)).1.nextC
          rw [allocColl_nextC]; omega
        · rw [allocColl_snd, allocColl_nextC]; omega
        · show (allocColl r2.1 (r2.1.colls r1.2 ++ r2.1.colls r2.2)).1.colls
              (allocColl r2.1 (r2.1.colls r1.2 ++ r2.1.colls r2.2)).2 =
            (allocColl r2.1 (r2.1.colls r1.2 ++ r2.1.colls r2.2)).1.colls r1.2 ++
              (allocColl r2.1 (r2.1.colls r1.2 ++ r2.1.colls r2.2)).1.colls r2.2
          rw [allocColl_snd, allocColl_colls_self,
            allocColl_colls_ne r2.1 _ r1.2 h1, allocColl_colls_ne r2.1 _ r2.2 h2]
        · intro i hi
          rw [allocColl_snd, allocColl_colls_self] at hi
          rw [allocColl_nextP]
          rcases List.mem_append.mp hi with h | h
          · exact hmem1' i h
          · exact hmem2 i h
        · show ((allocColl r2.1 (r2.1.colls r1.2 ++ r2.1.colls r2.2)).1.colls r1.2).map
              (allocColl r2.1 (r2.1.colls r1.2 ++ r2.1.colls r2.2)).1.params =
            it.parameters.map (fun d => (⟨d.pname, d.value, d.unit, d.frozen⟩ : Param))
          rw [allocColl_colls_ne r2.1 _ r1.2 h1, allocColl_params]
          exact hmap1'
        · show ((allocColl r2.1 (r2.1.colls r1.2 ++ r2.1.colls r2.2)).1.colls r2.2).map
              (allocColl r2.1 (r2.1.colls r1.2 ++ r2.1.colls r2.2)).1.params =
            it2.parameters.map (fun d => (⟨d.pname, d.value, d.unit, d.frozen⟩ : Param))
          rw [allocColl_colls_ne r2.1 _ r2.2 h2, allocColl_params]
          exact hmap2
      · show ((allocColl r2.1 (r2.1.colls r1.2 ++ r2.1.colls r2.2)).1.colls
            (allocColl r2.1 (r2.1.colls r1.2 ++ r2.1.colls r2.2)).2).Nodup
        rw [allocColl_snd, allocColl_colls_self]
        rw [hcoll1]
        refine List.nodup_append.mpr ⟨hnd1, hnd2, ?_⟩
        intro x hx hx2
        have hxlt : x < r1.1.nextP := hmem1 x hx
        have hxge : r1.1.nextP ≤ x := hlow2 x hx2
        omega
      · show ∀ x ∈ (allocColl r2.1 (r2.1.colls r1.2 ++ r2.1.colls r2.2)).1.colls
            (allocColl r2.1 (r2.1.colls r1.2 ++ r2.1.colls r2.2)).2,
            st.nextP ≤ x ∧ x < (allocColl r2.1 (r2.1.colls r1.2 ++ r2.1.colls r2.2)).1.nextP
        intro x hx
        rw [allocColl_snd, allocColl_colls_self] at hx
        rw [allocColl_nextP]
        rcases List.mem_append.mp hx with h | h
        · rw [hcoll1] at h
          exact ⟨hlow1 x h, lt_of_lt_of_le (hmem1 x h) hle2.1⟩
        · exact ⟨le_trans hle1.1 (hlow2 x h), hmem2 x h⟩
      · show ([r1.2, r2.2, (allocColl r2.1 (r2.1.colls r1.2 ++ r2.1.colls r2.2)).2] :
            List Nat).Nodup
        rw [allocColl_snd]
        have hlt12 : r1.2 < r2.2 := by omega
        have hlt2c : r2.2 < r2.1.nextC := hlt2
        simp [List.nodup_cons]
        omega
      · show ∀ c ∈ ([r1.2, r2.2, (allocColl r2.1 (r2.1.colls r1.2 ++ r2.1.colls r2.2)).2] :
            List Nat), st.nextC ≤ c ∧
            c < (allocColl r2.1 (r2.1.colls r1.2 ++ r2.1.colls r2.2)).1.nextC
        intro c hc
        rw [allocColl_nextC]
        rw [allocColl_snd] at hc
        have hc1 : r1.2 = st.nextC := hcid1
        have hc2 : r2.2 = r1.1.nextC := hcid2
        simp only [List.mem_cons, List.not_mem_nil, or_false] at hc
        rcases hc with rfl | rfl | rfl
        · omega
        · omega
        · omega

theorem dictToModelsAux_sky_pos (recs : List ModelDict) (st : Store) (acc : List Model)
    (hrec : ∀ r ∈ recs, recOk r = true ∧ r.model = none) :
    ∃ st' tl, dictToModelsAux st recs acc = .ok (st', acc ++ tl) ∧ StoreLe st st' ∧
      tl.length = recs.length ∧
      (∀ (k : Nat) (rk : ModelDict) (mk : Model),
        recs[k]? = some rk → tl[k]? = some mk → ReconOk st' rk mk) ∧
      ((tl.map (fun m' => st'.colls m'.pcoll)).flatten).Nodup ∧
      (∀ x ∈ (tl.map (fun m' => st'.colls m'.pcoll)).flatten,
        st.nextP ≤ x ∧ x < st'.nextP) ∧
      ((tl.map collIdsOf).flatten).Nodup ∧
      (∀ c ∈ (tl.map collIdsOf).flatten, st.nextC ≤ c ∧ c < st'.nextC) := by
  induction recs generalizing st acc with
  | nil =>
    refine ⟨st, [], by simp [dictToModelsAux], StoreLe.refl st, rfl, ?_, by simp, ?_, by simp, ?_⟩
    · intro k rk mk hk
      simp at hk
    · intro x hx
      simp at hx
    · intro c hc
      simp at hc
  | cons r0 rest ih =>
    obtain ⟨hok0, hm0⟩ := hrec r0 (List.mem_cons_self _ _)
    obtain ⟨stA, m1, hsky1, hleA, hrecon, hnd1, hbnd1, hcnd1, hcbnd1⟩ :=
      dictToSkymodel_spec2 st r0 hok0 hm0
    obtain ⟨st', tl', hrun, hle', hlen, hpos, hfnd, hfbnd, hcnd, hcbnd⟩ :=
      ih stA (acc ++ [m1]) (fun r hr => hrec r (List.mem_cons_of_mem _ hr))
    have hpc_lt : Model.pcoll m1 < stA.nextC := by
      obtain ⟨sp, spec, comb, _, _, hmEq, _⟩ := hrecon
      subst hmEq
      exact (hcbnd1 comb (by simp [collIdsOf])).2
    have hfr : st'.colls (Model.pcoll m1) = stA.colls (Model.pcoll m1) :=
      hle'.2.2.2 _ hpc_lt
    refine ⟨st', m1 :: tl', ?_, StoreLe.trans hleA hle', by simpa using hlen, ?_, ?_, ?_, ?_, ?_⟩
    · rw [dictToModelsAux, hm0, hsky1]
      rw [List.append_assoc, List.singleton_append] at hrun
      exact hrun
    · intro k rk mk hk hmk
      cases k with
      | zero =>
        simp only [List.getElem?_cons_zero, Option.some.injEq] at hk hmk
        subst hk
        subst hmk
        exact hrecon.mono hle'
      | succ k' =>
        simp only [List.getElem?_cons_succ] at hk hmk
        exact hpos k' rk mk hk hmk
    · rw [List.map_cons, List.flatten_cons]
      refine List.nodup_append.mpr ⟨?_, hfnd, ?_⟩
      · rw [hfr]
        exact hnd1
      · intro x hx hx2
        rw [hfr] at hx
        have h1 := (hbnd1 x hx).2
        have h2 := (hfbnd x hx2).1
        omega
    · rw [List.map_cons, List.flatten_cons]
      intro x hx
      rcases List.mem_append.mp hx with h | h
      · rw [hfr] at h
        obtain ⟨ha, hb⟩ := hbnd1 x h
        exact ⟨ha, lt_of_lt_of_le hb hle'.1⟩
      · obtain ⟨ha, hb⟩ := hfbnd x h
        exact ⟨le_trans hleA.1 ha, hb⟩
    · rw [List.map_cons, List.flatten_cons]
      refine List.nodup_append.mpr ⟨hcnd1, hcnd, ?_⟩
      · intro c hc hc2
        have h1 := (hcbnd1 c hc).2
        have h2 := (hcbnd c hc2).1
        omega
    · rw [List.map_cons, List.flatten_cons]
      intro c hc
      rcases List.mem_append.mp hc with h | h
      · obtain ⟨ha, hb⟩ := hcbnd1 c h
        exact ⟨ha, lt_of_lt_of_le hb hle'.2.1⟩
      · obtain ⟨ha, hb⟩ := hcbnd c h
        exact ⟨le_trans hleA.2.1 ha, hb⟩

theorem getElem?_zip_some {α β : Type} (l1 : List α) (l2 : List β) (i : Nat) (a : α)
    (b : β) (h1 : l1[i]? = some a) (h2 : l2[i]? = some b) :
    (l1.zip l2)[i]? = some (a, b) := by
  induction l1 generalizing l2 i with
  | nil => simp at h1
  | cons x xs ih =>
    cases l2 with
    | nil => simp at h2
    | cons y ys =>
      cases i with
      | zero =>
        simp only [List.getElem?_cons_zero, Option.some.injEq] at h1 h2
        subst h1
        subst h2
        simp [List.zip_cons_cons]
      | succ i' =>
        simp only [List.getElem?_cons_succ] at h1 h2 ⊢
        rw [List.zip_cons_cons]
        simpa using ih ys i' h1 h2

theorem getElem?_append_offset {α : Type} (l1 l2 : List α) (k : Nat) :
    (l1 ++ l2)[l1.length + k]? = l2[k]? := by
  rw [List.getElem?_append]
  rw [if_neg (by omega)]
  congr 1
  omega

theorem set_append_offset {α : Type} (l1 l2 : List α) (k : Nat) (v : α) :
    (l1 ++ l2).set (l1.length + k) v = l1 ++ l2.set k v := by
  induction l1 with
  | nil => simp
  | cons x xs ih =>
    have harith : (x :: xs).length + k = (xs.length + k) + 1 := by
      simp
      omega
    rw [harith, List.cons_append, List.set_cons_succ, ih, List.cons_append]

theorem take_set_of_le {α : Type} (l : List α) (s : Nat) (v : α) (n : Nat) (h : n ≤ s) :
    (l.set s v).take n = l.take n := by
  apply List.ext_getElem?
  intro u
  by_cases hu : u < n
  · rw [List.getElem?_take_of_lt hu, List.getElem?_take_of_lt hu,
      List.getElem?_set_ne (by omega : s ≠ u)]
  · rw [List.getElem?_take_eq_none (by omega), List.getElem?_take_eq_none (by omega)]

theorem lookupReg_mem (reg : List (PStr × Nat)) (ν : PStr) (c : Nat)
    (h : lookupReg reg ν = some c) : (ν, c) ∈ reg := by
  induction reg with
  | nil => simp [lookupReg] at h
  | cons kv rest ih =>
    rw [lookupReg] at h
    by_cases hk : kv.1 = ν
    · rw [if_pos hk] at h
      have : kv = (ν, c) := by
        obtain ⟨k1, k2⟩ := kv
        simp only at hk
        simp only [Option.some.injEq] at h
        rw [hk, h]
      exact this ▸ List.mem_cons_self _ _
    · rw [if_neg hk] at h
      exact List.mem_cons_of_mem _ (ih h)

theorem not_mem_take_of_nodup {α : Type} (l : List α) (s : Nat) (x : α)
    (hnd : l.Nodup) (hx : l[s]? = some x) : x ∉ l.take s := by
  intro hmem
  conv at hnd => rw [← List.take_append_drop s l]
  obtain ⟨h1, h2, hdisj⟩ := List.nodup_append.mp hnd
  have h0 : (l.drop s)[0]? = some x := by
    rw [List.getElem?_drop]
    simpa using hx
  exact hdisj hmem (List.getElem?_mem h0)

theorem indexOf_eq_of (l : List PStr) (a : PStr) (s : Nat)
    (hs : l[s]? = some a)
    (hpre : ∀ (u : Nat) (x : PStr), u < s → l[u]? = some x → x ≠ a) :
    l.indexOf a = s := by
  induction l generalizing s with
  | nil => simp at hs
  | cons y ys ih =>
    rw [List.indexOf_cons]
    cases s with
    | zero =>
      simp only [List.getElem?_cons_zero, Option.some.injEq] at hs
      subst hs
      simp
    | succ s' =>
      simp only [List.getElem?_cons_succ] at hs
      have hy : y ≠ a := hpre 0 y (Nat.succ_pos _) (by simp)
      have hyf : (y == a) = false := by simpa using hy
      rw [hyf]
      simp only [cond_false]
      rw [ih s' hs ?_]
      intro u x hu hux
      exact hpre (u + 1) x (by omega) (by simpa using hux)

theorem getElem?_zip_inv {α β : Type} (l1 : List α) (l2 : List β) (u : Nat) (a : α)
    (b : β) (h : (l1.zip l2)[u]? = some (a, b)) :
    l1[u]? = some a ∧ l2[u]? = some b := by
  induction l1 generalizing l2 u with
  | nil => simp at h
  | cons x xs ih =>
    cases l2 with
    | nil => simp at h
    | cons y ys =>
      rw [List.zip_cons_cons] at h
      cases u with
      | zero =>
        simp only [List.getElem?_cons_zero, Option.some.injEq, Prod.mk.injEq] at h
        simp [h.1, h.2]
      | succ u' =>
        simp only [List.getElem?_cons_succ] at h ⊢
        exact ih ys u' h

theorem resolvedIds_length (reg : List (PStr × Nat)) (ids : List Nat) (names : List PStr)
    (h : names.length = ids.length) : (resolvedIds reg ids names).length = ids.length := by
  simp [resolvedIds, h]

theorem resolvedIds_getElem (reg : List (PStr × Nat)) (ids : List Nat)
    (names : List PStr) (s i : Nat) (nm : PStr)
    (hi : ids[s]? = some i) (hn : names[s]? = some nm) :
    (resolvedIds reg ids names)[s]? = some (resolveSlot reg i nm) := by
  unfold resolvedIds
  rw [List.getElem?_map, getElem?_zip_some ids names s i nm hi hn]
  rfl

theorem resolvedIds_take_succ (reg : List (PStr × Nat)) (ids : List Nat)
    (names : List PStr) (s i : Nat) (nm : PStr)
    (hlen : names.length = ids.length)
    (hi : ids[s]? = some i) (hn : names[s]? = some nm) :
    resolvedIds reg (ids.take (s + 1)) (names.take (s + 1)) =
      resolvedIds reg (ids.take s) (names.take s) ++ [resolveSlot reg i nm] := by
  unfold resolvedIds
  rw [List.take_succ, List.take_succ, hi, hn]
  simp only [Option.toList_some]
  rw [List.zip_append (by simp [hlen])]
  simp

theorem firstIdOf_take_succ (ids : List Nat) (names : List PStr) (s i : Nat)
    (nm ν : PStr) (hlen : names.length = ids.length)
    (hi : ids[s]? = some i) (hn : names[s]? = some nm) :
    firstIdOf (ids.take (s + 1)) (names.take (s + 1)) ν =
      (firstIdOf (ids.take s) (names.take s) ν).or
        (if nm = ν then some i else none) := by
  unfold firstIdOf
  rw [List.take_succ, List.take_succ, hi, hn]
  simp only [Option.toList_some]
  rw [List.zip_append (by simp [hlen]), List.find?_append]
  cases hf : ((ids.take s).zip (names.take s)).find? (fun q => q.2 = ν) with
  | some q => simp [hf]
  | none =>
    simp only [hf, Option.none_or, Option.map_none', List.zip_cons_cons, List.zip_nil_right]
    by_cases hnm : nm = ν
    · rw [List.find?_cons_of_pos _ (by simpa using hnm), if_pos hnm]
      rfl
    · rw [List.find?_cons_of_neg _ (by simpa using hnm), if_neg hnm]
      rfl

theorem firstIdOf_some (ids : List Nat) (names : List PStr) (ν : PStr) (c : Nat)
    (h : firstIdOf ids names ν = some c) :
    ∃ (u : Nat), ids[u]? = some c ∧ names[u]? = some ν := by
  unfold firstIdOf at h
  cases hf : (ids.zip names).find? (fun q => q.2 = ν) with
  | none => rw [hf] at h; cases h
  | some q =>
    rw [hf] at h
    simp only [Option.map_some', Option.some.injEq] at h
    have hq : q ∈ ids.zip names := List.mem_of_find?_eq_some hf
    have hq2 : q.2 = ν := by simpa using List.find?_some hf
    obtain ⟨u, hu⟩ := List.getElem?_of_mem hq
    obtain ⟨h1, h2⟩ := getElem?_zip_inv ids names u q.1 q.2 (by simpa using hu)
    exact ⟨u, by rw [h1, h], by rw [h2, hq2]⟩

theorem firstIdOf_at (ids : List Nat) (names : List PStr) (s i : Nat) (ν : PStr)
    (hi : ids[s]? = some i) (hn : names[s]? = some ν)
    (hpre : ∀ (u : Nat) (x : PStr), u < s → names[u]? = some x → x ≠ ν) :
    firstIdOf ids names ν = some i := by
  induction ids generalizing names s with
  | nil => simp at hi
  | cons x xs ih =>
    cases names with
    | nil => simp at hn
    | cons y ys =>
      unfold firstIdOf
      rw [List.zip_cons_cons]
      cases s with
      | zero =>
        simp only [List.getElem?_cons_zero, Option.some.injEq] at hi hn
        subst hi
        subst hn
        rw [List.find?_cons_of_pos _ (by simp)]
        rfl
      | succ s' =>
        simp only [List.getElem?_cons_succ] at hi hn
        have hy : y ≠ ν := hpre 0 y (Nat.succ_pos _) (by simp)
        rw [List.find?_cons_of_neg _ (by simpa using hy)]
        exact ih ys s' hi hn fun u x hu hux => hpre (u + 1) x (by omega) (by simpa using hux)

theorem updColl_params (st : Store) (i : Nat) (c : List Nat) :
    (updColl st i c).params = st.params := rfl

theorem updColl_nextP (st : Store) (i : Nat) (c : List Nat) :
    (updColl st i c).nextP = st.nextP := rfl

theorem updColl_nextC (st : Store) (i : Nat) (c : List Nat) :
    (updColl st i c).nextC = st.nextC := rfl

theorem updColl_colls_self (st : Store) (i : Nat) (c : List Nat) :
    (updColl st i c).colls i = c := by simp [updColl]

theorem updColl_colls_ne (st : Store) (i : Nat) (c : List Nat) (j : Nat) (h : j ≠ i) :
    (updColl st i c).colls j = st.colls j := by simp [updColl, h]

theorem updParam_nextP (st : Store) (i : Nat) (p : Param) :
    (updParam st i p).nextP = st.nextP := rfl

theorem updParam_nextC (st : Store) (i : Nat) (p : Param) :
    (updParam st i p).nextC = st.nextC := rfl

theorem firstIdOf_none (ids : List Nat) (names : List PStr) (ν : PStr)
    (h : ∀ x ∈ names, x ≠ ν) : firstIdOf ids names ν = none := by
  unfold firstIdOf
  rw [List.find?_eq_none.mpr]
  · rfl
  · intro q hq
    have : q.2 ∈ names := (List.of_mem_zip (by exact hq)).2
    simpa using h q.2 this

theorem itemInv_zero (stE : Store) (regE : List (PStr × Nat)) (comb spC specC : Nat)
    (hsync : stE.colls comb = stE.colls spC ++ stE.colls specC)
    (hreg : ∀ kv ∈ regE, '@' ∈ kv.1 ∧ '@' ∉ (stE.params kv.2).pname) :
    ItemInv stE regE comb spC specC 0 (stE, regE) := by
  unfold ItemInv
  refine ⟨by simp [resolvedIds], ?_, ?_, fun q _ => rfl,
    fun u a hu _ => absurd hu (by omega), ?_, hreg,
    fun kv hkv => Or.inl hkv, fun cid _ _ _ => rfl, rfl, rfl⟩
  · rw [hsync, List.take_left]
  · rw [hsync, List.drop_left]
  · intro ν
    cases hE : lookupReg regE ν with
    | some c => simp
    | none => simp [firstIdOf]

theorem set_at_prefix_length {α : Type} (l1 l2 : List α) (n : Nat) (v : α)
    (h : l1.length = n) : (l1 ++ l2).set n v = l1 ++ l2.set 0 v := by
  subst h
  simpa using set_append_offset l1 l2 0 v

theorem getElem?_at_prefix_length {α : Type} (l1 l2 : List α) (n : Nat)
    (h : l1.length = n) : (l1 ++ l2)[n]? = l2[0]? := by
  subst h
  simpa using getElem?_append_offset l1 l2 0

theorem itemInv_step (stE : Store) (regE : List (PStr × Nat)) (comb spC specC : Nat)
    (hcs : comb ≠ spC) (hcc : comb ≠ specC) (hss : spC ≠ specC)
    (hnd : (stE.colls comb).Nodup)
    (hinj : ∀ a ∈ stE.colls comb, ∀ b ∈ stE.colls comb,
      '@' ∈ (stE.params a).pname →
      (stE.params a).pname = (stE.params b).pname → a = b)
    (hreg : ∀ kv ∈ regE, '@' ∈ kv.1 ∧ '@' ∉ (stE.params kv.2).pname)
    (hdisj : ∀ kv ∈ regE, kv.2 ∉ stE.colls comb)
    (n : Nat) (hn : n < (stE.colls comb).length)
    (acc : Store × List (PStr × Nat))
    (hinv : ItemInv stE regE comb spC specC n acc) :
    ItemInv stE regE comb spC specC (n + 1)
      (linkStep acc (.skyItem comb spC specC) n) := by
  unfold ItemInv at hinv
  obtain ⟨h1, h2, h3, h4, h5, h6, h7, h7b, h8, h9, h10⟩ := hinv
  obtain ⟨a, hida⟩ : ∃ a, (stE.colls comb)[n]? = some a :=
    ⟨_, List.getElem?_eq_getElem hn⟩
  have haeq : (stE.colls comb)[n] = a := by
    have h := List.getElem?_eq_getElem hn
    rw [hida] at h
    exact (Option.some.inj h).symm
  have hamem : a ∈ stE.colls comb := List.getElem?_mem hida
  have hanotin : a ∉ (stE.colls comb).take n :=
    not_mem_take_of_nodup _ n a hnd hida
  have hpa : acc.1.params a = stE.params a := h4 a hanotin
  have hnamen : ((stE.colls comb).map fun j => (stE.params j).pname)[n]? =
      some (stE.params a).pname := by
    rw [List.getElem?_map, hida]
    rfl
  have htakes : (stE.colls comb).take (n + 1) = (stE.colls comb).take n ++ [a] := by
    rw [List.take_succ, hida]
    rfl
  have hlenpref : (resolvedIds regE ((stE.colls comb).take n)
      (((stE.colls comb).map fun j => (stE.params j).pname).take n)).length = n := by
    rw [resolvedIds_length _ _ _ (by simp)]
    simp only [List.length_take]
    omega
  have hcurn : (acc.1.colls comb)[n]? = some a := by
    rw [h1, getElem?_at_prefix_length _ _ n hlenpref, List.getElem?_drop]
    simpa using hida
  have hcurlen : (acc.1.colls comb).length = (stE.colls comb).length := by
    rw [h1, List.length_append, hlenpref, List.length_drop]
    omega
  have hget : (acc.1.colls comb).get? n = some a := by
    rw [List.get?_eq_getElem?]
    exact hcurn
  unfold linkStep
  dsimp only [LinkItem.collId]
  rw [hget]
  dsimp only
  rw [hpa]
  by_cases hat0 : '@' ∈ (stE.params a).pname
  case neg =>
    rw [if_neg hat0]
    unfold ItemInv
    dsimp only
    refine ⟨?_, h2, h3, ?_, ?_, ?_, h7, ?_, h8, h9, h10⟩
    · rw [h1, resolvedIds_take_succ regE _ _ n a ((stE.params a).pname)
        (by simp) hida hnamen, List.drop_eq_getElem_cons hn, haeq]
      have hres : resolveSlot regE a ((stE.params a).pname) = a := by
        unfold resolveSlot
        rw [if_neg hat0]
      rw [hres, List.append_assoc, List.singleton_append]
    · intro q hq
      exact h4 q (fun hmem => hq (by rw [htakes]; exact List.mem_append_left _ hmem))
    · intro u b hu hb
      by_cases hun : u < n
      · exact h5 u b hun hb
      · have huEq : u = n := by omega
        subst huEq
        rw [hcurn] at hb
        obtain rfl := Option.some.inj hb
        rw [hpa]
        exact hat0
    · intro ν
      rw [h6 ν]
      cases hE : lookupReg regE ν with
      | some c => rfl
      | none =>
        dsimp only
        by_cases hν : '@' ∈ ν
        · rw [if_pos hν, if_pos hν,
            firstIdOf_take_succ _ _ n a ((stE.params a).pname) ν (by simp) hida hnamen]
          have hne : ¬((stE.params a).pname = ν) := by
            intro hEq
            exact hat0 (by rw [hEq]; exact hν)
          rw [if_neg hne, Option.or_none]
        · rw [if_neg hν, if_neg hν]
    · intro kv hkv
      rcases h7b kv hkv with h | h
      · exact Or.inl h
      · exact Or.inr (by rw [htakes]; exact List.mem_append_left _ h)
  case pos =>
    rw [if_pos hat0]
    have hfn : firstIdOf ((stE.colls comb).take n)
        (((stE.colls comb).map fun j => (stE.params j).pname).take n)
        ((stE.params a).pname) = none := by
      cases hf : firstIdOf ((stE.colls comb).take n)
          (((stE.colls comb).map fun j => (stE.params j).pname).take n)
          ((stE.params a).pname) with
      | none => rfl
      | some c =>
        obtain ⟨u, hu1, hu2⟩ := firstIdOf_some _ _ _ _ hf
        have hulen : u < n := by
          by_contra hge
          rw [List.getElem?_take_eq_none (by omega)] at hu1
          cases hu1
        rw [List.getElem?_take_of_lt hulen] at hu1
        rw [List.getElem?_take_of_lt hulen] at hu2
        have hmapu : ((stE.colls comb).map fun j => (stE.params j).pname)[u]? =
            some ((stE.params c).pname) := by
          rw [List.getElem?_map, hu1]
          rfl
        have hname_c : (stE.params c).pname = (stE.params a).pname := by
          rw [hmapu] at hu2
          exact Option.some.inj hu2
        have hcm : c ∈ (stE.colls comb).take n := by
          have hh : ((stE.colls comb).take n)[u]? = some c := by
            rw [List.getElem?_take_of_lt hulen]
            exact hu1
          exact List.getElem?_mem hh
        have hcmem : c ∈ stE.colls comb := List.take_subset n _ hcm
        have hac : a = c := hinj a hamem c hcmem hat0 hname_c.symm
        exact absurd (by rw [hac]; exact hcm) hanotin
    have hlk : lookupReg acc.2 ((stE.params a).pname) =
        lookupReg regE ((stE.params a).pname) := by
      rw [h6]
      cases hE : lookupReg regE ((stE.params a).pname) with
      | some c => rfl
      | none =>
        dsimp only
        rw [if_pos hat0, hfn]
    rw [hlk]
    cases hE : lookupReg regE ((stE.params a).pname) with
    | none =>
      dsimp only
      unfold ItemInv
      dsimp only
      refine ⟨?_, ?_, ?_, ?_, ?_, ?_, ?_, ?_, ?_, ?_, ?_⟩
      · rw [updParam_colls, h1, resolvedIds_take_succ regE _ _ n a ((stE.params a).pname)
          (by simp) hida hnamen, List.drop_eq_getElem_cons hn, haeq]
        have hres : resolveSlot regE a ((stE.params a).pname) = a := by
          unfold resolveSlot
          rw [if_pos hat0, hE]
        rw [hres, List.append_assoc, List.singleton_append]
      · rw [updParam_colls]
        exact h2
      · rw [updParam_colls]
        exact h3
      · intro q hq
        have hqa : q ≠ a := by
          intro hEq
          subst hEq
          exact hq (by rw [htakes]; exact List.mem_append_right _ (List.mem_cons_self _ _))
        rw [updParam_params_ne _ _ _ q hqa]
        exact h4 q (fun hmem => hq (by rw [htakes]; exact List.mem_append_left _ hmem))
      · intro u b hu hb
        rw [updParam_colls] at hb
        by_cases hun : u < n
        · have hbold := h5 u b hun hb
          have hba : b ≠ a := by
            intro hEq
            subst hEq
            rw [hpa] at hbold
            exact hbold hat0
          rw [updParam_params_ne _ _ _ b hba]
          exact hbold
        · have huEq : u = n := by omega
          subst huEq
          rw [hcurn] at hb
          obtain rfl := Option.some.inj hb
          rw [updParam_params_self]
          exact pySplitHead_at_free _
      · intro ν'
        rw [lookupReg]
        by_cases hνν : (stE.params a).pname = ν'
        · rw [if_pos hνν]
          subst hνν
          rw [hE]
          dsimp only
          rw [if_pos hat0,
            firstIdOf_take_succ _ _ n a ((stE.params a).pname) _ (by simp) hida hnamen,
            hfn, if_pos rfl, Option.none_or]
        · rw [if_neg hνν, h6 ν']
          cases hE2 : lookupReg regE ν' with
          | some c => rfl
          | none =>
            dsimp only
            by_cases hν' : '@' ∈ ν'
            · rw [if_pos hν', if_pos hν',
                firstIdOf_take_succ _ _ n a ((stE.params a).pname) ν' (by simp) hida hnamen,
                if_neg hνν, Option.or_none]
            · rw [if_neg hν', if_neg hν']
      · intro kv hkv
        rcases List.mem_cons.mp hkv with rfl | hkv'
        · refine ⟨hat0, ?_⟩
          rw [updParam_params_self]
          exact pySplitHead_at_free _
        · obtain ⟨hk1, hk2⟩ := h7 kv hkv'
          refine ⟨hk1, ?_⟩
          have hka : kv.2 ≠ a := by
            intro hEq
            rw [hEq, hpa] at hk2
            exact hk2 hat0
          rw [updParam_params_ne _ _ _ _ hka]
          exact hk2
      · intro kv hkv
        rcases List.mem_cons.mp hkv with rfl | hkv'
        · exact Or.inr (by rw [htakes]; exact List.mem_append_right _ (List.mem_cons_self _ _))
        · rcases h7b kv hkv' with h | h
          · exact Or.inl h
          · exact Or.inr (by rw [htakes]; exact List.mem_append_left _ h)
      · intro cid hc1 hc2 hc3
        rw [updParam_colls]
        exact h8 cid hc1 hc2 hc3
      · rw [updParam_nextP]
        exact h9
      · rw [updParam_nextC]
        exact h10
    | some c =>
      dsimp only
      have hcreg : ((stE.params a).pname, c) ∈ regE := lookupReg_mem _ _ _ hE
      have hcnotids : c ∉ stE.colls comb := hdisj _ hcreg
      have hcname : '@' ∉ (stE.params c).pname := (hreg _ hcreg).2
      have hpc : acc.1.params c = stE.params c :=
        h4 c (fun hm => hcnotids (List.take_subset _ _ hm))
      have hidx : (((acc.1.colls comb).map fun j => (acc.1.params j).pname).indexOf
          ((stE.params a).pname)) = n := by
        apply indexOf_eq_of
        · rw [List.getElem?_map, hcurn]
          simp only [Option.map_some']
          rw [hpa]
        · intro u x hu hux
          rw [List.getElem?_map] at hux
          cases hb : (acc.1.colls comb)[u]? with
          | none => rw [hb] at hux; cases hux
          | some b =>
            rw [hb] at hux
            simp only [Option.map_some'] at hux
            have hxx : (acc.1.params b).pname = x := Option.some.inj hux
            have hfree := h5 u b hu hb
            intro hxeq
            apply hfree
            rw [hxx, hxeq]
            exact hat0
      rw [hidx]
      simp only [updColl_params,
        updColl_colls_ne acc.1 comb ((acc.1.colls comb).set n c) spC (Ne.symm hcs),
        updColl_colls_ne acc.1 comb ((acc.1.colls comb).set n c) specC (Ne.symm hcc)]
      rw [h2, h3]
      have hres : resolveSlot regE a ((stE.params a).pname) = c := by
        unfold resolveSlot
        rw [if_pos hat0, hE]
      by_cases hnA : n < (stE.colls spC).length
      · have hslotA : (((acc.1.colls comb).take (stE.colls spC).length).map
            (fun j => (acc.1.params j).pname))[n]? = some ((stE.params a).pname) := by
          rw [List.getElem?_map, List.getElem?_take_of_lt hnA, hcurn]
          simp only [Option.map_some']
          rw [hpa]
        rw [if_pos (List.getElem?_mem hslotA)]
        have hidx2 : (((acc.1.colls comb).take (stE.colls spC).length).map
            (fun j => (acc.1.params j).pname)).indexOf ((stE.params a).pname) = n := by
          apply indexOf_eq_of
          · exact hslotA
          · intro u x hu hux
            rw [List.getElem?_map, List.getElem?_take_of_lt (by omega : u < (stE.colls spC).length)] at hux
            cases hb : (acc.1.colls comb)[u]? with
            | none => rw [hb] at hux; cases hux
            | some b =>
              rw [hb] at hux
              simp only [Option.map_some'] at hux
              have hxx : (acc.1.params b).pname = x := Option.some.inj hux
              have hfree := h5 u b hu hb
              intro hxeq
              apply hfree
              rw [hxx, hxeq]
              exact hat0
        rw [hidx2]
        unfold ItemInv
        dsimp only
        refine ⟨?_, ?_, ?_, ?_, ?_, ?_, ?_, ?_, ?_, ?_, ?_⟩
        · rw [updColl_colls_ne _ _ _ comb hcs, updColl_colls_self, h1,
            resolvedIds_take_succ regE _ _ n a ((stE.params a).pname)
              (by simp) hida hnamen, hres,
            set_at_prefix_length _ _ n c hlenpref,
            List.drop_eq_getElem_cons hn, haeq, List.set_cons_zero,
            List.append_assoc, List.singleton_append]
        · rw [updColl_colls_self, updColl_colls_ne _ _ _ comb hcs, updColl_colls_self,
            List.set_take]
        · rw [updColl_colls_ne _ _ _ specC (Ne.symm hss),
            updColl_colls_ne _ _ _ specC (Ne.symm hcc),
            updColl_colls_ne _ _ _ comb hcs, updColl_colls_self,
            List.drop_set_of_lt _ _ hnA]
          exact h3
        · intro q hq
          simp only [updColl_params]
          exact h4 q (fun hmem => hq (by rw [htakes]; exact List.mem_append_left _ hmem))
        · intro u b hu hb
          rw [updColl_colls_ne _ _ _ comb hcs, updColl_colls_self] at hb
          simp only [updColl_params]
          by_cases hun : u < n
          · rw [List.getElem?_set_ne (by omega)] at hb
            exact h5 u b hun hb
          · have huEq : u = n := by omega
            subst huEq
            rw [List.getElem?_set_self (by rw [hcurlen]; exact hn)] at hb
            obtain rfl := Option.some.inj hb
            rw [hpc]
            exact hcname
        · intro ν'
          rw [h6 ν']
          cases hE2 : lookupReg regE ν' with
          | some c2 => rfl
          | none =>
            dsimp only
            by_cases hν' : '@' ∈ ν'
            · have hne : ¬((stE.params a).pname = ν') := by
                intro hEq
                rw [← hEq, hE] at hE2
                cases hE2
              rw [if_pos hν', if_pos hν',
                firstIdOf_take_succ _ _ n a ((stE.params a).pname) ν' (by simp) hida hnamen,
                if_neg hne, Option.or_none]
            · rw [if_neg hν', if_neg hν']
        · intro kv hkv
          obtain ⟨hk1, hk2⟩ := h7 kv hkv
          simp only [updColl_params]
          exact ⟨hk1, hk2⟩
        · intro kv hkv
          rcases h7b kv hkv with h | h
          · exact Or.inl h
          · exact Or.inr (by rw [htakes]; exact List.mem_append_left _ h)
        · intro cid hc1 hc2 hc3
          rw [updColl_colls_ne _ _ _ cid hc2, updColl_colls_ne _ _ _ cid hc1]
          exact h8 cid hc1 hc2 hc3
        · simp only [updColl_nextP]
          exact h9
        · simp only [updColl_nextC]
          exact h10
      · have hnotsp : (stE.params a).pname ∉
            ((acc.1.colls comb).take (stE.colls spC).length).map
              (fun j => (acc.1.params j).pname) := by
          intro hmem
          obtain ⟨b, hb, hbeq⟩ := List.mem_map.mp hmem
          obtain ⟨u, hu⟩ := List.getElem?_of_mem hb
          have hulen : u < (stE.colls spC).length := by
            by_contra hge
            rw [List.getElem?_take_eq_none (by omega)] at hu
            cases hu
          rw [List.getElem?_take_of_lt hulen] at hu
          have hfree := h5 u b (by omega) hu
          exact hfree (hbeq.symm ▸ hat0)
        rw [if_neg hnotsp]
        have hslotB : (((acc.1.colls comb).drop (stE.colls spC).length).map
            (fun j => (acc.1.params j).pname))[n - (stE.colls spC).length]? =
            some ((stE.params a).pname) := by
          rw [List.getElem?_map, List.getElem?_drop]
          have harith : (stE.colls spC).length + (n - (stE.colls spC).length) = n := by
            omega
          rw [harith, hcurn]
          simp only [Option.map_some']
          rw [hpa]
        rw [if_pos (List.getElem?_mem hslotB)]
        have hidx3 : (((acc.1.colls comb).drop (stE.colls spC).length).map
            (fun j => (acc.1.params j).pname)).indexOf ((stE.params a).pname) =
            n - (stE.colls spC).length := by
          apply indexOf_eq_of
          · exact hslotB
          · intro u x hu hux
            rw [List.getElem?_map, List.getElem?_drop] at hux
            cases hb : (acc.1.colls comb)[(stE.colls spC).length + u]? with
            | none => rw [hb] at hux; cases hux
            | some b =>
              rw [hb] at hux
              simp only [Option.map_some'] at hux
              have hxx : (acc.1.params b).pname = x := Option.some.inj hux
              have hfree := h5 ((stE.colls spC).length + u) b (by omega) hb
              intro hxeq
              apply hfree
              rw [hxx, hxeq]
              exact hat0
        rw [hidx3]
        unfold ItemInv
        dsimp only
        refine ⟨?_, ?_, ?_, ?_, ?_, ?_, ?_, ?_, ?_, ?_, ?_⟩
        · rw [updColl_colls_ne _ _ _ comb hcc, updColl_colls_self, h1,
            resolvedIds_take_succ regE _ _ n a ((stE.params a).pname)
              (by simp) hida hnamen, hres,
            set_at_prefix_length _ _ n c hlenpref,
            List.drop_eq_getElem_cons hn, haeq, List.set_cons_zero,
            List.append_assoc, List.singleton_append]
        · rw [updColl_colls_ne _ _ _ spC hss,
            updColl_colls_ne _ _ _ spC (Ne.symm hcs),
            updColl_colls_ne _ _ _ comb hcc, updColl_colls_self,
            take_set_of_le _ _ _ _ (by omega)]
          exact h2
        · rw [updColl_colls_self, updColl_colls_ne _ _ _ comb hcc, updColl_colls_self,
            drop_set_ge _ _ _ _ (by omega)]
        · intro q hq
          simp only [updColl_params]
          exact h4 q (fun hmem => hq (by rw [htakes]; exact List.mem_append_left _ hmem))
        · intro u b hu hb
          rw [updColl_colls_ne _ _ _ comb hcc, updColl_colls_self] at hb
          simp only [updColl_params]
          by_cases hun : u < n
          · rw [List.getElem?_set_ne (by omega)] at hb
            exact h5 u b hun hb
          · have huEq : u = n := by omega
            subst huEq
            rw [List.getElem?_set_self (by rw [hcurlen]; exact hn)] at hb
            obtain rfl := Option.some.inj hb
            rw [hpc]
            exact hcname
        · intro ν'
          rw [h6 ν']
          cases hE2 : lookupReg regE ν' with
          | some c2 => rfl
          | none =>
            dsimp only
            by_cases hν' : '@' ∈ ν'
            · have hne : ¬((stE.params a).pname = ν') := by
                intro hEq
                rw [← hEq, hE] at hE2
                cases hE2
              rw [if_pos hν', if_pos hν',
                firstIdOf_take_succ _ _ n a ((stE.params a).pname) ν' (by simp) hida hnamen,
                if_neg hne, Option.or_none]
            · rw [if_neg hν', if_neg hν']
        · intro kv hkv
          obtain ⟨hk1, hk2⟩ := h7 kv hkv
          simp only [updColl_params]
          exact ⟨hk1, hk2⟩
        · intro kv hkv
          rcases h7b kv hkv with h | h
          · exact Or.inl h
          · exact Or.inr (by rw [htakes]; exact List.mem_append_left _ h)
        · intro cid hc1 hc2 hc3
          rw [updColl_colls_ne _ _ _ cid hc3, updColl_colls_ne _ _ _ cid hc1]
          exact h8 cid hc1 hc2 hc3
        · simp only [updColl_nextP]
          exact h9
        · simp only [updColl_nextC]
          exact h10

theorem itemInv_fold (stE : Store) (regE : List (PStr × Nat)) (comb spC specC : Nat)
    (hcs : comb ≠ spC) (hcc : comb ≠ specC) (hss : spC ≠ specC)
    (hsync : stE.colls comb = stE.colls spC ++ stE.colls specC)
    (hnd : (stE.colls comb).Nodup)
    (hinj : ∀ a ∈ stE.colls comb, ∀ b ∈ stE.colls comb,
      '@' ∈ (stE.params a).pname →
      (stE.params a).pname = (stE.params b).pname → a = b)
    (hreg : ∀ kv ∈ regE, '@' ∈ kv.1 ∧ '@' ∉ (stE.params kv.2).pname)
    (hdisj : ∀ kv ∈ regE, kv.2 ∉ stE.colls comb)
    (n : Nat) (hn : n ≤ (stE.colls comb).length) :
    ItemInv stE regE comb spC specC n
      ((List.range n).foldl (fun a i => linkStep a (.skyItem comb spC specC) i)
        (stE, regE)) := by
  induction n with
  | zero => exact itemInv_zero stE regE comb spC specC hsync hreg
  | succ k ih =>
    rw [List.range_succ, List.foldl_append]
    simp only [List.foldl_cons, List.foldl_nil]
    exact itemInv_step stE regE comb spC specC hcs hcc hss hnd hinj hreg hdisj
      k (by omega) _ (ih (by omega))

theorem linkItemRun_spec (stE : Store) (regE : List (PStr × Nat))
    (comb spC specC : Nat)
    (hcs : comb ≠ spC) (hcc : comb ≠ specC) (hss : spC ≠ specC)
    (hsync : stE.colls comb = stE.colls spC ++ stE.colls specC)
    (hnd : (stE.colls comb).Nodup)
    (hinj : ∀ a ∈ stE.colls comb, ∀ b ∈ stE.colls comb,
      '@' ∈ (stE.params a).pname →
      (stE.params a).pname = (stE.params b).pname → a = b)
    (hreg : ∀ kv ∈ regE, '@' ∈ kv.1 ∧ '@' ∉ (stE.params kv.2).pname)
    (hdisj : ∀ kv ∈ regE, kv.2 ∉ stE.colls comb) :
    ItemInv stE regE comb spC specC (stE.colls comb).length
      (linkItemRun (stE, regE) (.skyItem comb spC specC)) := by
  unfold linkItemRun
  dsimp only [LinkItem.collId]
  exact itemInv_fold stE regE comb spC specC hcs hcc hss hsync hnd hinj hreg hdisj
    (stE.colls comb).length (le_refl _)

theorem take_length_map {α β : Type} (l : List α) (f : α → β) :
    (l.map f).take l.length = l.map f := by
  rw [← List.length_map l f]
  exact List.take_length _

theorem flatten_nodup_disjoint (L : List (List Nat)) (u v : Nat) (lu lv : List Nat)
    (hnd : L.flatten.Nodup) (huv : u ≠ v) (hu : L[u]? = some lu)
    (hv : L[v]? = some lv) (x : Nat) (hxu : x ∈ lu) : x ∉ lv := by
  intro hxv
  have h2 := count_flatten_two L u v lu lv x huv hu hv hxu hxv
  have h1 := List.nodup_iff_count_le_one.mp hnd x
  omega

theorem oInv_zero (stR : Store) (ms : List Model) : OInv stR ms 0 (stR, []) := by
  unfold OInv
  refine ⟨fun u m hu _ => absurd hu (by omega), fun kv hkv => absurd hkv (by simp),
    fun kv hkv => absurd hkv (by simp), fun u m _ _ cid _ => rfl,
    fun u m _ _ q _ => rfl⟩

theorem oInv_step (stR : Store) (ms : List Model)
    (hsky : ∀ m ∈ ms, m.isSky = true)
    (hsync : ∀ m ∈ ms, stR.colls m.pcoll =
      stR.colls m.spatialColl ++ stR.colls m.spectralColl)
    (hGnodup : ((ms.map fun m => stR.colls m.pcoll).flatten).Nodup)
    (hCnodup : ((ms.map collIdsOf).flatten).Nodup)
    (hinjG : ∀ m ∈ ms, ∀ a ∈ stR.colls m.pcoll, ∀ b ∈ stR.colls m.pcoll,
      '@' ∈ (stR.params a).pname →
      (stR.params a).pname = (stR.params b).pname → a = b)
    (k : Nat) (hk : k < ms.length) (mdl : Model) (hmk : ms[k]? = some mdl)
    (acc : Store × List (PStr × Nat))
    (hinv : OInv stR ms k acc) :
    OInv stR ms (k + 1) (linkItemRun acc mdl.toLinkItem) := by
  unfold OInv at hinv
  obtain ⟨O1, O2, O3, O4, O5⟩ := hinv
  cases mdl with
  | generic a b c d =>
    exact absurd (hsky _ (List.getElem?_mem hmk)) (by simp [Model.isSky])
  | sky nk spk speck combk =>
    show OInv stR ms (k + 1)
      (linkItemRun (acc.1, acc.2) (.skyItem combk spk.pcoll speck.pcoll))
    have hmem : (.sky nk spk speck combk : Model) ∈ ms := List.getElem?_mem hmk
    have hcolls := O4 k _ (le_refl k) hmk
    have hck : acc.1.colls combk = stR.colls combk :=
      hcolls combk (by simp [collIdsOf])
    have hparams := O5 k _ (le_refl k) hmk
    have hndC : (collIdsOf (.sky nk spk speck combk)).Nodup :=
      (List.nodup_flatten.mp hCnodup).1 _ (List.mem_map_of_mem _ hmem)
    have hdistinct : (spk.pcoll ≠ speck.pcoll ∧ spk.pcoll ≠ combk) ∧
        speck.pcoll ≠ combk := by
      simpa [collIdsOf] using hndC
    obtain ⟨⟨hd1, hd2⟩, hd3⟩ := hdistinct
    have hsync1 : acc.1.colls combk =
        acc.1.colls spk.pcoll ++ acc.1.colls speck.pcoll := by
      rw [hck, hcolls spk.pcoll (by simp [collIdsOf]),
        hcolls speck.pcoll (by simp [collIdsOf])]
      exact hsync _ hmem
    have hmemG : stR.colls combk ∈ ms.map fun m => stR.colls m.pcoll :=
      List.mem_map_of_mem _ hmem
    have hndIds : (stR.colls combk).Nodup := (List.nodup_flatten.mp hGnodup).1 _ hmemG
    have hndIds1 : (acc.1.colls combk).Nodup := by
      rw [hck]
      exact hndIds
    have hinj1 : ∀ a ∈ acc.1.colls combk, ∀ b ∈ acc.1.colls combk,
        '@' ∈ (acc.1.params a).pname →
        (acc.1.params a).pname = (acc.1.params b).pname → a = b := by
      intro a ha b hb hat heq
      rw [hck] at ha hb
      rw [hparams a ha] at hat heq
      rw [hparams b hb] at heq
      exact hinjG _ hmem a ha b hb hat heq
    have hmapk : (ms.map fun m => stR.colls m.pcoll)[k]? =
        some (stR.colls combk) := by
      rw [List.getElem?_map, hmk]
      rfl
    have hmapkC : (ms.map collIdsOf)[k]? =
        some (collIdsOf (.sky nk spk speck combk)) := by
      rw [List.getElem?_map, hmk]
      rfl
    have hdisj1 : ∀ kv ∈ acc.2, kv.2 ∉ acc.1.colls combk := by
      intro kv hkv
      rw [hck]
      have hkvmem := O3 kv hkv
      obtain ⟨l, hl, hkvl⟩ := List.mem_flatten.mp hkvmem
      obtain ⟨u, hu⟩ := List.getElem?_of_mem hl
      rw [List.getElem?_map] at hu
      cases hmu : (ms.take k)[u]? with
      | none => rw [hmu] at hu; cases hu
      | some m' =>
        rw [hmu] at hu
        simp only [Option.map_some'] at hu
        have hulen : u < k := by
          by_contra hge
          rw [List.getElem?_take_eq_none (by omega)] at hmu
          cases hmu
        rw [List.getElem?_take_of_lt hulen] at hmu
        intro hmem2
        have hmapu : (ms.map fun m => stR.colls m.pcoll)[u]? =
            some (stR.colls m'.pcoll) := by
          rw [List.getElem?_map, hmu]
          rfl
        have hu2 : stR.colls m'.pcoll = l := Option.some.inj hu
        exact flatten_nodup_disjoint _ u k _ _ hGnodup (by omega) hmapu hmapk
          kv.2 (hu2.symm ▸ hkvl) hmem2
    have hnames : (stR.colls combk).map (fun j => (acc.1.params j).pname) =
        (stR.colls combk).map (fun j => (stR.params j).pname) :=
      List.map_congr_left (fun q hq => by rw [hparams q hq])
    have hI := linkItemRun_spec acc.1 acc.2 combk spk.pcoll speck.pcoll
      (Ne.symm hd2) (Ne.symm hd3) hd1 hsync1 hndIds1 hinj1 O2 hdisj1
    unfold ItemInv at hI
    simp only [List.take_length, take_length_map, List.drop_length,
      List.append_nil] at hI
    obtain ⟨I1, I2, I3, I4, I5, I6, I7, I8, I9, I10, I11⟩ := hI
    have hI1s : (linkItemRun (acc.1, acc.2)
        (.skyItem combk spk.pcoll speck.pcoll)).1.colls combk =
        resolvedIds acc.2 (stR.colls combk)
          ((stR.colls combk).map fun j => (stR.params j).pname) := by
      rw [I1, hck, hnames]
    have hI6s : ∀ ν, lookupReg (linkItemRun (acc.1, acc.2)
        (.skyItem combk spk.pcoll speck.pcoll)).2 ν =
        match lookupReg acc.2 ν with
        | some c => some c
        | none =>
          if '@' ∈ ν then
            firstIdOf (stR.colls combk)
              ((stR.colls combk).map fun j => (stR.params j).pname) ν
          else none := by
      intro ν
      rw [I6 ν, hck, hnames]
    unfold OInv
    refine ⟨?_, I7, ?_, ?_, ?_⟩
    · intro u m hu hm
      by_cases huk : u < k
      · have hO := O1 u m huk hm
        have hmapuC : (ms.map collIdsOf)[u]? = some (collIdsOf m) := by
          rw [List.getElem?_map, hm]
          rfl
        have hcollm : ∀ cid ∈ collIdsOf m,
            (linkItemRun (acc.1, acc.2)
              (.skyItem combk spk.pcoll speck.pcoll)).1.colls cid =
            acc.1.colls cid := by
          intro cid hcid
          have hnotin := flatten_nodup_disjoint _ u k _ _ hCnodup (by omega)
            hmapuC hmapkC cid hcid
          exact I9 cid (fun hEq => hnotin (by simp [collIdsOf, hEq]))
            (fun hEq => hnotin (by simp [collIdsOf, hEq]))
            (fun hEq => hnotin (by simp [collIdsOf, hEq]))
        have hpm : m.pcoll ∈ collIdsOf m := by
          cases m <;> simp [collIdsOf, Model.pcoll]
        have hpsp : m.spatialColl ∈ collIdsOf m := by
          cases m <;> simp [collIdsOf, Model.spatialColl]
        have hpspec : m.spectralColl ∈ collIdsOf m := by
          cases m <;> simp [collIdsOf, Model.spectralColl]
        constructor
        · intro s i0 hs hat
          obtain ⟨hslot, hsome⟩ := hO.1 s i0 hs hat
          obtain ⟨c, hc⟩ := Option.isSome_iff_exists.mp hsome
          have hlook : lookupReg (linkItemRun (acc.1, acc.2)
              (.skyItem combk spk.pcoll speck.pcoll)).2
              ((stR.params i0).pname) = some c := by
            rw [hI6s, hc]
          constructor
          · rw [hcollm m.pcoll hpm, hslot, hc, hlook]
          · rw [hlook]
            rfl
        · rw [hcollm m.pcoll hpm, hcollm m.spatialColl hpsp,
            hcollm m.spectralColl hpspec]
          exact hO.2
      · have huk2 : u = k := by omega
        subst huk2
        have hmEq : m = .sky nk spk speck combk := by
          rw [hmk] at hm
          exact (Option.some.inj hm).symm
        subst hmEq
        constructor
        · intro s i0 hs hat
          have hs' : (stR.colls combk)[s]? = some i0 := hs
          have hnames_s : ((stR.colls combk).map fun j => (stR.params j).pname)[s]? =
              some ((stR.params i0).pname) := by
            rw [List.getElem?_map, hs']
            rfl
          have hslotv : ((linkItemRun (acc.1, acc.2)
              (.skyItem combk spk.pcoll speck.pcoll)).1.colls combk)[s]? =
              some (resolveSlot acc.2 i0 ((stR.params i0).pname)) := by
            rw [hI1s]
            exact resolvedIds_getElem _ _ _ s i0 _ hs' hnames_s
          cases hrg : lookupReg acc.2 ((stR.params i0).pname) with
          | some c =>
            have hres : resolveSlot acc.2 i0 ((stR.params i0).pname) = c := by
              unfold resolveSlot
              rw [if_pos hat, hrg]
            have hlook : lookupReg (linkItemRun (acc.1, acc.2)
                (.skyItem combk spk.pcoll speck.pcoll)).2
                ((stR.params i0).pname) = some c := by
              rw [hI6s, hrg]
            constructor
            · show ((linkItemRun (acc.1, acc.2)
                (.skyItem combk spk.pcoll speck.pcoll)).1.colls combk)[s]? = _
              rw [hslotv, hres, hlook]
            · rw [hlook]
              rfl
          | none =>
            have hres : resolveSlot acc.2 i0 ((stR.params i0).pname) = i0 := by
              unfold resolveSlot
              rw [if_pos hat, hrg]
            have hfid : firstIdOf (stR.colls combk)
                ((stR.colls combk).map fun j => (stR.params j).pname)
                ((stR.params i0).pname) = some i0 := by
              apply firstIdOf_at _ _ s i0 _ hs' hnames_s
              intro u' x hu' hux
              rw [List.getElem?_map] at hux
              cases hb : (stR.colls combk)[u']? with
              | none => rw [hb] at hux; cases hux
              | some b =>
                have hu'len : u' < (stR.colls combk).length := by
                  by_contra hge
                  rw [List.getElem?_eq_none (by omega)] at hb
                  cases hb
                rw [hb] at hux
                simp only [Option.map_some'] at hux
                obtain rfl := Option.some.inj hux
                intro hxeq
                have hbmem : b ∈ stR.colls combk := List.getElem?_mem hb
                have himem : i0 ∈ stR.colls combk := List.getElem?_mem hs'
                have hbi : b = i0 :=
                  hinjG _ hmem b hbmem i0 himem (by rw [hxeq]; exact hat) hxeq
                subst hbi
                have hus : u' = s := List.getElem?_inj hu'len hndIds (hb.trans hs'.symm)
                omega
            have hlook : lookupReg (linkItemRun (acc.1, acc.2)
                (.skyItem combk spk.pcoll speck.pcoll)).2
                ((stR.params i0).pname) = some i0 := by
              rw [hI6s, hrg]
              dsimp only
              rw [if_pos hat, hfid]
            constructor
            · show ((linkItemRun (acc.1, acc.2)
                (.skyItem combk spk.pcoll speck.pcoll)).1.colls combk)[s]? = _
              rw [hslotv, hres, hlook]
            · rw [hlook]
              rfl
        · show (linkItemRun (acc.1, acc.2)
              (.skyItem combk spk.pcoll speck.pcoll)).1.colls combk =
            (linkItemRun (acc.1, acc.2)
              (.skyItem combk spk.pcoll speck.pcoll)).1.colls spk.pcoll ++
            (linkItemRun (acc.1, acc.2)
              (.skyItem combk spk.pcoll speck.pcoll)).1.colls speck.pcoll
          rw [I2, I3, List.take_append_drop]
    · intro kv hkv
      have htk : ms.take (k + 1) = ms.take k ++ [(.sky nk spk speck combk : Model)] := by
        rw [List.take_succ, hmk]
        rfl
      rw [htk, List.map_append, List.flatten_append]
      rcases I8 kv hkv with h | h
      · exact List.mem_append_left _ (O3 kv h)
      · rw [hck] at h
        refine List.mem_append_right _ ?_
        simp only [List.map_cons, List.map_nil, List.flatten_cons, List.flatten_nil,
          List.append_nil]
        exact h
    · intro u m hu hm cid hcid
      have hmapuC : (ms.map collIdsOf)[u]? = some (collIdsOf m) := by
        rw [List.getElem?_map, hm]
        rfl
      have hnotin := flatten_nodup_disjoint _ u k _ _ hCnodup (by omega)
        hmapuC hmapkC cid hcid
      rw [I9 cid (fun hEq => hnotin (by simp [collIdsOf, hEq]))
        (fun hEq => hnotin (by simp [collIdsOf, hEq]))
        (fun hEq => hnotin (by simp [collIdsOf, hEq]))]
      exact O4 u m (by omega) hm cid hcid
    · intro u m hu hm q hq
      have hmapu : (ms.map fun m => stR.colls m.pcoll)[u]? =
          some (stR.colls m.pcoll) := by
        rw [List.getElem?_map, hm]
        rfl
      have hnotin : q ∉ acc.1.colls combk := by
        rw [hck]
        exact flatten_nodup_disjoint _ u k _ _ hGnodup (by omega) hmapu hmapk q hq
      rw [I4 q hnotin]
      exact O5 u m (by omega) hm q hq

theorem oInv_fold (stR : Store) (ms : List Model)
    (hsky : ∀ m ∈ ms, m.isSky = true)
    (hsync : ∀ m ∈ ms, stR.colls m.pcoll =
      stR.colls m.spatialColl ++ stR.colls m.spectralColl)
    (hGnodup : ((ms.map fun m => stR.colls m.pcoll).flatten).Nodup)
    (hCnodup : ((ms.map collIdsOf).flatten).Nodup)
    (hinjG : ∀ m ∈ ms, ∀ a ∈ stR.colls m.pcoll, ∀ b ∈ stR.colls m.pcoll,
      '@' ∈ (stR.params a).pname →
      (stR.params a).pname = (stR.params b).pname → a = b)
    (k : Nat) (hk : k ≤ ms.length) :
    OInv stR ms k (((ms.take k).map Model.toLinkItem).foldl linkItemRun (stR, [])) := by
  induction k with
  | zero =>
    simp only [List.take_zero, List.map_nil, List.foldl_nil]
    exact oInv_zero stR ms
  | succ j ih =>
    have hj : j < ms.length := by omega
    obtain ⟨mj, hmj⟩ : ∃ m, ms[j]? = some m := ⟨_, List.getElem?_eq_getElem hj⟩
    have htk : ms.take (j + 1) = ms.take j ++ [mj] := by
      rw [List.take_succ, hmj]
      rfl
    rw [htk, List.map_append, List.foldl_append]
    simp only [List.map_cons, List.map_nil, List.foldl_cons, List.foldl_nil]
    exact oInv_step stR ms hsky hsync hGnodup hCnodup hinjG j hj mj hmj _
      (ih (by omega))

theorem linkShared_spec (stR : Store) (ms : List Model)
    (hsky : ∀ m ∈ ms, m.isSky = true)
    (hsync : ∀ m ∈ ms, stR.colls m.pcoll =
      stR.colls m.spatialColl ++ stR.colls m.spectralColl)
    (hGnodup : ((ms.map fun m => stR.colls m.pcoll).flatten).Nodup)
    (hCnodup : ((ms.map collIdsOf).flatten).Nodup)
    (hinjG : ∀ m ∈ ms, ∀ a ∈ stR.colls m.pcoll, ∀ b ∈ stR.colls m.pcoll,
      '@' ∈ (stR.params a).pname →
      (stR.params a).pname = (stR.params b).pname → a = b) :
    OInv stR ms ms.length ((ms.map Model.toLinkItem).foldl linkItemRun (stR, [])) := by
  have h := oInv_fold stR ms hsky hsync hGnodup hCnodup hinjG ms.length (le_refl _)
  rw [List.take_length] at h
  exact h

theorem recon_names (stS st' : Store) (n : PStr) (sp : SpatialModel)
    (spec : SpectralModel) (comb : Nat) (m' : Model)
    (hre : ReconOk st' (modelToDict stS (.sky n sp spec comb)) m') :
    (st'.colls m'.pcoll).map (fun x => (st'.params x).pname) =
      (stS.colls sp.pcoll).map (fun q => (stS.params q).pname) ++
      (stS.colls spec.pcoll).map (fun q => (stS.params q).pname) := by
  obtain ⟨sp', spec', comb', it1, it2, hm', hspat, hspec, hparse, hfn, hparse2,
    hb1, hb2, hb3, hcomb, hbnd, hmap1, hmap2⟩ := hre
  have hit1 : it1 = ⟨sp.stype.clsName, sp.filename,
      (stS.colls sp.pcoll).map (paramToDict stS)⟩ := by
    have hx : (modelToDict stS (.sky n sp spec comb)).spatial =
        some ⟨sp.stype.clsName, sp.filename,
          (stS.colls sp.pcoll).map (paramToDict stS)⟩ := rfl
    rw [hx] at hspat
    exact (Option.some.inj hspat).symm
  have hit2 : it2 = ⟨spec.stype.clsName, none,
      (stS.colls spec.pcoll).map (paramToDict stS)⟩ := by
    have hx : (modelToDict stS (.sky n sp spec comb)).spectral =
        some ⟨spec.stype.clsName, none,
          (stS.colls spec.pcoll).map (paramToDict stS)⟩ := rfl
    rw [hx] at hspec
    exact (Option.some.inj hspec).symm
  have hit1p : it1.parameters = (stS.colls sp.pcoll).map (paramToDict stS) := by
    rw [hit1]
  have hit2p : it2.parameters = (stS.colls spec.pcoll).map (paramToDict stS) := by
    rw [hit2]
  subst hm'
  dsimp only [Model.pcoll]
  rw [hcomb, List.map_append]
  congr 1
  · have h := congrArg (List.map Param.pname) hmap1
    rw [List.map_map, List.map_map, hit1p, List.map_map] at h
    exact h
  · have h := congrArg (List.map Param.pname) hmap2
    rw [List.map_map, List.map_map, hit2p, List.map_map] at h
    exact h

/-- **C1 (amended).**  For every list of composite `SkyModel`s (constructor
invariant `skyWF`, each parameter object listed once per model, `@`-free
original parameter names) whose serialized records are pairwise distinct, if
two models at positions `i ≠ j` hold the identical parameter object `p` at
slots `s` and `t` of their combined collections, then after
`models_to_dict` followed by `dict_to_models` with `link=True` the run
succeeds and the two reconstructed models hold one identical parameter
object at those same slots; moreover each reconstructed model's combined
collection is the concatenation of its nested spatial and spectral
collections, so the identification is visible through the nested
collections at the same slot index. -/
theorem shared_identity_round_trip
    (st : Store) (models : List Model)
    (hsky : ∀ m ∈ models, m.isSky = true)
    (hwf : ∀ m ∈ models, skyWF st m = true)
    (honce : ∀ m ∈ models, (st.colls m.pcoll).Nodup)
    (hat : ∀ pid ∈ allParamIds st models, '@' ∉ (st.params pid).pname)
    (hdist : (models.map (modelToDict (renameShared st models))).Nodup)
    (i j s t : Nat) (mi mj : Model) (p : Nat)
    (hij : i ≠ j) (hi : models[i]? = some mi) (hj : models[j]? = some mj)
    (hs : (st.colls mi.pcoll)[s]? = some p)
    (ht : (st.colls mj.pcoll)[t]? = some p) :
    ∃ st' ms mi' mj' c,
      dict_to_models (models_to_dict st models).1 (models_to_dict st models).2
        true = .ok (st', ms) ∧
      ms[i]? = some mi' ∧ ms[j]? = some mj' ∧
      (st'.colls mi'.pcoll)[s]? = some c ∧ (st'.colls mj'.pcoll)[t]? = some c ∧
      st'.colls mi'.pcoll =
        st'.colls mi'.spatialColl ++ st'.colls mi'.spectralColl ∧
      st'.colls mj'.pcoll =
        st'.colls mj'.spatialColl ++ st'.colls mj'.spectralColl := by
  have hrecs : (models_to_dict st models).2.components =
      models.map (modelToDict (renameShared st models)) := by
    rw [models_to_dict_components]
    exact dedup_foldl_id _ _ _ (by simpa using hdist)
  have hreclen : ((models_to_dict st models).2.components).length = models.length := by
    rw [hrecs]
    exact List.length_map _ _
  have hrecOk : ∀ r ∈ (models_to_dict st models).2.components,
      recOk r = true ∧ r.model = none := by
    intro r hr
    rw [hrecs] at hr
    obtain ⟨m, hm, hEq⟩ := List.mem_map.mp hr
    subst hEq
    cases m with
    | generic n ty fn pc => exact absurd (hsky _ hm) (by simp [Model.isSky])
    | sky n sp spec comb =>
      exact ⟨by simp [recOk, modelToDict, subToDict, spatialFromName_clsName,
        spectralFromName_clsName], rfl⟩
  obtain ⟨st', tl, hrun, hle, hlen, hpos, hGnod, hbnds, hCnod, hcbnds⟩ :=
    dictToModelsAux_sky_pos (models_to_dict st models).2.components
      (models_to_dict st models).1 [] hrecOk
  rw [List.nil_append] at hrun
  have htllen : tl.length = models.length := by
    rw [hlen]
    exact hreclen
  have hdm : dict_to_models (models_to_dict st models).1
      (models_to_dict st models).2 true =
      .ok (linkShared st' (tl.map Model.toLinkItem), tl) := by
    unfold dict_to_models
    rw [hrun]
    rfl
  have hsky' : ∀ m' ∈ tl, m'.isSky = true := by
    intro m' hm'
    obtain ⟨k, hk⟩ := List.getElem?_of_mem hm'
    have hklen : k < tl.length := by
      by_contra hge
      rw [List.getElem?_eq_none (by omega)] at hk
      cases hk
    obtain ⟨r, hr⟩ : ∃ r, (models_to_dict st models).2.components[k]? = some r :=
      ⟨_, List.getElem?_eq_getElem (by omega)⟩
    obtain ⟨sp', spec', comb', it1, it2, hm'eq, hrest⟩ := hpos k r m' hr hk
    rw [hm'eq]
    rfl
  have hsync' : ∀ m' ∈ tl, st'.colls m'.pcoll =
      st'.colls m'.spatialColl ++ st'.colls m'.spectralColl := by
    intro m' hm'
    obtain ⟨k, hk⟩ := List.getElem?_of_mem hm'
    have hklen : k < tl.length := by
      by_contra hge
      rw [List.getElem?_eq_none (by omega)] at hk
      cases hk
    obtain ⟨r, hr⟩ : ∃ r, (models_to_dict st models).2.components[k]? = some r :=
      ⟨_, List.getElem?_eq_getElem (by omega)⟩
    obtain ⟨sp', spec', comb', it1, it2, hm'eq, hspat, hspec, hparse, hfn,
      hparse2, hb1, hb2, hb3, hcomb, hrest⟩ := hpos k r m' hr hk
    subst hm'eq
    dsimp only [Model.pcoll, Model.spatialColl, Model.spectralColl]
    exact hcomb
  have hinjG' : ∀ m' ∈ tl, ∀ a ∈ st'.colls m'.pcoll, ∀ b ∈ st'.colls m'.pcoll,
      '@' ∈ (st'.params a).pname →
      (st'.params a).pname = (st'.params b).pname → a = b := by
    intro m' hm' a ha b hb hat' heq'
    obtain ⟨k, hk⟩ := List.getElem?_of_mem hm'
    have hklen : k < tl.length := by
      by_contra hge
      rw [List.getElem?_eq_none (by omega)] at hk
      cases hk
    have hkmod : k < models.length := by omega
    obtain ⟨mk0, hmodk⟩ : ∃ m, models[k]? = some m :=
      ⟨_, List.getElem?_eq_getElem hkmod⟩
    obtain ⟨nmk, spk, speck, combk, rfl⟩ :
        ∃ n2 sp2 spec2 comb2, mk0 = .sky n2 sp2 spec2 comb2 := by
      cases mk0 with
      | sky a2 b2 c2 d2 => exact ⟨a2, b2, c2, d2, rfl⟩
      | generic a2 b2 c2 d2 =>
        exact absurd (hsky _ (List.getElem?_mem hmodk)) (by simp [Model.isSky])
    have hrk : (models_to_dict st models).2.components[k]? =
        some (modelToDict (renameShared st models) (.sky nmk spk speck combk)) := by
      rw [hrecs, List.getElem?_map, hmodk]
      rfl
    have hre_k := hpos k _ _ hrk hk
    have hwfk : st.colls combk = st.colls spk.pcoll ++ st.colls speck.pcoll := by
      have h := hwf _ (List.getElem?_mem hmodk)
      simpa [skyWF] using h
    have hnames_k : (st'.colls m'.pcoll).map (fun x => (st'.params x).pname) =
        (st.colls combk).map
          (fun q => ((renameShared st models).params q).pname) := by
      have h := recon_names (renameShared st models) st' nmk spk speck combk m' hre_k
      rw [renameShared_colls] at h
      rw [h, hwfk, List.map_append]
    obtain ⟨sa, hsa⟩ := List.getElem?_of_mem ha
    obtain ⟨sb, hsb⟩ := List.getElem?_of_mem hb
    have hmapa : ((st'.colls m'.pcoll).map (fun x => (st'.params x).pname))[sa]? =
        some ((st'.params a).pname) := by
      rw [List.getElem?_map, hsa]
      rfl
    have hmapb : ((st'.colls m'.pcoll).map (fun x => (st'.params x).pname))[sb]? =
        some ((st'.params b).pname) := by
      rw [List.getElem?_map, hsb]
      rfl
    rw [hnames_k, List.getElem?_map] at hmapa hmapb
    cases hqa : (st.colls combk)[sa]? with
    | none => rw [hqa] at hmapa; cases hmapa
    | some qa =>
      cases hqb : (st.colls combk)[sb]? with
      | none => rw [hqb] at hmapb; cases hmapb
      | some qb =>
        rw [hqa] at hmapa
        rw [hqb] at hmapb
        simp only [Option.map_some'] at hmapa hmapb
        have hna := Option.some.inj hmapa
        have hnb := Option.some.inj hmapb
        have hqa_all : qa ∈ allParamIds st models := by
          unfold allParamIds
          rw [List.mem_flatten]
          exact ⟨st.colls combk,
            List.mem_map_of_mem (Model.paramIds st) (List.getElem?_mem hmodk),
            List.getElem?_mem hqa⟩
        have hqb_all : qb ∈ allParamIds st models := by
          unfold allParamIds
          rw [List.mem_flatten]
          exact ⟨st.colls combk,
            List.mem_map_of_mem (Model.paramIds st) (List.getElem?_mem hmodk),
            List.getElem?_mem hqb⟩
        have hAt : '@' ∈ ((renameShared st models).params qa).pname := by
          rw [hna]
          exact hat'
        have hEqn : ((renameShared st models).params qa).pname =
            ((renameShared st models).params qb).pname := by
          rw [hna, hnb]
          exact heq'
        have hq := renamed_name_inj st models hat qa qb hqa_all hqb_all hAt hEqn
        subst hq
        have hone : (st.colls combk).Nodup := honce _ (List.getElem?_mem hmodk)
        have hsalen : sa < (st.colls combk).length := by
          by_contra hge
          rw [List.getElem?_eq_none (by omega)] at hqa
          cases hqa
        have hsasb : sa = sb := List.getElem?_inj hsalen hone (hqa.trans hqb.symm)
        subst hsasb
        rw [hsa] at hsb
        exact Option.some.inj hsb
  have hOI := linkShared_spec st' tl hsky' hsync' hGnod hCnod hinjG'
  unfold OInv at hOI
  obtain ⟨hOdone, hOreg, hOval, hOcoll, hOpar⟩ := hOI
  have hilen : i < models.length := by
    by_contra hge
    rw [List.getElem?_eq_none (by omega)] at hi
    cases hi
  have hjlen : j < models.length := by
    by_contra hge
    rw [List.getElem?_eq_none (by omega)] at hj
    cases hj
  obtain ⟨mi', htl_i⟩ : ∃ m', tl[i]? = some m' :=
    ⟨_, List.getElem?_eq_getElem (by omega)⟩
  obtain ⟨mj', htl_j⟩ : ∃ m', tl[j]? = some m' :=
    ⟨_, List.getElem?_eq_getElem (by omega)⟩
  obtain ⟨nmi, spi, speci, combi, rfl⟩ :
      ∃ n2 sp2 spec2 comb2, mi = .sky n2 sp2 spec2 comb2 := by
    cases mi with
    | sky a2 b2 c2 d2 => exact ⟨a2, b2, c2, d2, rfl⟩
    | generic a2 b2 c2 d2 =>
      exact absurd (hsky _ (List.getElem?_mem hi)) (by simp [Model.isSky])
  obtain ⟨nmj, spj, specj, combj, rfl⟩ :
      ∃ n2 sp2 spec2 comb2, mj = .sky n2 sp2 spec2 comb2 := by
    cases mj with
    | sky a2 b2 c2 d2 => exact ⟨a2, b2, c2, d2, rfl⟩
    | generic a2 b2 c2 d2 =>
      exact absurd (hsky _ (List.getElem?_mem hj)) (by simp [Model.isSky])
  have hs' : (st.colls combi)[s]? = some p := hs
  have ht' : (st.colls combj)[t]? = some p := ht
  have hri : (models_to_dict st models).2.components[i]? =
      some (modelToDict (renameShared st models) (.sky nmi spi speci combi)) := by
    rw [hrecs, List.getElem?_map, hi]
    rfl
  have hrj : (models_to_dict st models).2.components[j]? =
      some (modelToDict (renameShared st models) (.sky nmj spj specj combj)) := by
    rw [hrecs, List.getElem?_map, hj]
    rfl
  have hre_i := hpos i _ _ hri htl_i
  have hre_j := hpos j _ _ hrj htl_j
  have hwfi : st.colls combi = st.colls spi.pcoll ++ st.colls speci.pcoll := by
    have h := hwf _ (List.getElem?_mem hi)
    simpa [skyWF] using h
  have hwfj : st.colls combj = st.colls spj.pcoll ++ st.colls specj.pcoll := by
    have h := hwf _ (List.getElem?_mem hj)
    simpa [skyWF] using h
  have hnames_i : (st'.colls mi'.pcoll).map (fun x => (st'.params x).pname) =
      (st.colls combi).map (fun q => ((renameShared st models).params q).pname) := by
    have h := recon_names (renameShared st models) st' nmi spi speci combi mi' hre_i
    rw [renameShared_colls] at h
    rw [h, hwfi, List.map_append]
  have hnames_j : (st'.colls mj'.pcoll).map (fun x => (st'.params x).pname) =
      (st.colls combj).map (fun q => ((renameShared st models).params q).pname) := by
    have h := recon_names (renameShared st models) st' nmj spj specj combj mj' hre_j
    rw [renameShared_colls] at h
    rw [h, hwfj, List.map_append]
  have hleni : (st'.colls mi'.pcoll).length = (st.colls combi).length := by
    have h := congrArg List.length hnames_i
    simpa using h
  have hlenj : (st'.colls mj'.pcoll).length = (st.colls combj).length := by
    have h := congrArg List.length hnames_j
    simpa using h
  have hslen : s < (st.colls combi).length := by
    by_contra hge
    rw [List.getElem?_eq_none (by omega)] at hs'
    cases hs'
  have htlen : t < (st.colls combj).length := by
    by_contra hge
    rw [List.getElem?_eq_none (by omega)] at ht'
    cases ht'
  obtain ⟨i0, hi0⟩ : ∃ x, (st'.colls mi'.pcoll)[s]? = some x :=
    ⟨_, List.getElem?_eq_getElem (by omega)⟩
  obtain ⟨j0, hj0⟩ : ∃ x, (st'.colls mj'.pcoll)[t]? = some x :=
    ⟨_, List.getElem?_eq_getElem (by omega)⟩
  have hν_i : ((renameShared st models).params p).pname = (st'.params i0).pname := by
    have h1 : ((st'.colls mi'.pcoll).map (fun x => (st'.params x).pname))[s]? =
        some ((st'.params i0).pname) := by
      rw [List.getElem?_map, hi0]
      rfl
    rw [hnames_i, List.getElem?_map, hs'] at h1
    simp only [Option.map_some'] at h1
    exact Option.some.inj h1
  have hν_j : ((renameShared st models).params p).pname = (st'.params j0).pname := by
    have h1 : ((st'.colls mj'.pcoll).map (fun x => (st'.params x).pname))[t]? =
        some ((st'.params j0).pname) := by
      rw [List.getElem?_map, hj0]
      rfl
    rw [hnames_j, List.getElem?_map, ht'] at h1
    simp only [Option.map_some'] at h1
    exact Option.some.inj h1
  have hcount : 2 ≤ (allParamIds st models).count p := by
    unfold allParamIds
    apply count_flatten_two _ i j (st.colls combi) (st.colls combj) p hij
    · rw [List.getElem?_map, hi]
      rfl
    · rw [List.getElem?_map, hj]
      rfl
    · exact List.getElem?_mem hs'
    · exact List.getElem?_mem ht'
  have hsharedp : p ∈ collectShared st models :=
    collectShared_mem_of_count st models p hcount
  obtain ⟨u, hu⟩ := List.getElem?_of_mem hsharedp
  have hrenp := renameShared_shared_at st models p u hu
  have hatp : '@' ∈ ((renameShared st models).params p).pname := by
    rw [hrenp]
    show '@' ∈ (st.params p).pname ++ pstr "@shared_" ++ natChars u
    exact List.mem_append_left _ (List.mem_append_right _ (by decide))
  have hdone_i := hOdone i mi' (by omega) htl_i
  have hdone_j := hOdone j mj' (by omega) htl_j
  have hslot_i := hdone_i.1 s i0 hi0 (by rw [← hν_i]; exact hatp)
  have hslot_j := hdone_j.1 t j0 hj0 (by rw [← hν_j]; exact hatp)
  obtain ⟨c, hc⟩ := Option.isSome_iff_exists.mp hslot_i.2
  have hnn : (st'.params j0).pname = (st'.params i0).pname := by
    rw [← hν_i, ← hν_j]
  refine ⟨((tl.map Model.toLinkItem).foldl linkItemRun (st', [])).1, tl, mi', mj', c,
    hdm, htl_i, htl_j, ?_, ?_, hdone_i.2, hdone_j.2⟩
  · rw [hslot_i.1]
    exact hc
  · rw [hslot_j.1, hnn]
    exact hc

/-- C1 witness: two concrete composite models sharing one spectral parameter
object at slot 1 of both combined collections round-trip to two models again
holding one identical object at slot 1, with synchronized nested
collections. -/
theorem shared_identity_round_trip_witness :
    (c1wStore.colls (Model.pcoll c1wA))[1]? = some 1 ∧
    (c1wStore.colls (Model.pcoll c1wB))[1]? = some 1 ∧
    (([c1wA, c1wB].map (modelToDict (renameShared c1wStore [c1wA, c1wB]))).Nodup) ∧
    (∃ st' ms mi' mj' c,
      dict_to_models (models_to_dict c1wStore [c1wA, c1wB]).1
        (models_to_dict c1wStore [c1wA, c1wB]).2 true = .ok (st', ms) ∧
      ms[0]? = some mi' ∧ ms[1]? = some mj' ∧
      (st'.colls mi'.pcoll)[1]? = some c ∧ (st'.colls mj'.pcoll)[1]? = some c ∧
      st'.colls mi'.pcoll =
        st'.colls mi'.spatialColl ++ st'.colls mi'.spectralColl ∧
      st'.colls mj'.pcoll =
        st'.colls mj'.spatialColl ++ st'.colls mj'.spectralColl) :=
  ⟨by decide, by decide, by decide,
    shared_identity_round_trip c1wStore [c1wA, c1wB] (by decide) (by decide)
      (by decide) (by decide) (by decide) 0 1 1 1 c1wA c1wB 1 (by decide)
      (by decide) (by decide) (by decide) (by decide)⟩

end GammapyIO
